import Mathlib

/-!
# rtl-wx: 433 MHz sensor decoding (`rtl-433fm-standalone.c`)

A shallow embedding of the bitstream reader `AD_POP`, of the protocol validators
(`silvercrest_callback`, `rubicson_callback`, `prologue_callback`, `em1000_callback`,
`ws2000_callback`) and of the pulse extractor `pwm_analyze` with the classifier
`classify_signal`, followed by theorems about them.

Conventions of the embedding:
* a `uint8_t` / `uint16_t` / `unsigned int` value is a `Nat`; where the C code stores into such
  a variable the reduction `% 256`, `% 65536` or `% 2^32` is written out;
* a byte buffer `uint8_t bb[BITBUF_COLS]` is a `List Nat`, the bit buffer
  `uint8_t bb[BITBUF_ROWS][BITBUF_COLS]` a list of rows; `BITBUF_ROWS` and `BITBUF_COLS` come
  from a header that is not part of the sources, so no theorem fixes them;
* text written to `stderr` and files is not part of the model.
-/

namespace RtlWx

/-! ## Byte buffers -/

/-- A row of the bit buffer, `uint8_t bb[BITBUF_COLS]`. -/
abbrev Row := List Nat

/-- The bit buffer handed to a validator, `uint8_t bb[BITBUF_ROWS][BITBUF_COLS]`. -/
abbrev BitBuf := List Row

/-- The C expression `bb[i]` on a row; reading past the row is outside the C semantics and
yields `0` here. -/
def Row.byte (row : Row) (i : Nat) : Nat := row.getD i 0

/-- The C expression `bb[r]`: row `r` of the bit buffer. -/
def BitBuf.row (bb : BitBuf) (r : Nat) : Row := bb.getD r []

/-- The C expression `bb[r][c]`. -/
def BitBuf.byte (bb : BitBuf) (r c : Nat) : Nat := (bb.row r).byte c

/-- Every stored value is a `uint8_t`. -/
def BitBuf.IsBytes (bb : BitBuf) : Prop := ∀ r c, bb.byte r c < 256

/-! ## Bitstream reader -/

/-- One iteration of the `for` loop of `AD_POP` (loop variable `i`, accumulator `val`):
`byte_no = (bit+i)/8; bit_no = 7-((bit+i)%8); if (bb[byte_no]&(1<<bit_no)) val = val | (1<<i);`
with `byte_no`, `bit_no` stored as `uint8_t` and `val` as `uint16_t`. -/
def AD_POP_step (bb : Row) (bit : Nat) (val i : Nat) : Nat :=
  let byte_no := ((bit + i) / 8) % 256
  let bit_no := (7 - (bit + i) % 8) % 256
  if bb.byte byte_no &&& (1 <<< bit_no) ≠ 0 then (val ||| (1 <<< i)) % 65536 else val

/-- The function `uint16_t AD_POP(uint8_t bb[BITBUF_COLS], uint8_t bits, uint8_t bit)`:
`val = 0; for (i=0;i<bits;i++) { ... } return val;`. -/
def AD_POP (bb : Row) (bits bit : Nat) : Nat :=
  (List.range bits).foldl (AD_POP_step bb bit) 0

/-- Stream bit `p` of a byte buffer, most-significant bit of each byte first: bit `7 - p mod 8`
of byte `p / 8`. -/
def streamBit (bb : Row) (p : Nat) : Bool := (bb.byte (p / 8)).testBit (7 - p % 8)

/-! ## Redundancy-only validators -/

/-- The conversion `(int16_t)x` of a non-negative `int` (two's complement). -/
def toInt16 (x : Nat) : Int :=
  if x % 65536 < 32768 then ((x % 65536 : Nat) : Int) else ((x % 65536 : Nat) : Int) - 65536

/-- The function `silvercrest_callback`: returns `1` when rows 1..4 start with `F8 4D`,
`0` otherwise. -/
def silvercrest_callback (bb : BitBuf) : Nat :=
  if bb.byte 1 0 = 0xF8 ∧ bb.byte 2 0 = 0xF8 ∧ bb.byte 3 0 = 0xF8 ∧ bb.byte 4 0 = 0xF8 ∧
      bb.byte 1 1 = 0x4d ∧ bb.byte 2 1 = 0x4d ∧ bb.byte 3 1 = 0x4d ∧ bb.byte 4 1 = 0x4d
  then 1 else 0

/-- The condition of the `if` in `rubicson_callback`. -/
def rubicson_check (bb : BitBuf) : Prop :=
  bb.byte 1 0 = bb.byte 2 0 ∧ bb.byte 2 0 = bb.byte 3 0 ∧ bb.byte 3 0 = bb.byte 4 0 ∧
    bb.byte 4 0 = bb.byte 5 0 ∧ bb.byte 5 0 = bb.byte 6 0 ∧ bb.byte 6 0 = bb.byte 7 0 ∧
    bb.byte 7 0 = bb.byte 8 0 ∧ bb.byte 8 0 = bb.byte 9 0 ∧
    (bb.byte 5 0 ≠ 0 ∧ bb.byte 5 1 ≠ 0 ∧ bb.byte 5 2 ≠ 0)

instance (bb : BitBuf) : Decidable (rubicson_check bb) := by
  unfold rubicson_check
  infer_instance

/-- What `rubicson_callback` prints for an accepted buffer. -/
structure RubicsonEvent where
  /-- The printed `rid`, `bb[0][0]`. -/
  rid : Nat
  /-- The local `temp` (an `int16_t`), tenths of a degree. -/
  temp : Int
  /-- The local `temperature_before_dec`, `abs(temp / 10)`. -/
  temperature_before_dec : Nat
  /-- The local `temperature_after_dec`, `abs(temp % 10)`. -/
  temperature_after_dec : Nat
deriving DecidableEq, Repr

/-- The local `temp` of `rubicson_callback` after
`temp = (int16_t)((uint16_t)(bb[0][1] << 12) | (bb[0][2] << 4)); temp = temp >> 4;`
(the right shift of a negative value is the arithmetic one). -/
def rubicson_temp (bb : BitBuf) : Int :=
  let temp := toInt16 (((bb.byte 0 1 <<< 12) % 65536) ||| (bb.byte 0 2 <<< 4))
  temp >>> (4 : Nat)

/-- The body of `rubicson_callback`: the event printed when the buffer is accepted, `none` when
the function returns `0`. -/
def rubicson_event (bb : BitBuf) : Option RubicsonEvent :=
  if rubicson_check bb then
    let temp := rubicson_temp bb
    some { rid := bb.byte 0 0, temp := temp,
           temperature_before_dec := (temp.tdiv 10).natAbs,
           temperature_after_dec := (temp.tmod 10).natAbs }
  else none

/-- The return value of `rubicson_callback`. -/
def rubicson_callback (bb : BitBuf) : Nat := if (rubicson_event bb).isSome then 1 else 0

/-- The condition of the `if` in `prologue_callback`. -/
def prologue_check (bb : BitBuf) : Prop :=
  (bb.byte 1 0 &&& 0xF0 = 0x90 ∧ bb.byte 2 0 &&& 0xF0 = 0x90 ∧ bb.byte 3 0 &&& 0xF0 = 0x90 ∧
      bb.byte 4 0 &&& 0xF0 = 0x90 ∧ bb.byte 5 0 &&& 0xF0 = 0x90 ∧ bb.byte 6 0 &&& 0xF0 = 0x90) ∨
    (bb.byte 1 0 &&& 0xF0 = 0x50 ∧ bb.byte 2 0 &&& 0xF0 = 0x50 ∧ bb.byte 3 0 &&& 0xF0 = 0x50 ∧
      bb.byte 4 0 &&& 0xF0 = 0x50)

instance (bb : BitBuf) : Decidable (prologue_check bb) := by
  unfold prologue_check
  infer_instance

/-- What `prologue_callback` prints for an accepted buffer. -/
structure PrologueEvent where
  /-- Printed `button`: `bb[1][1]&0x04?1:0`. -/
  button : Nat
  /-- Printed `battery`: whether `bb[1][1]&0x08` is set ("Ok") or not ("Low"). -/
  battery : Bool
  /-- The local `temp2` after the shift. -/
  temp2 : Int
  /-- Printed `humidity`: `((bb[1][3]&0x0F)<<4)|(bb[1][4]>>4)`. -/
  humidity : Nat
  /-- Printed `channel`: `(bb[1][1]&0x03)+1`. -/
  channel : Nat
  /-- Printed `id`: `(bb[1][0]&0xF0)>>4`. -/
  id : Nat
  /-- The local `rid`: `((bb[1][0]&0x0F)<<4)|(bb[1][1]&0xF0)>>4`. -/
  rid : Nat
deriving DecidableEq, Repr

/-- The body of `prologue_callback`: the event printed when the buffer is accepted, `none`
when the function returns `0`. -/
def prologue_event (bb : BitBuf) : Option PrologueEvent :=
  if prologue_check bb then
    let temp2 := toInt16 (((bb.byte 1 2 <<< 8) % 65536) ||| (bb.byte 1 3 &&& 0xF0))
    some { button := if bb.byte 1 1 &&& 0x04 ≠ 0 then 1 else 0,
           battery := decide (bb.byte 1 1 &&& 0x08 ≠ 0),
           temp2 := temp2 >>> (4 : Nat),
           humidity := ((bb.byte 1 3 &&& 0x0F) <<< 4) ||| (bb.byte 1 4 >>> 4),
           channel := (bb.byte 1 1 &&& 0x03) + 1,
           id := (bb.byte 1 0 &&& 0xF0) >>> 4,
           rid := ((bb.byte 1 0 &&& 0x0F) <<< 4) ||| ((bb.byte 1 1 &&& 0xF0) >>> 4) }
  else none

/-- The return value of `prologue_callback`. -/
def prologue_callback (bb : BitBuf) : Nat := if (prologue_event bb).isSome then 1 else 0

/-! ## Framed-byte validator (ELV EM 1000) -/

/-- One column of the majority combination in `em1000_callback`:
`if (bb[0][i]==bb[1][i] || bb[0][i]==bb[2][i]) bb_p[i]=bb[0][i];
 else if (bb[1][i]==bb[2][i]) bb_p[i]=bb[1][i]; else return 0;`. -/
def em1000_column (b0 b1 b2 : Nat) : Option Nat :=
  if b0 = b1 ∨ b0 = b2 then some b0 else if b1 = b2 then some b1 else none

/-- The first loop of `em1000_callback` run for `n` columns (`n = 14` in the source): the
array `bb_p` built so far, `none` once a column made the function return `0`. -/
def em1000_combine_upto (bb : BitBuf) (n : Nat) : Option Row :=
  (List.range n).foldl
    (fun acc i => acc.bind fun bb_p =>
      (em1000_column (bb.byte 0 i) (bb.byte 1 i) (bb.byte 2 i)).map fun b => bb_p ++ [b])
    (some [])

/-- The loop `for (i = 0; i < 14; i++)` of `em1000_callback`. -/
def em1000_combine (bb : BitBuf) : Option Row := em1000_combine_upto bb 14

/-- The locals of `em1000_callback` that its second loop updates. -/
structure Em1000State where
  /-- The bytes `dec[0..]` read so far. -/
  dec : List Nat
  /-- The `uint8_t` counter `bytes`. -/
  bytes : Nat
  /-- The `uint8_t` bit cursor `bit`. -/
  bit : Nat
  /-- The `uint8_t` running XOR `checksum_calculated`. -/
  checksum_calculated : Nat
deriving DecidableEq, Repr

/-- The locals before the second loop: `bytes=0`, `bit=18`, `checksum_calculated=0`. -/
def em1000_init : Em1000State := { dec := [], bytes := 0, bit := 18, checksum_calculated := 0 }

/-- One round of the second loop of `em1000_callback`:
`dec[i] = AD_POP (bb_p, 8, bit); bit+=8; stopbit=AD_POP (bb_p, 1, bit); bit+=1;
 if (!stopbit) return 0; checksum_calculated ^= dec[i]; bytes++;`. -/
def em1000_read_step (bb_p : Row) (s : Em1000State) : Option Em1000State :=
  let d := AD_POP bb_p 8 s.bit % 256
  let bit1 := (s.bit + 8) % 256
  let stopbit := AD_POP bb_p 1 bit1 % 256
  let bit2 := (bit1 + 1) % 256
  if stopbit = 0 then none
  else some { dec := s.dec ++ [d], bytes := (s.bytes + 1) % 256, bit := bit2,
              checksum_calculated := (s.checksum_calculated ^^^ d) % 256 }

/-- The second loop of `em1000_callback` run for `n` rounds (`n = 9` in the source). -/
def em1000_read (bb_p : Row) (n : Nat) : Option Em1000State :=
  (List.range n).foldl (fun acc _ => acc.bind (em1000_read_step bb_p)) (some em1000_init)

/-- The body of `em1000_callback`: the decoded bytes `dec[0..8]` when the message is accepted,
`none` when the function returns `0`. -/
def em1000_decode (bb : BitBuf) : Option (List Nat) :=
  (em1000_combine bb).bind fun bb_p =>
    (em1000_read bb_p 9).bind fun s =>
      let checksum_received := AD_POP bb_p 8 s.bit % 256
      if checksum_received ≠ s.checksum_calculated then none else some s.dec

/-- The return value of `em1000_callback`. -/
def em1000_callback (bb : BitBuf) : Nat := if (em1000_decode bb).isSome then 1 else 0

/-- The XOR of a list of values, from the left. -/
def xorList (l : List Nat) : Nat := l.foldl (· ^^^ ·) 0

/-- The nine 8-bit fields that `em1000_callback` reads, at bits `18 + 9k`. -/
def em1000_fields (bb_p : Row) : List Nat := (List.range 9).map fun k => AD_POP bb_p 8 (18 + 9 * k)

/-- Value `v` is held by at least two of the three rows. -/
def heldByTwo (v b0 b1 b2 : Nat) : Prop :=
  (v = b0 ∧ v = b1) ∨ (v = b0 ∧ v = b2) ∨ (v = b1 ∧ v = b2)

/-- The 8-bit fields read by the first `n` rounds of the second loop. -/
def em1000_fields_upto (bb_p : Row) (n : Nat) : List Nat :=
  (List.range n).map fun k => AD_POP bb_p 8 (18 + 9 * k)

/-- What `em1000_callback` requires of the combined row: all nine stop bits set and the field
at bit 99 equal to the XOR of the nine data fields. -/
def em1000_frame_ok (bb_p : Row) : Prop :=
  (∀ k, k < 9 → streamBit bb_p (26 + 9 * k) = true) ∧
    AD_POP bb_p 8 99 = xorList (em1000_fields bb_p)

/-! ## Framed-nibble validator (ELV WS 2000) -/

/-- The locals of `ws2000_callback` that reading nibbles updates. -/
structure Ws2000State where
  /-- The nibbles `dec[0..]` read so far. -/
  dec : List Nat
  /-- The `uint8_t` counter `nibbles`. -/
  nibbles : Nat
  /-- The `uint8_t` bit cursor `bit`. -/
  bit : Nat
  /-- The `uint8_t` running XOR `check_calculated`. -/
  check_calculated : Nat
  /-- The `uint8_t` running sum `sum_calculated`. -/
  sum_calculated : Nat
deriving DecidableEq, Repr

/-- The locals at entry: `nibbles=0`, `bit=11`, `check_calculated=0`, `sum_calculated=0`. -/
def ws2000_init : Ws2000State :=
  { dec := [], nibbles := 0, bit := 11, check_calculated := 0, sum_calculated := 0 }

/-- Reading one nibble and its stop bit in `ws2000_callback`:
`dec[i] = AD_POP (bb[0], 4, bit); bit+=4; stopbit= AD_POP (bb[0], 1, bit); bit+=1;
 if (!stopbit) return 0; check_calculated ^= dec[i]; sum_calculated += dec[i];`. -/
def ws2000_read_nibble (row : Row) (s : Ws2000State) : Option Ws2000State :=
  let d := AD_POP row 4 s.bit % 256
  let bit1 := (s.bit + 4) % 256
  let stopbit := AD_POP row 1 bit1 % 256
  let bit2 := (bit1 + 1) % 256
  if stopbit = 0 then none
  else some { dec := s.dec ++ [d], nibbles := s.nibbles, bit := bit2,
              check_calculated := (s.check_calculated ^^^ d) % 256,
              sum_calculated := (s.sum_calculated + d) % 256 }

/-- One round of the loop of `ws2000_callback`: a nibble with its stop bit, then `nibbles++`. -/
def ws2000_loop_step (row : Row) (s : Ws2000State) : Option Ws2000State :=
  (ws2000_read_nibble row s).map fun s1 => { s1 with nibbles := (s1.nibbles + 1) % 256 }

/-- The loop `for (i = 1; i <= n; i++)` of `ws2000_callback` run for `n` rounds, entered with the
locals `s0` (`none` once the function has returned `0`). -/
def ws2000_loop (row : Row) (n : Nat) (s0 : Option Ws2000State) : Option Ws2000State :=
  (List.range n).foldl (fun acc _ => acc.bind (ws2000_loop_step row)) s0

/-- The body of `ws2000_callback`: the decoded nibbles when the message is accepted, `none` when
the function returns `0`. The loop bound `dec[0]==4?12:8` is evaluated once: the loop writes
`dec[i]` for `i >= 1` only. -/
def ws2000_decode (bb : BitBuf) : Option (List Nat) :=
  (ws2000_read_nibble (bb.row 0) ws2000_init).bind fun s0 =>
    let n := if s0.dec.getD 0 0 = 4 then 12 else 8
    (ws2000_loop (bb.row 0) n (some s0)).bind fun s =>
      if s.check_calculated ≠ 0 then none
      else
        let sum_received := AD_POP (bb.row 0) 4 s.bit % 256
        let sum_calculated := ((s.sum_calculated + 5) % 256) &&& 0xF
        if sum_received ≠ sum_calculated then none else some s.dec

/-- The return value of `ws2000_callback`. -/
def ws2000_callback (bb : BitBuf) : Nat := if (ws2000_decode bb).isSome then 1 else 0

/-- The first `m` 4-bit fields that `ws2000_callback` reads, at bits `11 + 5k`. -/
def ws2000_nibbles (row : Row) (m : Nat) : List Nat :=
  (List.range m).map fun k => AD_POP row 4 (11 + 5 * k)

/-- The number of nibbles that follow the type nibble: `dec[0]==4?12:8`. -/
def ws2000_count (row : Row) : Nat := if AD_POP row 4 11 = 4 then 12 else 8

/-- What `ws2000_callback` requires of row 0, with `n` nibbles after the type nibble: the
`n + 1` stop bits set, the XOR of the `n + 1` nibbles zero and the following 4-bit field equal to
the sum of the nibbles plus 5, modulo 16. -/
def ws2000_frame_ok (row : Row) (n : Nat) : Prop :=
  (∀ k, k ≤ n → streamBit row (15 + 5 * k) = true) ∧
    xorList (ws2000_nibbles row (n + 1)) = 0 ∧
    AD_POP row 4 (11 + 5 * (n + 1)) = ((ws2000_nibbles row (n + 1)).sum + 5) % 16

/-! ### Re-encoding (the inverse convention, used to state the round trip) -/

/-- Byte `x` with its bit `k` set to `b`. -/
def setByteBit (x k : Nat) (b : Bool) : Nat := if x.testBit k = b then x else x ^^^ 2 ^ k

/-- The buffer with stream bit `p` (bit `7 - p mod 8` of byte `p / 8`) set to `b`. -/
def setStreamBit (bb : Row) (p : Nat) (b : Bool) : Row :=
  bb.set (p / 8) (setByteBit (bb.byte (p / 8)) (7 - p % 8) b)

/-- Re-encoding with the convention of `AD_POP`: bit `i` of `v` is written to stream position
`bit + i`, for `i < bits`. -/
def write_bits (bb : Row) (bits bit : Nat) (v : Nat) : Row :=
  (List.range bits).foldl (fun acc i => setStreamBit acc (bit + i) (v.testBit i)) bb

/-! ## Sample buffers used to exercise the validators -/

/-- A Rubicson capture: rows 1 to 9 repeat the message `5A 80 D7`, row 0 starts with a
different byte. -/
def rubicson_sample : BitBuf :=
  [[0x4A, 0x8F, 0xD7], [0x5A, 0x80, 0xD7], [0x5A, 0x80, 0xD7], [0x5A, 0x80, 0xD7],
   [0x5A, 0x80, 0xD7], [0x5A, 0x80, 0xD7], [0x5A, 0x80, 0xD7], [0x5A, 0x80, 0xD7],
   [0x5A, 0x80, 0xD7], [0x5A, 0x80, 0xD7]]

/-- The event of `rubicson_sample`: id `4A`, temperature -4.1 degrees. -/
def rubicson_sample_event : RubicsonEvent :=
  { rid := 0x4A, temp := -41, temperature_before_dec := 4, temperature_after_dec := 1 }

/-! ## Pulse extractor and classifier -/

/-- The modulus of `unsigned int` arithmetic, `2^32`. -/
def U32 : Nat := 4294967296

/-- Addition of `unsigned int` values. -/
def uadd (a b : Nat) : Nat := (a + b) % U32

/-- Subtraction of `unsigned int` values. -/
def usub (a b : Nat) : Nat := (a + U32 - b % U32) % U32

/-- Multiplication of `unsigned int` values. -/
def umul (a b : Nat) : Nat := (a * b) % U32

/-- The table `static unsigned int signal_pulse_data[4000][3]`: entry `[i][0]` is the start of
pulse `i`, `[i][1]` its end and `[i][2]` its length. -/
abbrev PulseTable := Nat → Nat → Nat

/-- The assignment `signal_pulse_data[i][j] = v`. -/
def PulseTable.set (d : PulseTable) (i j v : Nat) : PulseTable :=
  fun i' j' => if i' = i ∧ j' = j then v else d i' j'

/-- The table `{{0}}` the program starts with. -/
def PulseTable.zero : PulseTable := fun _ _ => 0

/-- The last loop of `classify_signal`: rows `0..999` are set to zero. -/
def PulseTable.clear (d : PulseTable) : PulseTable :=
  fun i j => if i < 1000 ∧ j < 3 then 0 else d i j

/-- The locals `max`, `min` of `classify_signal`. -/
structure MinMax where
  /-- The local `max`. -/
  max : Nat
  /-- The local `min`. -/
  min : Nat
deriving DecidableEq, Repr

/-- The first loop of `classify_signal`, from `max=0, min=1000000`:
`if (d[i][0] > 0) { if (d[i][2] > max) max = d[i][2]; if (d[i][2] <= min) min = d[i][2]; }`. -/
def pulse_scan (d : PulseTable) : MinMax :=
  (List.range 1000).foldl
    (fun m i =>
      if d i 0 > 0 then
        let m1 : MinMax := if d i 2 > m.max then { m with max := d i 2 } else m
        if d i 2 ≤ m1.min then { m1 with min := d i 2 } else m1
      else m)
    { max := 0, min := 1000000 }

/-- The state of the pulse-length (2-cluster) refinement of `classify_signal`. -/
structure Cluster2 where
  /-- The low center `min`. -/
  min : Nat
  /-- The high center `max`. -/
  max : Nat
  /-- The decision boundary `t`. -/
  t : Nat
  /-- The change of the last round, `delta`. -/
  delta : Nat
  /-- The round counter `k`. -/
  k : Nat
deriving DecidableEq, Repr

/-- The bucket sums and counts of one round of the 2-cluster refinement. -/
structure Sums2 where
  /-- The sum of the lengths below `t`. -/
  min_new : Nat
  /-- Their number. -/
  count_min : Nat
  /-- The sum of the lengths at or above `t`. -/
  max_new : Nat
  /-- Their number. -/
  count_max : Nat
deriving DecidableEq, Repr

/-- The inner loop of the 2-cluster refinement:
`if (d[i][0] > 0) { if (d[i][2] < t) { min_new += d[i][2]; count_min++; }
 else { max_new += d[i][2]; count_max++; } }`. -/
def cluster2_sums (d : PulseTable) (t : Nat) : Sums2 :=
  (List.range 1000).foldl
    (fun a i =>
      if d i 0 > 0 then
        if d i 2 < t then
          { a with min_new := uadd a.min_new (d i 2), count_min := uadd a.count_min 1 }
        else
          { a with max_new := uadd a.max_new (d i 2), count_max := uadd a.count_max 1 }
      else a)
    { min_new := 0, count_min := 0, max_new := 0, count_max := 0 }

/-- One round of the 2-cluster refinement; `none` when `min_new / count_min` or
`max_new / count_max` divides by zero. -/
def cluster2_round (d : PulseTable) (s : Cluster2) : Option Cluster2 :=
  let a := cluster2_sums d s.t
  if a.count_min = 0 ∨ a.count_max = 0 then none
  else
    let min_new := a.min_new / a.count_min
    let max_new := a.max_new / a.count_max
    some { min := min_new, max := max_new, t := uadd min_new max_new / 2,
           delta := uadd (umul (usub s.min min_new) (usub s.min min_new))
                         (umul (usub s.max max_new) (usub s.max max_new)),
           k := s.k + 1 }

/-- The loop `while((k < 10) && (delta > 0))` of the 2-cluster refinement, for at most `fuel`
rounds; `k` starts at 1, so 9 rounds are all the loop can make. -/
def cluster2_loop (d : PulseTable) : Nat → Cluster2 → Option Cluster2
  | 0, s => some s
  | fuel + 1, s =>
    if s.k < 10 ∧ s.delta > 0 then (cluster2_round d s).bind (cluster2_loop d fuel) else some s

/-- The state before the first round: `t=(max+min)/2; delta = (max - min)*(max-min); k=1`. -/
def cluster2_init (d : PulseTable) : Cluster2 :=
  let m := pulse_scan d
  { min := m.min, max := m.max, t := uadd m.max m.min / 2,
    delta := umul (usub m.max m.min) (usub m.max m.min), k := 1 }

/-- The entry `signal_distance_data[j]`: the gap between pulse `j` and pulse `j+1`,
`d[j+1][0] - d[j][1]`, written for `j + 1 < 1000` when `d[j+1][0] > 0`, zero otherwise. -/
def signal_distance_data (d : PulseTable) (j : Nat) : Nat :=
  if j + 1 < 1000 ∧ d (j + 1) 0 > 0 then usub (d (j + 1) 0) (d j 1) else 0

/-- The initial guesses `a[0]`, `a[2]` of the gap refinement. -/
structure GapRange where
  /-- The smallest gap, `a[0]` (also kept in `min`). -/
  a0 : Nat
  /-- The largest gap, `a[2]` (also kept in `max`). -/
  a2 : Nat
deriving DecidableEq, Repr

/-- The loop `for (i=1 ; i<1000 ; i++)` of `classify_signal`, from `a[0]=1000000, a[2]=0`:
`if (d[i][0] > 0) { dist = d[i][0]-d[i-1][1]; if (dist > a[2]) a[2] = dist;
 if (dist <= a[0]) a[0] = dist; }`. -/
def gap_scan (d : PulseTable) : GapRange :=
  (List.range' 1 999).foldl
    (fun m i =>
      if d i 0 > 0 then
        let dist := usub (d i 0) (d (i - 1) 1)
        let m1 : GapRange := if dist > m.a2 then { m with a2 := dist } else m
        if dist ≤ m1.a0 then { m1 with a0 := dist } else m1
      else m)
    { a0 := 1000000, a2 := 0 }

/-- The state of the gap (3-cluster) refinement of `classify_signal`. -/
structure Cluster3 where
  /-- The center `a[0]`. -/
  a0 : Nat
  /-- The center `a[1]`. -/
  a1 : Nat
  /-- The center `a[2]`. -/
  a2 : Nat
  /-- The boundary `b[0]`. -/
  b0 : Nat
  /-- The boundary `b[1]`. -/
  b1 : Nat
  /-- The change of the last round, `delta`. -/
  delta : Nat
  /-- The round counter `k`. -/
  k : Nat
deriving DecidableEq, Repr

/-- The bucket sums `a_new[]` and counts `a_cnt[]` of one round of the 3-cluster refinement. -/
structure Sums3 where
  /-- The sum `a_new[0]`. -/
  new0 : Nat
  /-- The count `a_cnt[0]`. -/
  cnt0 : Nat
  /-- The sum `a_new[1]`. -/
  new1 : Nat
  /-- The count `a_cnt[1]`. -/
  cnt1 : Nat
  /-- The sum `a_new[2]`. -/
  new2 : Nat
  /-- The count `a_cnt[2]`. -/
  cnt2 : Nat
deriving DecidableEq, Repr

/-- The inner loop of the 3-cluster refinement over `signal_distance_data[0..999]`. -/
def cluster3_sums (dist : Nat → Nat) (b0 b1 : Nat) : Sums3 :=
  (List.range 1000).foldl
    (fun a i =>
      if dist i > 0 then
        if dist i < b0 then
          { a with new0 := uadd a.new0 (dist i), cnt0 := uadd a.cnt0 1 }
        else if dist i < b1 ∧ dist i ≥ b0 then
          { a with new1 := uadd a.new1 (dist i), cnt1 := uadd a.cnt1 1 }
        else if dist i ≥ b1 then
          { a with new2 := uadd a.new2 (dist i), cnt2 := uadd a.cnt2 1 }
        else a
      else a)
    { new0 := 0, cnt0 := 0, new1 := 0, cnt1 := 0, new2 := 0, cnt2 := 0 }

/-- One round of the 3-cluster refinement, with `min`, `max` the observed smallest and largest
gap: bucket means (an empty bucket keeps its sum, zero), `delta`, the two clamping statements
`if (a[0] < min) a[0] = min; if (a[2] > max) a[0] = max;` as the source has them, and the new
boundaries. -/
def cluster3_round (dist : Nat → Nat) (min max : Nat) (s : Cluster3) : Cluster3 :=
  let a := cluster3_sums dist s.b0 s.b1
  let n0 := if a.cnt0 ≠ 0 then a.new0 / a.cnt0 else a.new0
  let n1 := if a.cnt1 ≠ 0 then a.new1 / a.cnt1 else a.new1
  let n2 := if a.cnt2 ≠ 0 then a.new2 / a.cnt2 else a.new2
  let delta := uadd (uadd (uadd 0 (umul (usub s.a0 n0) (usub s.a0 n0)))
    (umul (usub s.a1 n1) (usub s.a1 n1))) (umul (usub s.a2 n2) (usub s.a2 n2))
  let c0 := if n0 < min then min else n0
  let c0 := if n2 > max then max else c0
  { a0 := c0, a1 := n1, a2 := n2, b0 := uadd c0 n1 / 2, b1 := uadd n1 n2 / 2,
    delta := delta, k := s.k + 1 }

/-- The loop `while((k < 10) && (delta > 0))` of the 3-cluster refinement, for at most `fuel`
rounds; `k` starts at 1, so 9 rounds are all the loop can make. -/
def cluster3_loop (dist : Nat → Nat) (min max : Nat) : Nat → Cluster3 → Cluster3
  | 0, s => s
  | fuel + 1, s =>
    if s.k < 10 ∧ s.delta > 0 then cluster3_loop dist min max fuel (cluster3_round dist min max s)
    else s

/-- The state before the first round of the 3-cluster refinement:
`a[1] = (a[0]+a[2])/2; b[0] = (a[0]+a[1])/2; b[1] = (a[1]+a[2])/2; k=1; delta = 10000000`. -/
def cluster3_init (d : PulseTable) : Cluster3 :=
  let g := gap_scan d
  let a1 := uadd g.a0 g.a2 / 2
  { a0 := g.a0, a1 := a1, a2 := g.a2, b0 := uadd g.a0 a1 / 2, b1 := uadd a1 g.a2 / 2,
    delta := 10000000, k := 1 }

/-- What the analysis re-walk hands to the bit packet printer: `demod_add_bit(&p, 0)`,
`demod_add_bit(&p, 1)` or `demod_next_bits_packet(&p)`. -/
inductive Symbol
  | bit0
  | bit1
  | packet
deriving DecidableEq, Repr

/-- The re-walk for a distance-coded signal (`signal_type == 1`) at table position `i`. -/
def rewalk_distance (dist : Nat → Nat) (a0 a1 a2 : Nat) (i : Nat) : List Symbol :=
  if dist i > 0 then
    if dist i < uadd a0 a1 / 2 then [Symbol.bit0]
    else if dist i > uadd a0 a1 / 2 ∧ dist i < uadd a1 a2 / 2 then [Symbol.bit1]
    else if dist i > uadd a1 a2 / 2 then [Symbol.packet]
    else []
  else []

/-- The re-walk for a pulse-coded signal (`signal_type == 2`) at table position `i`. -/
def rewalk_pulse (d : PulseTable) (dist : Nat → Nat) (p_limit a1 a2 : Nat) (i : Nat) :
    List Symbol :=
  if d i 2 > 0 then
    (if d i 2 < p_limit then [Symbol.bit0] else [Symbol.bit1]) ++
      (if dist i ≥ uadd a1 a2 / 2 then [Symbol.packet] else [])
  else []

/-- What `classify_signal` computes and prints. -/
structure Classification where
  /-- The final low center of the pulse lengths, `min`. -/
  min : Nat
  /-- The final high center of the pulse lengths, `max`. -/
  max : Nat
  /-- The local `signal_type`: 2 for pulse coding, 1 for distance coding. -/
  signal_type : Nat
  /-- The local `p_limit`, after the override. -/
  p_limit : Nat
  /-- The printed short distance `a[0]`, after the override. -/
  a0 : Nat
  /-- The printed long distance `a[1]`, after the override. -/
  a1 : Nat
  /-- The printed packet distance `a[2]`. -/
  a2 : Nat
  /-- The symbols handed to the bit packet printer, in order. -/
  symbols : List Symbol
deriving DecidableEq, Repr

/-- How a call of `classify_signal` ends. -/
inductive ClassifyOutcome
  /-- The early `return` taken when `signal_pulse_data[0][0]` is zero: nothing is cleared. -/
  | skipped
  /-- The analysis ran to the end and rows `0..999` of the table were cleared. -/
  | done (c : Classification)
  /-- A division by zero (`min_new / count_min`, `max_new / count_max` or `max/min`). -/
  | crashed
deriving DecidableEq, Repr

/-- The function `classify_signal`, with the statics `override_short` and `override_long` as
arguments. -/
def classify_signal (override_short override_long : Nat) (d : PulseTable) : ClassifyOutcome :=
  if d 0 0 = 0 then ClassifyOutcome.skipped
  else
    match cluster2_loop d 9 (cluster2_init d) with
    | none => ClassifyOutcome.crashed
    | some c2 =>
      if c2.min = 0 then ClassifyOutcome.crashed
      else
        let signal_type := if c2.max / c2.min > 1 then 2 else 1
        let p_limit := uadd c2.max c2.min / 2
        let g := gap_scan d
        let dist := signal_distance_data d
        let c3 := cluster3_loop dist g.a0 g.a2 9 (cluster3_init d)
        let p_limit := if override_short ≠ 0 then override_short else p_limit
        let a0 := if override_short ≠ 0 then override_short else c3.a0
        let a1 := if override_long ≠ 0 then override_long else c3.a1
        let symbols :=
          if signal_type = 1 then (List.range 1000).flatMap (rewalk_distance dist a0 a1 c3.a2)
          else (List.range 1000).flatMap (rewalk_pulse d dist p_limit a1 c3.a2)
        ClassifyOutcome.done
          { min := c2.min, max := c2.max, signal_type := signal_type, p_limit := p_limit,
            a0 := a0, a1 := a1, a2 := c3.a2, symbols := symbols }

/-- The statics of the pulse extractor together with the counter `demod->signal_grabber`. -/
structure PwmState where
  /-- The sample counter `counter`. -/
  counter : Nat
  /-- The flag `print`: a rising sample may open a pulse. -/
  print : Nat
  /-- The flag `print2`: a pulse is open. -/
  print2 : Nat
  /-- The static `pulses_found`. -/
  pulses_found : Nat
  /-- The static `prev_pulse_start`. -/
  prev_pulse_start : Nat
  /-- The static `pulse_start`. -/
  pulse_start : Nat
  /-- The static `pulse_end`. -/
  pulse_end : Nat
  /-- The static `pulse_avg`. -/
  pulse_avg : Nat
  /-- The static `signal_start`; zero when no signal is open. -/
  signal_start : Nat
  /-- The static `signal_end`. -/
  signal_end : Nat
  /-- The pulse table. -/
  signal_pulse_data : PulseTable
  /-- The write cursor `signal_pulse_counter`. -/
  signal_pulse_counter : Nat
  /-- The number of waveform files written so far, `demod->signal_grabber`. -/
  signal_grabber : Nat

/-- The values the statics are initialised with. -/
def pwm_init : PwmState :=
  { counter := 0, print := 1, print2 := 0, pulses_found := 0, prev_pulse_start := 0,
    pulse_start := 0, pulse_end := 0, pulse_avg := 0, signal_start := 0, signal_end := 0,
    signal_pulse_data := PulseTable.zero, signal_pulse_counter := 0, signal_grabber := 0 }

/-- What `pwm_analyze` reads besides the samples: `demod->level_limit`, whether
`demod->sg_buf` is set, and the statics `override_short`, `override_long`. -/
structure PwmConfig where
  /-- The detection level `demod->level_limit`. -/
  level_limit : Int
  /-- Whether the signal grabber is on (`demod->sg_buf` is not null). -/
  sg_buf : Bool
  /-- The static `override_short`. -/
  override_short : Nat
  /-- The static `override_long`. -/
  override_long : Nat

/-- A configuration with level limit 100, the grabber off and no overrides. -/
def pwm_config_100 : PwmConfig :=
  { level_limit := 100, sg_buf := false, override_short := 0, override_long := 0 }

/-- How the processing of a sample (or of a chunk) ends. -/
inductive PwmOutcome
  /-- The loop goes on (for a chunk: `pwm_analyze` returned at the end of the chunk). -/
  | ok (s : PwmState)
  /-- The jump `goto err`: too many pulses, `pwm_analyze` returns at once. -/
  | err (s : PwmState)
  /-- The classifier divided by zero. -/
  | crashed

/-- The first `if` of the loop body of `pwm_analyze`, `if (buf[i] > demod->level_limit)`. -/
def pwm_rising (cfg : PwmConfig) (s : PwmState) (v : Int) : PwmState :=
  if v > cfg.level_limit then
    let s1 : PwmState := if s.signal_start = 0 then { s with signal_start := s.counter } else s
    if s1.print ≠ 0 then
      { s1 with
        pulses_found := uadd s1.pulses_found 1
        pulse_start := s1.counter
        signal_pulse_data :=
          (((s1.signal_pulse_data.set s1.signal_pulse_counter 0 s1.counter).set
            s1.signal_pulse_counter 1 (U32 - 1)).set s1.signal_pulse_counter 2 (U32 - 1))
        prev_pulse_start := s1.counter
        print := 0
        print2 := 1 }
    else s1
  else s

/-- The block `if (signal_start && (pulse_end + 50000 < counter))` of `pwm_analyze`: the signal
is closed, the classifier runs, the cursor and `signal_start` are reset. The waveform file
written when the grabber is on is not modelled, only its counter. -/
def pwm_close (cfg : PwmConfig) (s : PwmState) : PwmOutcome :=
  if s.signal_start ≠ 0 ∧ uadd s.pulse_end 50000 < s.counter then
    let s1 : PwmState := { s with signal_end := usub s.counter 40000, pulses_found := 0 }
    match classify_signal cfg.override_short cfg.override_long s1.signal_pulse_data with
    | ClassifyOutcome.crashed => PwmOutcome.crashed
    | ClassifyOutcome.skipped =>
      PwmOutcome.ok { s1 with
        signal_pulse_counter := 0
        signal_grabber := if cfg.sg_buf then s1.signal_grabber + 1 else s1.signal_grabber
        signal_start := 0 }
    | ClassifyOutcome.done _ =>
      PwmOutcome.ok { s1 with
        signal_pulse_data := s1.signal_pulse_data.clear
        signal_pulse_counter := 0
        signal_grabber := if cfg.sg_buf then s1.signal_grabber + 1 else s1.signal_grabber
        signal_start := 0 }
  else PwmOutcome.ok s

/-- The second `if` of the loop body of `pwm_analyze`, `if (buf[i] < demod->level_limit)`,
entered after `counter++`. -/
def pwm_falling (cfg : PwmConfig) (s : PwmState) (v : Int) : PwmOutcome :=
  if v < cfg.level_limit then
    if s.print2 ≠ 0 then
      let s1 : PwmState :=
        { s with
          pulse_avg := uadd s.pulse_avg (usub s.counter s.pulse_start)
          pulse_end := s.counter
          print2 := 0
          signal_pulse_data :=
            ((s.signal_pulse_data.set s.signal_pulse_counter 1 s.counter).set
              s.signal_pulse_counter 2 (usub s.counter s.pulse_start))
          signal_pulse_counter := uadd s.signal_pulse_counter 1 }
      if s1.signal_pulse_counter ≥ 4000 then
        PwmOutcome.err { s1 with signal_pulse_counter := 0 }
      else pwm_close cfg { s1 with print := 1 }
    else pwm_close cfg { s with print := 1 }
  else PwmOutcome.ok s

/-- The loop body of `pwm_analyze` for the sample `v = buf[i]`: the rising-edge block,
`counter++`, the falling-edge block. -/
def pwm_sample (cfg : PwmConfig) (s : PwmState) (v : Int) : PwmOutcome :=
  let s1 := pwm_rising cfg s v
  pwm_falling cfg { s1 with counter := uadd s1.counter 1 } v

/-- The function `pwm_analyze` on the chunk `buf`: the samples in order, stopping at the first
`goto err` or crash. -/
def pwm_analyze (cfg : PwmConfig) (s : PwmState) : List Int → PwmOutcome
  | [] => PwmOutcome.ok s
  | v :: buf =>
    match pwm_sample cfg s v with
    | PwmOutcome.ok s1 => pwm_analyze cfg s1 buf
    | PwmOutcome.err s1 => PwmOutcome.err s1
    | PwmOutcome.crashed => PwmOutcome.crashed

/-! ## Chunks of samples, the table after classification -/

/-- The calls `pwm_analyze(demod, demod->f_buf, len/2)` made by `rtlsdr_callback`, one per chunk
of samples, each on the statics left by the previous one; `none` when the classifier divided by
zero. -/
def pwm_chunks (cfg : PwmConfig) : PwmState → List (List Int) → Option PwmState
  | s, [] => some s
  | s, buf :: rest =>
    match pwm_analyze cfg s buf with
    | PwmOutcome.ok s1 => pwm_chunks cfg s1 rest
    | PwmOutcome.err s1 => pwm_chunks cfg s1 rest
    | PwmOutcome.crashed => none

/-- The number of samples in a list of chunks. -/
def total_samples (chunks : List (List Int)) : Nat := (chunks.map List.length).sum

/-- The pulse table after a call of `classify_signal`; `none` when the call does not return. -/
def classify_signal_table (override_short override_long : Nat) (d : PulseTable) :
    Option PulseTable :=
  match classify_signal override_short override_long d with
  | ClassifyOutcome.skipped => some d
  | ClassifyOutcome.done _ => some d.clear
  | ClassifyOutcome.crashed => none

/-- The statements of the block `if (print2)` of `pwm_analyze` up to `signal_pulse_counter++`:
the open pulse is completed in the table slot at the cursor. -/
def pwm_pulse_end (s : PwmState) : PwmState :=
  { s with
    pulse_avg := uadd s.pulse_avg (usub s.counter s.pulse_start)
    pulse_end := s.counter
    print2 := 0
    signal_pulse_data :=
      ((s.signal_pulse_data.set s.signal_pulse_counter 1 s.counter).set
        s.signal_pulse_counter 2 (usub s.counter s.pulse_start))
    signal_pulse_counter := uadd s.signal_pulse_counter 1 }

/-- The statement `counter++` of `pwm_analyze`. -/
def pwm_tick (s : PwmState) : PwmState := { s with counter := uadd s.counter 1 }

/-- The statement `print = 1` of `pwm_analyze`. -/
def pwm_set_print (s : PwmState) : PwmState := { s with print := 1 }

/-- The signal was closed while a sample was processed: the classifier was run and either
divided by zero or returned, after which the cursor and `signal_start` are zero. -/
def pwm_closed (o : PwmOutcome) : Prop :=
  o = PwmOutcome.crashed ∨
    ∃ s1, o = PwmOutcome.ok s1 ∧ s1.signal_start = 0 ∧ s1.signal_pulse_counter = 0

/-- The statics after the samples `0, 101, 0` at level limit 100: one pulse recorded, the signal
open. -/
def pwm_after_pulse : PwmState :=
  { counter := 3, print := 1, print2 := 0, pulses_found := 1, prev_pulse_start := 1,
    pulse_start := 1, pulse_end := 3, pulse_avg := 2, signal_start := 1, signal_end := 0,
    signal_pulse_data :=
      ((((PulseTable.zero.set 0 0 1).set 0 1 (U32 - 1)).set 0 2 (U32 - 1)).set 0 1 3).set 0 2 2,
    signal_pulse_counter := 1, signal_grabber := 0 }

/-- The states of a row of the pulse table while `n` samples have been consumed: cleared, open
(end and length hold `-1`), or completed with `end > start`, `length = end - start` and the end
not after the last sample consumed. -/
def PulseRowOk (d : PulseTable) (i n : Nat) : Prop :=
  (d i 0 = 0 ∧ d i 1 = 0 ∧ d i 2 = 0) ∨ (d i 1 = U32 - 1 ∧ d i 2 = U32 - 1) ∨
    (d i 0 < d i 1 ∧ d i 2 = d i 1 - d i 0 ∧ d i 1 ≤ n)

/-- The invariant of the pulse extractor after `n` samples: the counter is `n`, an open pulse
has its start in the slot at the cursor, and every row is cleared, open or completed. -/
def PwmInv (n : Nat) (s : PwmState) : Prop :=
  s.counter = n ∧
    (s.print2 ≠ 0 →
      s.signal_pulse_data s.signal_pulse_counter 0 = s.pulse_start ∧ s.pulse_start < n) ∧
    ∀ i, PulseRowOk s.signal_pulse_data i n

/-- The invariant of the write cursor: it is inside the table and no row past the table has
been written. -/
def PwmCursorInv (s : PwmState) : Prop :=
  s.signal_pulse_counter < 4000 ∧ ∀ i j, 4000 ≤ i → s.signal_pulse_data i j = 0

/-- A table of twenty pulses: ten of length 200 followed by ten of length 800, one pulse every
1000 samples from sample 1 on. -/
def two_level_table : PulseTable := fun i j =>
  if i < 20 then
    if j = 0 then 1000 * i + 1
    else if j = 1 then 1000 * i + 1 + (if i < 10 then 200 else 800)
    else if j = 2 then (if i < 10 then 200 else 800)
    else 0
  else 0

/-- What `classify_signal` computes for `two_level_table`: centers 200 and 800, pulse coding,
`p_limit` 500. -/
def two_level_classification : Classification :=
  { min := 200, max := 800, signal_type := 2, p_limit := 500, a0 := 200, a1 := 200, a2 := 800,
    symbols := (List.range 1000).flatMap
      (rewalk_pulse two_level_table (signal_distance_data two_level_table) 500 200 800) }

/-- The body of the first loop of `classify_signal`, for row `i`. -/
def pulse_scan_step (d : PulseTable) (m : MinMax) (i : Nat) : MinMax :=
  if d i 0 > 0 then
    let m1 : MinMax := if d i 2 > m.max then { m with max := d i 2 } else m
    if d i 2 ≤ m1.min then { m1 with min := d i 2 } else m1
  else m

/-- The first loop of `classify_signal` after the rows `0..n-1`. -/
def pulse_scan_upto (d : PulseTable) (n : Nat) : MinMax :=
  (List.range n).foldl (pulse_scan_step d) { max := 0, min := 1000000 }

/-- The body of the inner loop of the 2-cluster refinement, for row `i`. -/
def cluster2_sums_step (d : PulseTable) (t : Nat) (a : Sums2) (i : Nat) : Sums2 :=
  if d i 0 > 0 then
    if d i 2 < t then
      { a with min_new := uadd a.min_new (d i 2), count_min := uadd a.count_min 1 }
    else
      { a with max_new := uadd a.max_new (d i 2), count_max := uadd a.count_max 1 }
  else a

/-- The inner loop of the 2-cluster refinement after the rows `0..n-1`. -/
def cluster2_sums_upto (d : PulseTable) (t n : Nat) : Sums2 :=
  (List.range n).foldl (cluster2_sums_step d t)
    { min_new := 0, count_min := 0, max_new := 0, count_max := 0 }

/-- A table of two pulses of 2000000 and 3000000 samples. -/
def long_pulse_table : PulseTable := fun i j =>
  if i = 0 then
    if j = 0 then 1 else if j = 1 then 2000001 else if j = 2 then 2000000 else 0
  else if i = 1 then
    if j = 0 then 2500000 else if j = 1 then 5500000 else if j = 2 then 3000000 else 0
  else 0

/-- A table of two pulses of 100 and 65636 samples: the lengths differ by `2^16`. -/
def wide_pulse_table : PulseTable := fun i j =>
  if i = 0 then
    if j = 0 then 1 else if j = 1 then 101 else if j = 2 then 100 else 0
  else if i = 1 then
    if j = 0 then 1001 else if j = 1 then 66637 else if j = 2 then 65636 else 0
  else 0

/-- The gap before pulse `i`: `signal_pulse_data[i][0]-signal_pulse_data[i-1][1]`. -/
def gap_at (d : PulseTable) (i : Nat) : Nat := usub (d i 0) (d (i - 1) 1)

/-- The body of the gap scan of `classify_signal`, for row `i`. -/
def gap_scan_step (d : PulseTable) (m : GapRange) (i : Nat) : GapRange :=
  if d i 0 > 0 then
    let dist := usub (d i 0) (d (i - 1) 1)
    let m1 : GapRange := if dist > m.a2 then { m with a2 := dist } else m
    if dist ≤ m1.a0 then { m1 with a0 := dist } else m1
  else m

/-- The gap scan of `classify_signal` after the rows `1..n`. -/
def gap_scan_upto (d : PulseTable) (n : Nat) : GapRange :=
  (List.range' 1 n).foldl (gap_scan_step d) { a0 := 1000000, a2 := 0 }

/-- The body of the inner loop of the 3-cluster refinement, for entry `i`. -/
def cluster3_sums_step (dist : Nat → Nat) (b0 b1 : Nat) (a : Sums3) (i : Nat) : Sums3 :=
  if dist i > 0 then
    if dist i < b0 then
      { a with new0 := uadd a.new0 (dist i), cnt0 := uadd a.cnt0 1 }
    else if dist i < b1 ∧ dist i ≥ b0 then
      { a with new1 := uadd a.new1 (dist i), cnt1 := uadd a.cnt1 1 }
    else if dist i ≥ b1 then
      { a with new2 := uadd a.new2 (dist i), cnt2 := uadd a.cnt2 1 }
    else a
  else a

/-- The inner loop of the 3-cluster refinement after the entries `0..n-1`. -/
def cluster3_sums_upto (dist : Nat → Nat) (b0 b1 n : Nat) : Sums3 :=
  (List.range n).foldl (cluster3_sums_step dist b0 b1)
    { new0 := 0, cnt0 := 0, new1 := 0, cnt1 := 0, new2 := 0, cnt2 := 0 }

/-- A table of three pulses of length 10 with the two gaps equal (90 samples). -/
def even_gap_table : PulseTable := fun i j =>
  if i < 3 then
    if j = 0 then 100 * i + 1 else if j = 1 then 100 * i + 11 else if j = 2 then 10 else 0
  else 0

/-- A table of four pulses of length 10 with the gaps 10, 50 and 100. -/
def three_gap_table : PulseTable := fun i j =>
  if i = 0 then (if j = 0 then 1 else if j = 1 then 11 else if j = 2 then 10 else 0)
  else if i = 1 then (if j = 0 then 21 else if j = 1 then 31 else if j = 2 then 10 else 0)
  else if i = 2 then (if j = 0 then 81 else if j = 1 then 91 else if j = 2 then 10 else 0)
  else if i = 3 then (if j = 0 then 191 else if j = 1 then 201 else if j = 2 then 10 else 0)
  else 0

/-! ### The Signal Grabber split -/

/-- A C `int` result: the value reduced to 32 bits, two's complement. -/
def int32 (x : Int) : Int := (x + 2147483648) % 4294967296 - 2147483648

/-- The two writes of a Signal Grabber snapshot: where the first one starts, its length `wlen`
and the length `wrest` of the second one. -/
structure GrabberSplit where
  /-- The index `start_pos` of the first byte written. -/
  start_pos : Int
  /-- The length `wlen` of the first write. -/
  wlen : Int
  /-- The length `wrest` of the second write, from index 0. -/
  wrest : Int
deriving DecidableEq, Repr

/-- The split of a snapshot in `pwm_analyze`, with `N` standing for `SIGNAL_GRABBER_BUFFER`:
`if (start_pos < 0) start_pos = N+start_pos; wlen = signal_bszie;
 if (start_pos + signal_bszie > N) { wlen = N - start_pos; wrest = signal_bszie - wlen; }`. -/
def grabber_split (N start_pos signal_bszie : Int) : GrabberSplit :=
  let start_pos := if start_pos < 0 then int32 (N + start_pos) else start_pos
  if int32 (start_pos + signal_bszie) > N then
    let wlen := int32 (N - start_pos)
    { start_pos := start_pos, wlen := wlen, wrest := int32 (signal_bszie - wlen) }
  else { start_pos := start_pos, wlen := signal_bszie, wrest := 0 }

/-- The bytes the Signal Grabber writes to the file:
`fwrite(&sg_buf[start_pos], 1, wlen, sgfp); if (wrest) fwrite(&sg_buf[0], 1, wrest, sgfp);`. -/
def grabber_write (sg_buf : List Nat) (g : GrabberSplit) : List Nat :=
  (sg_buf.drop g.start_pos.toNat).take g.wlen.toNat ++
    (if g.wrest ≠ 0 then sg_buf.take g.wrest.toNat else [])

/-! ### A train of pulses -/

/-- A run of `n` pulses of two samples each: a sample above the level limit 100, then one below
it. -/
def pulse_train : Nat → List Int
  | 0 => []
  | n + 1 => 101 :: 0 :: pulse_train n

/-- The statics after one sample below the limit and then `k` pulses of `pulse_train`, from the
initial statics: pulse `i` runs from sample `2 i + 1` to `2 i + 3`. -/
def PulseTrainInv (k : Nat) (s : PwmState) : Prop :=
  s.counter = 2 * k + 1 ∧ s.print = 1 ∧ s.print2 = 0 ∧ s.signal_pulse_counter = k ∧
    s.signal_start = (if k = 0 then 0 else 1) ∧
    ∀ i, i < k → s.signal_pulse_data i 0 = 2 * i + 1 ∧ s.signal_pulse_data i 1 = 2 * i + 3 ∧
      s.signal_pulse_data i 2 = 2

/-- The statics right after the table has overflowed on the 4000th pulse of the train: the
cursor is back at zero, the signal still counts as open, `print` is zero, and all 4000 rows hold
the pulses of the train. -/
def PulseTrainOverflowed (s : PwmState) : Prop :=
  s.counter = 8001 ∧ s.print = 0 ∧ s.print2 = 0 ∧ s.signal_pulse_counter = 0 ∧
    s.signal_start = 1 ∧ s.pulse_end = 8001 ∧
    ∀ i, i < 4000 → s.signal_pulse_data i 0 = 2 * i + 1 ∧ s.signal_pulse_data i 1 = 2 * i + 3 ∧
      s.signal_pulse_data i 2 = 2

/-- The statics `n` quiet samples after the overflowed train was followed by the samples
`0, 101, 0`: row 0 holds the new pulse, the rows `1..3999` still hold pulses of the train. -/
def PulseTrainStale (n : Nat) (s : PwmState) : Prop :=
  s.counter = 8004 + n ∧ s.print = 1 ∧ s.print2 = 0 ∧ s.signal_pulse_counter = 1 ∧
    s.signal_start = 1 ∧ s.pulse_end = 8004 ∧
    (s.signal_pulse_data 0 0 = 8002 ∧ s.signal_pulse_data 0 1 = 8004 ∧
      s.signal_pulse_data 0 2 = 2) ∧
    ∀ i, 1 ≤ i → i < 4000 → s.signal_pulse_data i 0 = 2 * i + 1 ∧
      s.signal_pulse_data i 1 = 2 * i + 3 ∧ s.signal_pulse_data i 2 = 2

/-! ## Scheduler -/

/-- The macro `SECS_PER_MIN` of `Scheduler.c`. -/
def SECS_PER_MIN : Int := 60

/-- The fields of the `struct tm` returned by `localtime` that `getMinutesToWait` reads. -/
structure Tm where
  /-- The field `tm_hour`, 0 to 23. -/
  tm_hour : Int
  /-- The field `tm_min`, 0 to 59. -/
  tm_min : Int
deriving DecidableEq, Repr

/-- The conversion of an `int` to `unsigned int`. -/
def toU32 (x : Int) : Nat := (x % 4294967296).toNat

/-- The local `int minsSinceLastDone = difftime(currentTime, timeLastDone)/SECS_PER_MIN`, for
times in seconds whose difference a `double` holds exactly and whose quotient fits an `int`:
the quotient, rounded toward zero by the conversion to `int`. -/
def minsSinceLastDone (currentTime timeLastDone : Int) : Int :=
  Int.tdiv (currentTime - timeLastDone) SECS_PER_MIN

/-- The block of `getMinutesToWait` entered when `frequency` is a multiple of 60 and
`minsSinceLastDone != currentMinute`: the minutes to the next top of an hour whose hour is a
multiple of `frequency/60`:
`minutesLeft = (60 - tm_min) % 60; frequencyHours = frequency/60;
 hoursLeft = (frequencyHours-1) - (tm_hour % frequencyHours);
 if ((tm_hour % frequencyHours != 0) && (tm_min == 0)) hoursLeft++;
 if (!(((tm_hour % frequencyHours) == 0) && (tm_min == 0))) minutesLeft += (hoursLeft*60);`. -/
def getMinutesToWait_hours (frequency : Nat) (localTime : Tm) : Int :=
  let minutesLeft := Int.tmod (60 - localTime.tm_min) 60
  let frequencyHours := int32 ((frequency / 60 : Nat) : Int)
  let hoursLeft := (frequencyHours - 1) - Int.tmod localTime.tm_hour frequencyHours
  let hoursLeft :=
    if Int.tmod localTime.tm_hour frequencyHours ≠ 0 ∧ localTime.tm_min = 0 then hoursLeft + 1
    else hoursLeft
  if ¬ (Int.tmod localTime.tm_hour frequencyHours = 0 ∧ localTime.tm_min = 0) then
    int32 (minutesLeft + int32 (hoursLeft * 60))
  else minutesLeft

/-- The statements of `getMinutesToWait` from `if (frequency == 0)` to the `return`, with the
locals `minsSinceLastDone` and `localTime` set (`currentMinute` is `localTime->tm_min`). The
operands of `%` and `-` that mix `frequency` with an `int` are converted to `unsigned int`, the
results stored in the `int minutesLeft`. -/
def getMinutesToWait_minutes (frequency : Nat) (minsSinceLastDone : Int) (localTime : Tm) : Nat :=
  let currentMinute := localTime.tm_min
  let minutesLeft : Int :=
    if frequency = 0 then 9999
    else if frequency < 60 then
      if 60 % frequency = 0 ∧ toU32 currentMinute % frequency ≠ 0 then
        int32 ((usub frequency (toU32 currentMinute % frequency) : Nat) : Int)
      else if 60 % frequency = 0 ∧ minsSinceLastDone ≠ 0 then 0
      else int32 ((usub frequency (toU32 minsSinceLastDone) : Nat) : Int)
    else
      if frequency % 60 = 0 ∧ minsSinceLastDone ≠ currentMinute then
        getMinutesToWait_hours frequency localTime
      else int32 ((usub frequency (toU32 minsSinceLastDone) : Nat) : Int)
  let minutesLeft := if minutesLeft < 0 then 0 else minutesLeft
  toU32 minutesLeft

/-- The function `unsigned int getMinutesToWait(unsigned int frequency, time_t currentTime,
time_t timeLastDone)`, with the library function `localtime` as an argument: `none` stands for
the null pointer that `localtime` returns for a time it cannot convert. The function reads
`localTime->tm_min` before it looks at `frequency`, so on a null pointer it does not return
(`none`). -/
def getMinutesToWait (localtime : Int → Option Tm) (frequency : Nat)
    (currentTime timeLastDone : Int) : Option Nat :=
  let minsSinceLastDone := minsSinceLastDone currentTime timeLastDone
  match localtime currentTime with
  | none => none
  | some localTime => some (getMinutesToWait_minutes frequency minsSinceLastDone localTime)

/-- The test `if (getMinutesToWait(frequency, time(NULL), lastTime) == 0)` that guards each
action of `WX_DoScheduledActions`: whether the action is triggered; `none` when the call does
not return. -/
def scheduled_action_due (localtime : Int → Option Tm) (frequency : Nat)
    (currentTime timeLastDone : Int) : Option Bool :=
  (getMinutesToWait localtime frequency currentTime timeLastDone).map fun r => r == 0

/-- A `localtime` that reports the hour and the minute of a time in seconds as in UTC. The
library function returns the null pointer for a time whose year does not fit the `int tm_year`;
this one does so when the count of years since 1900, taken with years of 366 days (which brings
the count no further from zero than the calendar does), is outside the range of an `int`. -/
def localtime_utc (t : Int) : Option Tm :=
  if -2147483648 ≤ 70 + t / 31622400 ∧ 70 + t / 31622400 < 2147483648 then
    some { tm_hour := t / 3600 % 24, tm_min := t / 60 % 60 }
  else none

/-! ## Tables and buffers for the re-walk, the remote controls and the reader -/

/-- A table of three pulses of length 10 with the gaps 10 and 100. -/
def two_gap_table : PulseTable := fun i j =>
  if i = 0 then (if j = 0 then 1 else if j = 1 then 11 else if j = 2 then 10 else 0)
  else if i = 1 then (if j = 0 then 21 else if j = 1 then 31 else if j = 2 then 10 else 0)
  else if i = 2 then (if j = 0 then 131 else if j = 1 then 141 else if j = 2 then 10 else 0)
  else 0

/-- The classification of `two_gap_table`: distance coding, centers `(10, 10, 100)`, and the one
symbol handed to the printer. -/
def two_gap_classification : Classification :=
  { min := 10, max := 10, signal_type := 1, p_limit := 10, a0 := 10, a1 := 10, a2 := 100,
    symbols := [Symbol.packet] }

/-! ## Remote-control validator (Waveman) -/

/-- The condition of the `if` in `waveman_callback`: the low bit of every 2-bit pair of bytes
0..2 of row 0 is set and byte 3 has none of these bits set. -/
def waveman_check (bb : BitBuf) : Prop :=
  bb.byte 0 0 &&& 0x55 = 0x55 ∧ bb.byte 0 1 &&& 0x55 = 0x55 ∧ bb.byte 0 2 &&& 0x55 = 0x55 ∧
    bb.byte 0 3 &&& 0x55 = 0x00

instance (bb : BitBuf) : Decidable (waveman_check bb) := by
  unfold waveman_check
  infer_instance

/-- The value of `nb[i]` after the four statements of the loop of `waveman_callback`, for the
byte `b = bb[0][i]`:
`nb[i] |= ((b&0xC0)==0xC0) ? 0x00 : 0x01; nb[i] |= ((b&0x30)==0x30) ? 0x00 : 0x02;
 nb[i] |= ((b&0x0C)==0x0C) ? 0x00 : 0x04; nb[i] |= ((b&0x03)==0x03) ? 0x00 : 0x08;`. -/
def waveman_nibble (b : Nat) : Nat :=
  let nb := 0
  let nb := nb ||| (if b &&& 0xC0 = 0xC0 then 0x00 else 0x01)
  let nb := nb ||| (if b &&& 0x30 = 0x30 then 0x00 else 0x02)
  let nb := nb ||| (if b &&& 0x0C = 0x0C then 0x00 else 0x04)
  nb ||| (if b &&& 0x03 = 0x03 then 0x00 else 0x08)

/-- What `waveman_callback` prints for an accepted buffer. -/
structure WavemanEvent where
  /-- The decoded nibbles `nb[0]`, `nb[1]`, `nb[2]`. -/
  nb : List Nat
  /-- Printed `id`: the character `'A'+nb[0]`, as its code. -/
  id : Nat
  /-- Printed `channel`: `(nb[1]>>2)+1`. -/
  channel : Nat
  /-- Printed `button`: `(nb[1]&3)+1`. -/
  button : Nat
  /-- Printed `state`: whether `nb[2]==0xe` ("on") or not ("off"). -/
  state : Bool
deriving DecidableEq, Repr

/-- The body of `waveman_callback`: the event printed when the buffer is accepted, `none` when
the function returns `0`. -/
def waveman_event (bb : BitBuf) : Option WavemanEvent :=
  if waveman_check bb then
    let nb0 := waveman_nibble (bb.byte 0 0)
    let nb1 := waveman_nibble (bb.byte 0 1)
    let nb2 := waveman_nibble (bb.byte 0 2)
    some { nb := [nb0, nb1, nb2], id := 65 + nb0, channel := (nb1 >>> 2) + 1,
           button := (nb1 &&& 3) + 1, state := decide (nb2 = 0xe) }
  else none

/-- The return value of `waveman_callback`. -/
def waveman_callback (bb : BitBuf) : Nat := if (waveman_event bb).isSome then 1 else 0

/-- The 2-bit pair `k` (0 to 3, from the most significant end) of the byte `b`: its first and
its second bit. -/
def bit_pair (b k : Nat) : Bool × Bool := (b.testBit (7 - 2 * k), b.testBit (6 - 2 * k))

/-- A Waveman capture whose first byte holds the pairs `1 1`, `0 1`, `0 1`, `0 1` and whose
other two bytes hold the pair `0 1` four times. -/
def waveman_sample : BitBuf := [[0xD5, 0x55, 0x55, 0x00]]

/-- A Prologue capture whose rows 1 to 4 start with the nibble 5. -/
def prologue_sample_5 : BitBuf :=
  [[0x00], [0x5A, 0x81, 0x0D, 0x7C, 0xC0], [0x5A, 0x81, 0x0D, 0x7C, 0xC0],
   [0x5A, 0x81, 0x0D, 0x7C, 0xC0], [0x5A, 0x81, 0x0D, 0x7C, 0xC0]]

/-- A Prologue capture whose rows 1 to 6 start with the nibble 9. -/
def prologue_sample_9 : BitBuf :=
  [[0x00], [0x9A, 0x81, 0x0D, 0x7C, 0xC0], [0x9A, 0x81, 0x0D, 0x7C, 0xC0],
   [0x9A, 0x81, 0x0D, 0x7C, 0xC0], [0x9A, 0x81, 0x0D, 0x7C, 0xC0],
   [0x9A, 0x81, 0x0D, 0x7C, 0xC0], [0x9A, 0x81, 0x0D, 0x7C, 0xC0]]

/-! ## Reads of the bitstream reader -/

/-- The stream positions `bit + i` that the loop of `AD_POP(bb, bits, bit)` visits. -/
def AD_POP_positions (bits bit : Nat) : List Nat := (List.range bits).map fun i => bit + i

/-- The indices `byte_no` at which the loop of `AD_POP(bb, bits, bit)` evaluates
`bb[byte_no]`. -/
def AD_POP_bytes (bits bit : Nat) : List Nat :=
  (List.range bits).map fun i => ((bit + i) / 8) % 256

/-! ## Protocol descriptors -/

/-- The modulation constants `OOK_PWM_D` and `OOK_PWM_P` that the descriptors use. -/
inductive Modulation
  | OOK_PWM_D
  | OOK_PWM_P
deriving DecidableEq, Repr

/-- The validators that the descriptors point to. -/
inductive Callback
  | rubicson_callback
  | prologue_callback
  | silvercrest_callback
  | debug_callback
  | em1000_callback
  | ws2000_callback
  | waveman_callback
  | steffen_callback
deriving DecidableEq, Repr

/-- Modelled from the spec: the type `r_device` is declared in the header `rtl-433fm.h`, which
is not among the sources; a protocol descriptor holds the fields the initialisers name: id,
name, modulation, the three timing limits and the validator. -/
structure r_device where
  /-- The field `.id`. -/
  id : Nat
  /-- The field `.name`. -/
  name : String
  /-- The field `.modulation`. -/
  modulation : Modulation
  /-- The field `.short_limit`. -/
  short_limit : Int
  /-- The field `.long_limit`. -/
  long_limit : Int
  /-- The field `.reset_limit`. -/
  reset_limit : Int
  /-- The field `.json_callback`. -/
  json_callback : Callback
deriving DecidableEq, Repr

/-- The descriptor `rubicson`. -/
def rubicson : r_device :=
  { id := 1, name := "Rubicson Temperature Sensor", modulation := Modulation.OOK_PWM_D,
    short_limit := Int.tdiv 1744 4, long_limit := Int.tdiv 3500 4,
    reset_limit := Int.tdiv 5000 4, json_callback := Callback.rubicson_callback }

/-- The descriptor `prologue`. -/
def prologue : r_device :=
  { id := 2, name := "Prologue Temperature Sensor", modulation := Modulation.OOK_PWM_D,
    short_limit := Int.tdiv 3500 4, long_limit := Int.tdiv 7000 4,
    reset_limit := Int.tdiv 15000 4, json_callback := Callback.prologue_callback }

/-- The descriptor `silvercrest`. -/
def silvercrest : r_device :=
  { id := 3, name := "Silvercrest Remote Control", modulation := Modulation.OOK_PWM_P,
    short_limit := Int.tdiv 600 4, long_limit := Int.tdiv 5000 4,
    reset_limit := Int.tdiv 15000 4, json_callback := Callback.silvercrest_callback }

/-- The descriptor `tech_line_fws_500`. -/
def tech_line_fws_500 : r_device :=
  { id := 4, name := "Tech Line FWS-500 Sensor", modulation := Modulation.OOK_PWM_D,
    short_limit := Int.tdiv 3500 4, long_limit := Int.tdiv 7000 4,
    reset_limit := Int.tdiv 15000 4, json_callback := Callback.rubicson_callback }

/-- The descriptor `generic_hx2262`. -/
def generic_hx2262 : r_device :=
  { id := 5, name := "Window/Door sensor", modulation := Modulation.OOK_PWM_P,
    short_limit := Int.tdiv 1300 4, long_limit := Int.tdiv 10000 4,
    reset_limit := Int.tdiv 40000 4, json_callback := Callback.silvercrest_callback }

/-- The descriptor `technoline_ws9118`. -/
def technoline_ws9118 : r_device :=
  { id := 6, name := "Technoline WS9118", modulation := Modulation.OOK_PWM_D,
    short_limit := Int.tdiv 1800 4, long_limit := Int.tdiv 3500 4,
    reset_limit := Int.tdiv 15000 4, json_callback := Callback.debug_callback }

/-- The descriptor `elv_em1000`. -/
def elv_em1000 : r_device :=
  { id := 7, name := "ELV EM 1000", modulation := Modulation.OOK_PWM_D,
    short_limit := Int.tdiv 750 4, long_limit := Int.tdiv 7250 4,
    reset_limit := Int.tdiv 30000 4, json_callback := Callback.em1000_callback }

/-- The descriptor `elv_ws2000`, with its limits `(602+(1155-602)/2)/4`,
`((1755635-1655517)/2)/4` and `((1755635-1655517)*2)/4`. -/
def elv_ws2000 : r_device :=
  { id := 8, name := "ELV WS 2000", modulation := Modulation.OOK_PWM_D,
    short_limit := Int.tdiv (602 + Int.tdiv (1155 - 602) 2) 4,
    long_limit := Int.tdiv (Int.tdiv (1755635 - 1655517) 2) 4,
    reset_limit := Int.tdiv ((1755635 - 1655517) * 2) 4,
    json_callback := Callback.ws2000_callback }

/-- The descriptor `waveman`. -/
def waveman : r_device :=
  { id := 6, name := "Waveman Switch Transmitter", modulation := Modulation.OOK_PWM_P,
    short_limit := Int.tdiv 1000 4, long_limit := Int.tdiv 8000 4,
    reset_limit := Int.tdiv 30000 4, json_callback := Callback.waveman_callback }

/-- The descriptor `steffen`. -/
def steffen : r_device :=
  { id := 9, name := "Steffen Switch Transmitter", modulation := Modulation.OOK_PWM_D,
    short_limit := 140, long_limit := 270, reset_limit := 1500,
    json_callback := Callback.steffen_callback }

/-- The ten descriptors defined in `rtl-433fm-standalone.c`, in the order of the source. -/
def r_devices : List r_device :=
  [rubicson, prologue, silvercrest, tech_line_fws_500, generic_hx2262, technoline_ws9118,
    elv_em1000, elv_ws2000, waveman, steffen]

/-! ## Observed gaps of a pulse table -/

/-- The observed minimum gap of a pulse table is `m`: some row `1 ≤ i < 1000` with
`d[i][0] > 0` has the gap `m` before it, and no such row has a smaller gap. -/
def IsObservedMinGap (d : PulseTable) (m : Nat) : Prop :=
  (∃ i, 1 ≤ i ∧ i < 1000 ∧ d i 0 > 0 ∧ gap_at d i = m) ∧
    ∀ i, 1 ≤ i → i < 1000 → d i 0 > 0 → m ≤ gap_at d i

/-- The observed maximum gap of a pulse table is `M`: some row `1 ≤ i < 1000` with
`d[i][0] > 0` has the gap `M` before it, and no such row has a larger gap. -/
def IsObservedMaxGap (d : PulseTable) (M : Nat) : Prop :=
  (∃ i, 1 ≤ i ∧ i < 1000 ∧ d i 0 > 0 ∧ gap_at d i = M) ∧
    ∀ i, 1 ≤ i → i < 1000 → d i 0 > 0 → gap_at d i ≤ M

/-- A table of two pulses of length 10 with a gap of 2000000 samples between them. -/
def far_gap_table : PulseTable := fun i j =>
  if i = 0 then (if j = 0 then 1 else if j = 1 then 11 else if j = 2 then 10 else 0)
  else if i = 1 then
    (if j = 0 then 2000011 else if j = 1 then 2000021 else if j = 2 then 10 else 0)
  else 0

/-! ### Auxiliary facts on the reader -/

theorem and_one_shiftLeft_ne_zero (x k : Nat) : x &&& (1 <<< k) ≠ 0 ↔ x.testBit k = true := by
  rw [Nat.one_shiftLeft]
  constructor
  · intro h
    by_contra hx
    apply h
    apply Nat.eq_of_testBit_eq
    intro i
    rw [Nat.testBit_and, Nat.testBit_two_pow, Nat.zero_testBit]
    by_cases hk : k = i
    · subst hk
      simp [hx]
    · simp [hk]
  · intro h h0
    have h1 : (x &&& 2 ^ k).testBit k = true := by
      rw [Nat.testBit_and, Nat.testBit_two_pow, h]
      simp
    rw [h0, Nat.zero_testBit] at h1
    exact Bool.noConfusion h1

theorem AD_POP_step_eq (bb : Row) (bit val i : Nat) (h : bit + i < 2048) :
    AD_POP_step bb bit val i =
      if streamBit bb (bit + i) = true then (val ||| 2 ^ i) % 65536 else val := by
  unfold AD_POP_step streamBit
  have h1 : ((bit + i) / 8) % 256 = (bit + i) / 8 := Nat.mod_eq_of_lt (by omega)
  have h2 : (7 - (bit + i) % 8) % 256 = 7 - (bit + i) % 8 := Nat.mod_eq_of_lt (by omega)
  simp only [h1, h2, and_one_shiftLeft_ne_zero]
  simp only [Nat.one_shiftLeft]

theorem AD_POP_succ (bb : Row) (bits bit : Nat) :
    AD_POP bb (bits + 1) bit = AD_POP_step bb bit (AD_POP bb bits bit) bits := by
  unfold AD_POP
  rw [List.range_succ, List.foldl_append]
  rfl

/-- Loop invariant of `AD_POP`: after `n ≤ 16` rounds the accumulator holds the first `n`
stream bits, bit `i` of the accumulator being stream bit `bit + i`. -/
theorem AD_POP_inv (bb : Row) (bit : Nat) (hbit : bit < 256) :
    ∀ n, n ≤ 16 → AD_POP bb n bit < 2 ^ n ∧
      ∀ i, i < n → (AD_POP bb n bit).testBit i = streamBit bb (bit + i) := by
  intro n
  induction n with
  | zero =>
    intro _
    refine ⟨by simp [AD_POP], ?_⟩
    intro i hi
    omega
  | succ n ih =>
    intro hn
    obtain ⟨hlt, hbits⟩ := ih (by omega)
    rw [AD_POP_succ, AD_POP_step_eq bb bit _ n (by omega)]
    have hpow : (2 : Nat) ^ (n + 1) ≤ 65536 := by
      calc (2 : Nat) ^ (n + 1) ≤ 2 ^ 16 := Nat.pow_le_pow_right (by decide) hn
        _ = 65536 := by norm_num
    have hlt1 : AD_POP bb n bit < 2 ^ (n + 1) :=
      lt_of_lt_of_le hlt (Nat.pow_le_pow_right (by decide) (by omega))
    have hor : AD_POP bb n bit ||| 2 ^ n < 2 ^ (n + 1) :=
      Nat.or_lt_two_pow hlt1 (Nat.pow_lt_pow_right (by decide) (by omega))
    have hmod : (AD_POP bb n bit ||| 2 ^ n) % 65536 = AD_POP bb n bit ||| 2 ^ n :=
      Nat.mod_eq_of_lt (lt_of_lt_of_le hor hpow)
    by_cases hs : streamBit bb (bit + n) = true
    · rw [if_pos hs, hmod]
      refine ⟨hor, ?_⟩
      intro i hi
      rw [Nat.testBit_or, Nat.testBit_two_pow]
      by_cases hin : n = i
      · subst hin
        simp [hs]
      · have hi2 : i < n := by omega
        simp [hin, hbits i hi2]
    · rw [if_neg hs]
      refine ⟨hlt1, ?_⟩
      intro i hi
      by_cases hin : n = i
      · subst hin
        rw [Nat.testBit_lt_two_pow hlt]
        simpa using hs
      · exact hbits i (by omega)

theorem AD_POP_lt (bb : Row) (w bit : Nat) (hw : w ≤ 16) (hbit : bit < 256) :
    AD_POP bb w bit < 2 ^ w := (AD_POP_inv bb bit hbit w hw).1

theorem AD_POP_testBit (bb : Row) (w bit i : Nat) (hw : w ≤ 16) (hbit : bit < 256)
    (hi : i < w) : (AD_POP bb w bit).testBit i = streamBit bb (bit + i) :=
  (AD_POP_inv bb bit hbit w hw).2 i hi

/-! ### Auxiliary facts on re-encoding -/

theorem testBit_setByteBit (x k j : Nat) (b : Bool) :
    (setByteBit x k b).testBit j = if j = k then b else x.testBit j := by
  unfold setByteBit
  by_cases h : x.testBit k = b
  · rw [if_pos h]
    by_cases hj : j = k
    · subst hj
      simp [h]
    · simp [hj]
  · rw [if_neg h, Nat.testBit_xor, Nat.testBit_two_pow]
    by_cases hj : j = k
    · subst hj
      cases hx : x.testBit j <;> cases b <;> simp_all
    · have hkj : ¬ k = j := fun e => hj e.symm
      simp [hj, hkj]

theorem Row.byte_set (bb : Row) (j i x : Nat) (hj : j < bb.length) :
    Row.byte (bb.set j x) i = if i = j then x else bb.byte i := by
  unfold Row.byte
  rw [List.getD_eq_getElem?_getD, List.getD_eq_getElem?_getD, List.getElem?_set]
  by_cases h : j = i
  · subst h
    simp [hj]
  · have h2 : ¬ i = j := fun e => h e.symm
    simp [h, h2]

theorem setStreamBit_length (bb : Row) (p : Nat) (b : Bool) :
    (setStreamBit bb p b).length = bb.length := by
  simp [setStreamBit]

theorem streamBit_setStreamBit (bb : Row) (p q : Nat) (b : Bool) (hp : p < 8 * bb.length) :
    streamBit (setStreamBit bb p b) q = if q = p then b else streamBit bb q := by
  unfold streamBit setStreamBit
  rw [Row.byte_set bb (p / 8) (q / 8) _ (by omega)]
  by_cases hq : q = p
  · subst hq
    simp [testBit_setByteBit]
  · rw [if_neg hq]
    by_cases hb : q / 8 = p / 8
    · rw [if_pos hb, testBit_setByteBit, if_neg (by omega), hb]
    · rw [if_neg hb]

theorem setStreamBit_self (bb : Row) (p : Nat) : setStreamBit bb p (streamBit bb p) = bb := by
  unfold setStreamBit streamBit setByteBit
  rw [if_pos rfl]
  unfold Row.byte
  apply List.ext_getElem?
  intro n
  rw [List.getElem?_set]
  by_cases h : p / 8 = n
  · subst h
    by_cases hl : p / 8 < bb.length
    · simp [hl, List.getD_eq_getElem?_getD]
    · simp [hl]
      omega
  · simp [h]

theorem write_bits_succ (bb : Row) (bits bit v : Nat) :
    write_bits bb (bits + 1) bit v =
      setStreamBit (write_bits bb bits bit v) (bit + bits) (v.testBit bits) := by
  unfold write_bits
  rw [List.range_succ, List.foldl_append]
  rfl

theorem write_bits_length (bb : Row) (bit v : Nat) :
    ∀ bits, (write_bits bb bits bit v).length = bb.length := by
  intro bits
  induction bits with
  | zero => rfl
  | succ n ih => rw [write_bits_succ, setStreamBit_length, ih]

/-- After `write_bits`, stream position `bit + i` holds bit `i` of `v` for `i < bits`, and every
other position is untouched. -/
theorem streamBit_write_bits (bb : Row) (bit v : Nat) :
    ∀ bits, bit + bits ≤ 8 * bb.length → ∀ q,
      streamBit (write_bits bb bits bit v) q =
        if bit ≤ q ∧ q < bit + bits then v.testBit (q - bit) else streamBit bb q := by
  intro bits
  induction bits with
  | zero =>
    intro _ q
    rw [if_neg (by omega)]
    rfl
  | succ n ih =>
    intro hin q
    rw [write_bits_succ, streamBit_setStreamBit _ _ _ _ (by rw [write_bits_length]; omega),
      ih (by omega) q]
    by_cases hq : q = bit + n
    · subst hq
      rw [if_pos rfl, if_pos (by omega)]
      congr 1
      omega
    · rw [if_neg hq]
      by_cases hr : bit ≤ q ∧ q < bit + n
      · rw [if_pos hr, if_pos (by omega)]
      · rw [if_neg hr, if_neg (by omega)]

theorem write_bits_self (bb : Row) (bit v : Nat) :
    ∀ bits, (∀ i, i < bits → v.testBit i = streamBit bb (bit + i)) →
      write_bits bb bits bit v = bb := by
  intro bits
  induction bits with
  | zero => intro _; rfl
  | succ n ih =>
    intro h
    rw [write_bits_succ, ih (fun i hi => h i (by omega)), h n (by omega), setStreamBit_self]

/-! ### Auxiliary facts on `em1000_callback` -/

theorem AD_POP_one (bb : Row) (bit : Nat) (hbit : bit < 256) :
    AD_POP bb 1 bit = if streamBit bb bit = true then 1 else 0 := by
  rw [AD_POP_succ, AD_POP_step_eq bb bit _ 0 (by omega)]
  simp [AD_POP]

theorem xorList_append_one (l : List Nat) (d : Nat) : xorList (l ++ [d]) = xorList l ^^^ d := by
  simp [xorList, List.foldl_append]

theorem xorList_lt (w : Nat) (l : List Nat) (h : ∀ x ∈ l, x < 2 ^ w) : xorList l < 2 ^ w := by
  induction l using List.reverseRecOn with
  | nil => exact Nat.two_pow_pos w
  | append_singleton l d ih =>
    rw [xorList_append_one]
    exact Nat.xor_lt_two_pow (ih (fun x hx => h x (by simp [hx]))) (h d (by simp))

theorem em1000_column_isSome (b0 b1 b2 : Nat) :
    (em1000_column b0 b1 b2).isSome = true ↔ (b0 = b1 ∨ b0 = b2 ∨ b1 = b2) := by
  unfold em1000_column
  by_cases h1 : b0 = b1 ∨ b0 = b2
  · rw [if_pos h1]
    simp only [Option.isSome_some, true_iff]
    rcases h1 with h | h
    · exact Or.inl h
    · exact Or.inr (Or.inl h)
  · rw [if_neg h1]
    by_cases h2 : b1 = b2
    · rw [if_pos h2]
      simp [h2]
    · rw [if_neg h2]
      simp only [Option.isSome_none, Bool.false_eq_true, false_iff]
      rintro (h | h | h)
      · exact h1 (Or.inl h)
      · exact h1 (Or.inr h)
      · exact h2 h

theorem em1000_column_some (b0 b1 b2 v : Nat) (h : em1000_column b0 b1 b2 = some v) :
    heldByTwo v b0 b1 b2 := by
  unfold em1000_column at h
  unfold heldByTwo
  by_cases h1 : b0 = b1 ∨ b0 = b2
  · rw [if_pos h1] at h
    have hv : b0 = v := Option.some.inj h
    subst hv
    rcases h1 with h1 | h1
    · exact Or.inl ⟨rfl, h1⟩
    · exact Or.inr (Or.inl ⟨rfl, h1⟩)
  · rw [if_neg h1] at h
    by_cases h2 : b1 = b2
    · rw [if_pos h2] at h
      have hv : b1 = v := Option.some.inj h
      subst hv
      exact Or.inr (Or.inr ⟨rfl, h2⟩)
    · rw [if_neg h2] at h
      exact Option.noConfusion h

theorem em1000_combine_upto_succ (bb : BitBuf) (n : Nat) :
    em1000_combine_upto bb (n + 1) = (em1000_combine_upto bb n).bind fun bb_p =>
      (em1000_column (bb.byte 0 n) (bb.byte 1 n) (bb.byte 2 n)).map fun b => bb_p ++ [b] := by
  unfold em1000_combine_upto
  rw [List.range_succ, List.foldl_append]
  rfl

theorem Row.byte_append_left (l : Row) (b i : Nat) (h : i < l.length) :
    Row.byte (l ++ [b]) i = l.byte i := by
  unfold Row.byte
  rw [List.getD_eq_getElem?_getD, List.getD_eq_getElem?_getD, List.getElem?_append_left h]

theorem Row.byte_append_length (l : Row) (b : Nat) : Row.byte (l ++ [b]) l.length = b := by
  unfold Row.byte
  rw [List.getD_eq_getElem?_getD]
  simp

/-- Columns combined so far: the array has one entry per column and entry `i` is what
`em1000_column` gave for column `i`. -/
theorem em1000_combine_upto_some (bb : BitBuf) :
    ∀ n l, em1000_combine_upto bb n = some l →
      l.length = n ∧ ∀ i, i < n →
        em1000_column (bb.byte 0 i) (bb.byte 1 i) (bb.byte 2 i) = some (l.byte i) := by
  intro n
  induction n with
  | zero =>
    intro l h
    have hl : l = [] := by
      simp [em1000_combine_upto] at h
      exact h
    subst hl
    exact ⟨rfl, fun i hi => absurd hi (Nat.not_lt_zero i)⟩
  | succ n ih =>
    intro l h
    rw [em1000_combine_upto_succ] at h
    cases hp : em1000_combine_upto bb n with
    | none => rw [hp] at h; exact Option.noConfusion h
    | some p =>
      rw [hp] at h
      obtain ⟨hlen, hcols⟩ := ih p hp
      cases hc : em1000_column (bb.byte 0 n) (bb.byte 1 n) (bb.byte 2 n) with
      | none => rw [hc] at h; exact Option.noConfusion h
      | some b =>
        rw [hc] at h
        have hl : p ++ [b] = l := Option.some.inj h
        subst hl
        refine ⟨by simp [hlen], ?_⟩
        intro i hi
        by_cases hin : i = n
        · subst hin
          rw [hc, ← hlen, Row.byte_append_length]
        · rw [Row.byte_append_left p b i (by omega)]
          exact hcols i (by omega)

theorem em1000_combine_upto_isSome (bb : BitBuf) :
    ∀ n, (∀ i, i < n →
        (em1000_column (bb.byte 0 i) (bb.byte 1 i) (bb.byte 2 i)).isSome = true) →
      (em1000_combine_upto bb n).isSome = true := by
  intro n
  induction n with
  | zero => intro _; rfl
  | succ n ih =>
    intro h
    rw [em1000_combine_upto_succ]
    have h1 := ih (fun i hi => h i (by omega))
    have h2 := h n (by omega)
    obtain ⟨p, hp⟩ := Option.isSome_iff_exists.mp h1
    obtain ⟨b, hb⟩ := Option.isSome_iff_exists.mp h2
    rw [hp, hb]
    rfl

theorem em1000_read_succ (bb_p : Row) (n : Nat) :
    em1000_read bb_p (n + 1) = (em1000_read bb_p n).bind (em1000_read_step bb_p) := by
  unfold em1000_read
  rw [List.range_succ, List.foldl_append]
  rfl

theorem em1000_fields_upto_lt (bb_p : Row) (n : Nat) (hn : n ≤ 9) :
    ∀ x ∈ em1000_fields_upto bb_p n, x < 2 ^ 8 := by
  intro x hx
  unfold em1000_fields_upto at hx
  rw [List.mem_map] at hx
  obtain ⟨k, hk, rfl⟩ := hx
  rw [List.mem_range] at hk
  exact AD_POP_lt bb_p 8 _ (by decide) (by omega)

/-- The second loop of `em1000_callback` after `n ≤ 9` rounds: it has returned `0` unless the
stop bits at `26 + 9j`, `j < n`, are all set, and otherwise holds the fields read, the cursor
`18 + 9n` and the XOR of the fields. -/
theorem em1000_read_spec (bb_p : Row) :
    ∀ n, n ≤ 9 → em1000_read bb_p n =
      if ∀ j, j < n → streamBit bb_p (26 + 9 * j) = true then
        some { dec := em1000_fields_upto bb_p n, bytes := n, bit := 18 + 9 * n,
               checksum_calculated := xorList (em1000_fields_upto bb_p n) }
      else none := by
  intro n
  induction n with
  | zero =>
    intro _
    rw [if_pos (fun j hj => absurd hj (Nat.not_lt_zero j))]
    rfl
  | succ n ih =>
    intro hn
    rw [em1000_read_succ, ih (by omega)]
    by_cases hall : ∀ j, j < n → streamBit bb_p (26 + 9 * j) = true
    · rw [if_pos hall]
      simp only [Option.bind, em1000_read_step]
      have hb1 : (18 + 9 * n + 8) % 256 = 26 + 9 * n := by omega
      have hb2 : (26 + 9 * n + 1) % 256 = 18 + 9 * (n + 1) := by omega
      have hd : AD_POP bb_p 8 (18 + 9 * n) % 256 = AD_POP bb_p 8 (18 + 9 * n) :=
        Nat.mod_eq_of_lt (AD_POP_lt bb_p 8 _ (by decide) (by omega))
      have hf : em1000_fields_upto bb_p (n + 1) =
          em1000_fields_upto bb_p n ++ [AD_POP bb_p 8 (18 + 9 * n)] := by
        simp [em1000_fields_upto, List.range_succ]
      have hx : (xorList (em1000_fields_upto bb_p n) ^^^ AD_POP bb_p 8 (18 + 9 * n)) % 256 =
          xorList (em1000_fields_upto bb_p (n + 1)) := by
        rw [hf, xorList_append_one]
        apply Nat.mod_eq_of_lt
        have := xorList_lt 8 (em1000_fields_upto bb_p (n + 1))
          (em1000_fields_upto_lt bb_p (n + 1) hn)
        rw [hf, xorList_append_one] at this
        exact this
      have hby : (n + 1) % 256 = n + 1 := by omega
      rw [hb1, hb2, hd, hx, hby, ← hf, AD_POP_one bb_p _ (by omega)]
      by_cases hs : streamBit bb_p (26 + 9 * n) = true
      · have hall2 : ∀ j, j < n + 1 → streamBit bb_p (26 + 9 * j) = true := by
          intro j hj
          by_cases hjn : j = n
          · subst hjn; exact hs
          · exact hall j (by omega)
        rw [if_pos hall2, if_pos hs]
        simp
      · have hall2 : ¬ ∀ j, j < n + 1 → streamBit bb_p (26 + 9 * j) = true :=
          fun h => hs (h n (by omega))
        rw [if_neg hall2, if_neg hs]
        simp
    · rw [if_neg hall]
      have hall2 : ¬ ∀ j, j < n + 1 → streamBit bb_p (26 + 9 * j) = true :=
        fun h => hall (fun j hj => h j (by omega))
      rw [if_neg hall2]
      rfl

theorem em1000_decode_of_combine (bb : BitBuf) (bb_p : Row) (h : em1000_combine bb = some bb_p) :
    (em1000_decode bb).isSome = true ↔ em1000_frame_ok bb_p := by
  unfold em1000_decode em1000_frame_ok
  rw [h, Option.some_bind, em1000_read_spec bb_p 9 (by decide)]
  have hr : AD_POP bb_p 8 99 % 256 = AD_POP bb_p 8 99 :=
    Nat.mod_eq_of_lt (AD_POP_lt bb_p 8 _ (by decide) (by decide))
  have hf : em1000_fields_upto bb_p 9 = em1000_fields bb_p := rfl
  by_cases hall : ∀ j, j < 9 → streamBit bb_p (26 + 9 * j) = true
  · rw [if_pos hall]
    simp only [Option.bind, hr, hf]
    by_cases hc : AD_POP bb_p 8 99 = xorList (em1000_fields bb_p)
    · simp [hc]
      exact hall
    · simp [hc]
  · rw [if_neg hall]
    simp [Option.bind, hall]

theorem em1000_callback_eq_one (bb : BitBuf) :
    em1000_callback bb = 1 ↔ (em1000_decode bb).isSome = true := by
  unfold em1000_callback
  by_cases h : (em1000_decode bb).isSome = true
  · simp [h]
  · simp [h]

theorem em1000_callback_eq_zero (bb : BitBuf) :
    em1000_callback bb = 0 ↔ ¬ (em1000_decode bb).isSome = true := by
  unfold em1000_callback
  by_cases h : (em1000_decode bb).isSome = true
  · simp [h]
  · simp [h]

theorem em1000_combine_isSome_iff (bb : BitBuf) :
    (em1000_combine bb).isSome = true ↔
      ∀ i, i < 14 → (bb.byte 0 i = bb.byte 1 i ∨ bb.byte 0 i = bb.byte 2 i ∨
        bb.byte 1 i = bb.byte 2 i) := by
  constructor
  · intro h i hi
    obtain ⟨p, hp⟩ := Option.isSome_iff_exists.mp h
    have := (em1000_combine_upto_some bb 14 p hp).2 i hi
    rw [← em1000_column_isSome, this]
    rfl
  · intro h
    exact em1000_combine_upto_isSome bb 14 (fun i hi => (em1000_column_isSome _ _ _).mpr (h i hi))

theorem em1000_decode_isSome_iff (bb : BitBuf) :
    (em1000_decode bb).isSome = true ↔
      ((∀ i, i < 14 → (bb.byte 0 i = bb.byte 1 i ∨ bb.byte 0 i = bb.byte 2 i ∨
          bb.byte 1 i = bb.byte 2 i)) ∧
        ∃ bb_p, em1000_combine bb = some bb_p ∧ em1000_frame_ok bb_p) := by
  constructor
  · intro h
    cases hc : em1000_combine bb with
    | none =>
      unfold em1000_decode at h
      rw [hc] at h
      exact Bool.noConfusion h
    | some p =>
      refine ⟨(em1000_combine_isSome_iff bb).mp (by rw [hc]; rfl), p, rfl, ?_⟩
      exact (em1000_decode_of_combine bb p hc).mp h
  · rintro ⟨_, p, hp, hok⟩
    exact (em1000_decode_of_combine bb p hp).mpr hok

/-! ### Auxiliary facts on `ws2000_callback` -/

theorem ws2000_loop_succ (row : Row) (n : Nat) (s0 : Option Ws2000State) :
    ws2000_loop row (n + 1) s0 = (ws2000_loop row n s0).bind (ws2000_loop_step row) := by
  unfold ws2000_loop
  rw [List.range_succ, List.foldl_append]
  rfl

theorem ws2000_nibbles_succ (row : Row) (m : Nat) :
    ws2000_nibbles row (m + 1) = ws2000_nibbles row m ++ [AD_POP row 4 (11 + 5 * m)] := by
  simp [ws2000_nibbles, List.range_succ]

theorem ws2000_nibbles_lt (row : Row) (m : Nat) (hm : m ≤ 13) :
    ∀ x ∈ ws2000_nibbles row m, x < 2 ^ 4 := by
  intro x hx
  unfold ws2000_nibbles at hx
  rw [List.mem_map] at hx
  obtain ⟨k, hk, rfl⟩ := hx
  rw [List.mem_range] at hk
  exact AD_POP_lt row 4 _ (by decide) (by omega)

theorem ws2000_nibbles_sum_le (row : Row) :
    ∀ m, m ≤ 13 → (ws2000_nibbles row m).sum ≤ 15 * m := by
  intro m
  induction m with
  | zero => intro _; simp [ws2000_nibbles]
  | succ m ih =>
    intro hm
    have h1 := ih (by omega)
    have h2 : AD_POP row 4 (11 + 5 * m) < 2 ^ 4 := AD_POP_lt row 4 _ (by decide) (by omega)
    rw [ws2000_nibbles_succ, List.sum_append, List.sum_singleton]
    omega

/-- Reading a nibble from the state reached after `m ≤ 12` nibbles. -/
theorem ws2000_read_nibble_spec (row : Row) (m c : Nat) (hm : m ≤ 12) :
    ws2000_read_nibble row
        { dec := ws2000_nibbles row m, nibbles := c, bit := 11 + 5 * m,
          check_calculated := xorList (ws2000_nibbles row m),
          sum_calculated := (ws2000_nibbles row m).sum } =
      if streamBit row (15 + 5 * m) = true then
        some { dec := ws2000_nibbles row (m + 1), nibbles := c, bit := 11 + 5 * (m + 1),
               check_calculated := xorList (ws2000_nibbles row (m + 1)),
               sum_calculated := (ws2000_nibbles row (m + 1)).sum }
      else none := by
  simp only [ws2000_read_nibble]
  have hb1 : (11 + 5 * m + 4) % 256 = 15 + 5 * m := by omega
  have hb2 : (15 + 5 * m + 1) % 256 = 11 + 5 * (m + 1) := by omega
  have hlt : AD_POP row 4 (11 + 5 * m) < 2 ^ 4 := AD_POP_lt row 4 _ (by decide) (by omega)
  have hd : AD_POP row 4 (11 + 5 * m) % 256 = AD_POP row 4 (11 + 5 * m) :=
    Nat.mod_eq_of_lt (by omega)
  have hx : (xorList (ws2000_nibbles row m) ^^^ AD_POP row 4 (11 + 5 * m)) % 256 =
      xorList (ws2000_nibbles row (m + 1)) := by
    rw [ws2000_nibbles_succ, xorList_append_one]
    apply Nat.mod_eq_of_lt
    have h4 := xorList_lt 4 (ws2000_nibbles row (m + 1)) (ws2000_nibbles_lt row (m + 1) (by omega))
    rw [ws2000_nibbles_succ, xorList_append_one] at h4
    omega
  have hs : ((ws2000_nibbles row m).sum + AD_POP row 4 (11 + 5 * m)) % 256 =
      (ws2000_nibbles row (m + 1)).sum := by
    have h1 := ws2000_nibbles_sum_le row (m + 1) (by omega)
    rw [ws2000_nibbles_succ, List.sum_append, List.sum_singleton] at h1 ⊢
    exact Nat.mod_eq_of_lt (by omega)
  rw [hb1, hb2, hd, hx, hs, ← ws2000_nibbles_succ, AD_POP_one row _ (by omega)]
  by_cases hsb : streamBit row (15 + 5 * m) = true
  · rw [if_pos hsb, if_pos hsb]
    simp
  · rw [if_neg hsb, if_neg hsb]
    simp

/-- The first nibble and `n ≤ 12` rounds of the loop of `ws2000_callback`: the function has
returned `0` unless the stop bits at `15 + 5k`, `k ≤ n`, are all set, and otherwise holds the
`n + 1` nibbles, the cursor `11 + 5(n+1)`, the XOR and the sum of the nibbles. -/
theorem ws2000_loop_spec (row : Row) :
    ∀ n, n ≤ 12 → ws2000_loop row n (ws2000_read_nibble row ws2000_init) =
      if ∀ k, k ≤ n → streamBit row (15 + 5 * k) = true then
        some { dec := ws2000_nibbles row (n + 1), nibbles := n, bit := 11 + 5 * (n + 1),
               check_calculated := xorList (ws2000_nibbles row (n + 1)),
               sum_calculated := (ws2000_nibbles row (n + 1)).sum }
      else none := by
  intro n
  induction n with
  | zero =>
    intro _
    have h0 : ws2000_read_nibble row ws2000_init = _ :=
      ws2000_read_nibble_spec row 0 0 (by decide)
    show ws2000_read_nibble row ws2000_init = _
    rw [h0]
    by_cases hs : streamBit row (15 + 5 * 0) = true
    · rw [if_pos hs, if_pos (fun k hk => by rw [Nat.le_zero.mp hk]; exact hs)]
    · rw [if_neg hs, if_neg (fun h => hs (h 0 (Nat.le_refl 0)))]
  | succ n ih =>
    intro hn
    rw [ws2000_loop_succ, ih (by omega)]
    by_cases hall : ∀ k, k ≤ n → streamBit row (15 + 5 * k) = true
    · rw [if_pos hall, Option.some_bind]
      unfold ws2000_loop_step
      rw [ws2000_read_nibble_spec row (n + 1) n (by omega)]
      have hby : (n + 1) % 256 = n + 1 := by omega
      by_cases hs : streamBit row (15 + 5 * (n + 1)) = true
      · have hall2 : ∀ k, k ≤ n + 1 → streamBit row (15 + 5 * k) = true := by
          intro k hk
          by_cases hkn : k = n + 1
          · subst hkn; exact hs
          · exact hall k (by omega)
        rw [if_pos hs, if_pos hall2]
        simp [hby]
      · have hall2 : ¬ ∀ k, k ≤ n + 1 → streamBit row (15 + 5 * k) = true :=
          fun h => hs (h (n + 1) (Nat.le_refl _))
        rw [if_neg hs, if_neg hall2]
        rfl
    · have hall2 : ¬ ∀ k, k ≤ n + 1 → streamBit row (15 + 5 * k) = true :=
        fun h => hall (fun k hk => h k (by omega))
      rw [if_neg hall, if_neg hall2]
      rfl

theorem ws2000_count_le (row : Row) : ws2000_count row ≤ 12 := by
  unfold ws2000_count
  split <;> omega

theorem ws2000_decode_isSome_iff (bb : BitBuf) :
    (ws2000_decode bb).isSome = true ↔ ws2000_frame_ok (bb.row 0) (ws2000_count (bb.row 0)) := by
  have hc := ws2000_count_le (bb.row 0)
  have hspec := ws2000_loop_spec (bb.row 0) (ws2000_count (bb.row 0)) hc
  have hfirst := ws2000_loop_spec (bb.row 0) 0 (by decide)
  have hsum := ws2000_nibbles_sum_le (bb.row 0) (ws2000_count (bb.row 0) + 1) (by omega)
  have hrecv : AD_POP (bb.row 0) 4 (11 + 5 * (ws2000_count (bb.row 0) + 1)) % 256 =
      AD_POP (bb.row 0) 4 (11 + 5 * (ws2000_count (bb.row 0) + 1)) := by
    have := AD_POP_lt (bb.row 0) 4 (11 + 5 * (ws2000_count (bb.row 0) + 1)) (by decide)
      (by omega)
    exact Nat.mod_eq_of_lt (by omega)
  have hmask : ∀ x : Nat, ((x + 5) % 256) &&& 0xF = ((x + 5) % 256) % 16 :=
    fun x => Nat.and_pow_two_sub_one_eq_mod _ 4
  unfold ws2000_frame_ok
  unfold ws2000_decode
  by_cases h0 : streamBit (bb.row 0) (15 + 5 * 0) = true
  · have hfirst2 : ws2000_read_nibble (bb.row 0) ws2000_init =
        some { dec := ws2000_nibbles (bb.row 0) 1, nibbles := 0, bit := 11 + 5 * 1,
               check_calculated := xorList (ws2000_nibbles (bb.row 0) 1),
               sum_calculated := (ws2000_nibbles (bb.row 0) 1).sum } := by
      have h := hfirst
      rw [if_pos (fun k hk => by rw [Nat.le_zero.mp hk]; exact h0)] at h
      exact h
    have hn : (if (ws2000_nibbles (bb.row 0) 1).getD 0 0 = 4 then 12 else 8) =
        ws2000_count (bb.row 0) := by
      have hd : (ws2000_nibbles (bb.row 0) 1).getD 0 0 = AD_POP (bb.row 0) 4 11 := by
        simp [ws2000_nibbles]
      rw [hd]
      rfl
    rw [hfirst2, Option.some_bind]
    simp only [hn]
    rw [← hfirst2, hspec]
    by_cases hall : ∀ k, k ≤ ws2000_count (bb.row 0) → streamBit (bb.row 0) (15 + 5 * k) = true
    · rw [if_pos hall, Option.some_bind]
      simp only [hrecv, hmask]
      have hm : ((ws2000_nibbles (bb.row 0) (ws2000_count (bb.row 0) + 1)).sum + 5) % 256 % 16 =
          ((ws2000_nibbles (bb.row 0) (ws2000_count (bb.row 0) + 1)).sum + 5) % 16 := by
        omega
      rw [hm]
      by_cases hx : xorList (ws2000_nibbles (bb.row 0) (ws2000_count (bb.row 0) + 1)) = 0
      · by_cases hsr : AD_POP (bb.row 0) 4 (11 + 5 * (ws2000_count (bb.row 0) + 1)) =
            ((ws2000_nibbles (bb.row 0) (ws2000_count (bb.row 0) + 1)).sum + 5) % 16
        · simp only [hx, ne_eq, not_true_eq_false, if_false, hsr, Option.isSome_some, true_iff]
          exact ⟨hall, trivial, trivial⟩
        · simp [hx, hsr]
      · simp [hx]
    · rw [if_neg hall]
      simp [hall]
  · have hfirst2 : ws2000_read_nibble (bb.row 0) ws2000_init = none := by
      have h := hfirst
      rw [if_neg (fun h => h0 (h 0 (Nat.le_refl 0)))] at h
      exact h
    rw [hfirst2]
    simp only [Option.none_bind, Option.isSome_none, Bool.false_eq_true, false_iff]
    rintro ⟨hall, _⟩
    exact h0 (hall 0 (Nat.zero_le _))

theorem ws2000_callback_eq_one (bb : BitBuf) :
    ws2000_callback bb = 1 ↔ (ws2000_decode bb).isSome = true := by
  unfold ws2000_callback
  by_cases h : (ws2000_decode bb).isSome = true
  · simp [h]
  · simp [h]

theorem ws2000_callback_eq_zero (bb : BitBuf) :
    ws2000_callback bb = 0 ↔ ¬ (ws2000_decode bb).isSome = true := by
  unfold ws2000_callback
  by_cases h : (ws2000_decode bb).isSome = true
  · simp [h]
  · simp [h]

/-! ### Auxiliary facts on the redundancy-only validators -/

theorem BitBuf.isBytes_of_forall (bb : BitBuf) (h : ∀ row ∈ bb, ∀ b ∈ row, b < 256) :
    bb.IsBytes := by
  intro r c
  unfold BitBuf.byte BitBuf.row Row.byte
  rcases Nat.lt_or_ge r bb.length with hr | hr
  · rw [List.getD_eq_getElem _ _ hr]
    rcases Nat.lt_or_ge c (bb[r]).length with hc | hc
    · rw [List.getD_eq_getElem _ _ hc]
      exact h _ (List.getElem_mem _) _ (List.getElem_mem _)
    · rw [List.getD_eq_default _ _ hc]
      decide
  · rw [List.getD_eq_default _ _ hr]
    simp

theorem BitBuf.byte_of_length_le (bb : BitBuf) (r c : Nat) (h : bb.length ≤ r) :
    bb.byte r c = 0 := by
  unfold BitBuf.byte BitBuf.row Row.byte
  have hrow : bb.getD r [] = [] := List.getD_eq_default _ _ h
  rw [hrow]
  rfl

theorem rubicson_callback_eq_one (bb : BitBuf) :
    rubicson_callback bb = 1 ↔ rubicson_check bb := by
  unfold rubicson_callback rubicson_event
  by_cases h : rubicson_check bb
  · simp [h]
  · simp [h]

theorem rubicson_callback_eq_zero (bb : BitBuf) :
    rubicson_callback bb = 0 ↔ ¬ rubicson_check bb := by
  unfold rubicson_callback rubicson_event
  by_cases h : rubicson_check bb
  · simp [h]
  · simp [h]

theorem prologue_callback_eq_zero (bb : BitBuf) :
    prologue_callback bb = 0 ↔ ¬ prologue_check bb := by
  unfold prologue_callback prologue_event
  by_cases h : prologue_check bb
  · simp [h]
  · simp [h]

theorem rubicson_event_temp (bb : BitBuf) (ev : RubicsonEvent)
    (h : rubicson_event bb = some ev) : ev.temp = rubicson_temp bb := by
  unfold rubicson_event at h
  by_cases hc : rubicson_check bb
  · rw [if_pos hc] at h
    have := Option.some.inj h
    rw [← this]
  · rw [if_neg hc] at h
    exact Option.noConfusion h

/-- The 16-bit pattern built by `rubicson_callback` is `16 * v`, with `v` the 12-bit field. -/
theorem rubicson_pattern (b1 b2 : Nat) (h2 : b2 < 256) :
    ((b1 <<< 12) % 65536) ||| (b2 <<< 4) = 16 * ((b1 % 16) * 256 + b2) := by
  rw [Nat.shiftLeft_eq, Nat.shiftLeft_eq]
  have h1 : (b1 * 2 ^ 12) % 65536 = 2 ^ 12 * (b1 % 16) := by omega
  have h3 : b2 * 2 ^ 4 < 2 ^ 12 := by omega
  rw [h1, ← Nat.mul_add_lt_is_or h3]
  omega

theorem rubicson_temp_eq (bb : BitBuf) (h2 : bb.byte 0 2 < 256) :
    rubicson_temp bb =
      if (bb.byte 0 1 % 16) * 256 + bb.byte 0 2 < 2048
      then (((bb.byte 0 1 % 16) * 256 + bb.byte 0 2 : Nat) : Int)
      else (((bb.byte 0 1 % 16) * 256 + bb.byte 0 2 : Nat) : Int) - 4096 := by
  unfold rubicson_temp
  simp only []
  rw [rubicson_pattern _ _ h2, Int.shiftRight_eq_div_pow]
  generalize hv : (bb.byte 0 1 % 16) * 256 + bb.byte 0 2 = v
  have hvlt : v < 4096 := by omega
  unfold toInt16
  have hm : (16 * v) % 65536 = 16 * v := Nat.mod_eq_of_lt (by omega)
  rw [hm]
  by_cases hlt : v < 2048
  · rw [if_pos (by omega), if_pos hlt]
    push_cast
    omega
  · rw [if_neg (by omega), if_neg hlt]
    push_cast
    omega

/-! ### Auxiliary facts on `pwm_analyze` -/

theorem pwm_sample_high (cfg : PwmConfig) (s : PwmState) (v : Int) (hv : ¬ v < cfg.level_limit) :
    pwm_sample cfg s v = PwmOutcome.ok (pwm_tick (pwm_rising cfg s v)) := by
  simp only [pwm_sample, pwm_falling, if_neg hv, pwm_tick]

theorem pwm_rising_low (cfg : PwmConfig) (s : PwmState) (v : Int) (hv : ¬ v > cfg.level_limit) :
    pwm_rising cfg s v = s := by
  simp only [pwm_rising, if_neg hv]

theorem pwm_falling_low (cfg : PwmConfig) (s : PwmState) (v : Int) (hv : v < cfg.level_limit) :
    pwm_falling cfg s v =
      if s.print2 ≠ 0 then
        if (pwm_pulse_end s).signal_pulse_counter ≥ 4000 then
          PwmOutcome.err { pwm_pulse_end s with signal_pulse_counter := 0 }
        else pwm_close cfg (pwm_set_print (pwm_pulse_end s))
      else pwm_close cfg (pwm_set_print s) := by
  simp only [pwm_falling, if_pos hv, pwm_pulse_end, pwm_set_print]

theorem pwm_sample_low (cfg : PwmConfig) (s : PwmState) (v : Int) (hv : v < cfg.level_limit) :
    pwm_sample cfg s v = pwm_falling cfg (pwm_tick s) v := by
  have h : ¬ v > cfg.level_limit := by omega
  simp only [pwm_sample, pwm_rising_low cfg s v h, pwm_tick]

theorem pwm_close_not (cfg : PwmConfig) (s : PwmState)
    (h : ¬ (s.signal_start ≠ 0 ∧ uadd s.pulse_end 50000 < s.counter)) :
    pwm_close cfg s = PwmOutcome.ok s := by
  simp only [pwm_close, if_neg h]

/-- The close block in terms of the table after classification. -/
theorem pwm_close_yes (cfg : PwmConfig) (s : PwmState)
    (h : s.signal_start ≠ 0 ∧ uadd s.pulse_end 50000 < s.counter) :
    pwm_close cfg s =
      match classify_signal_table cfg.override_short cfg.override_long s.signal_pulse_data with
      | none => PwmOutcome.crashed
      | some d =>
        PwmOutcome.ok
          { s with
            signal_end := usub s.counter 40000
            pulses_found := 0
            signal_pulse_data := d
            signal_pulse_counter := 0
            signal_grabber := if cfg.sg_buf then s.signal_grabber + 1 else s.signal_grabber
            signal_start := 0 } := by
  simp only [pwm_close, if_pos h, classify_signal_table]
  cases classify_signal cfg.override_short cfg.override_long s.signal_pulse_data <;> rfl

theorem pwm_closed_close (cfg : PwmConfig) (s : PwmState) (hopen : s.signal_start ≠ 0) :
    pwm_closed (pwm_close cfg s) ↔ uadd s.pulse_end 50000 < s.counter := by
  constructor
  · intro h
    by_contra hc
    rw [pwm_close_not cfg s (fun hh => hc hh.2)] at h
    rcases h with h | ⟨s1, h1, h2, _⟩
    · exact PwmOutcome.noConfusion h
    · have : s = s1 := PwmOutcome.ok.inj h1
      subst this
      exact hopen h2
  · intro h
    rw [pwm_close_yes cfg s ⟨hopen, h⟩]
    cases classify_signal_table cfg.override_short cfg.override_long s.signal_pulse_data with
    | none => exact Or.inl rfl
    | some d => exact Or.inr ⟨_, rfl, rfl, rfl⟩

theorem pwm_not_closed_err (s : PwmState) : ¬ pwm_closed (PwmOutcome.err s) := by
  rintro (h | ⟨s1, h1, _⟩)
  · exact PwmOutcome.noConfusion h
  · exact PwmOutcome.noConfusion h1

theorem pwm_not_closed_ok (s : PwmState) (h : s.signal_start ≠ 0) :
    ¬ pwm_closed (PwmOutcome.ok s) := by
  rintro (h1 | ⟨s1, h1, h2, _⟩)
  · exact PwmOutcome.noConfusion h1
  · have : s = s1 := PwmOutcome.ok.inj h1
    subst this
    exact h h2

/-- The falling-edge block on a state with an open signal: the signal is closed exactly when
the pulse table did not overflow and the test `pulse_end + 50000 < counter` succeeds. -/
theorem pwm_closed_falling_iff (cfg : PwmConfig) (t : PwmState) (v : Int)
    (hopen : t.signal_start ≠ 0) (hv : v < cfg.level_limit) :
    pwm_closed (pwm_falling cfg t v) ↔
      if t.print2 ≠ 0 then
        uadd t.signal_pulse_counter 1 < 4000 ∧ uadd t.counter 50000 < t.counter
      else uadd t.pulse_end 50000 < t.counter := by
  rw [pwm_falling_low cfg t v hv]
  by_cases hp : t.print2 ≠ 0
  · simp only [if_pos hp]
    by_cases hfull : (pwm_pulse_end t).signal_pulse_counter ≥ 4000
    · rw [if_pos hfull]
      have hfull2 : uadd t.signal_pulse_counter 1 ≥ 4000 := hfull
      constructor
      · intro h
        exact absurd h (pwm_not_closed_err _)
      · rintro ⟨h, _⟩
        omega
    · rw [if_neg hfull]
      have hfull2 : ¬ uadd t.signal_pulse_counter 1 ≥ 4000 := hfull
      rw [pwm_closed_close cfg (pwm_set_print (pwm_pulse_end t)) hopen]
      constructor
      · intro h
        exact ⟨by omega, h⟩
      · rintro ⟨_, h⟩
        exact h
  · simp only [if_neg hp]
    exact pwm_closed_close cfg (pwm_set_print t) hopen

/-- The falling-edge block that does not close the signal keeps `signal_start`. -/
theorem pwm_falling_keeps_open (cfg : PwmConfig) (t : PwmState) (v : Int)
    (hopen : t.signal_start ≠ 0) (hv : v < cfg.level_limit)
    (hnc : ¬ pwm_closed (pwm_falling cfg t v)) :
    ∃ s1, (pwm_falling cfg t v = PwmOutcome.ok s1 ∨ pwm_falling cfg t v = PwmOutcome.err s1) ∧
      s1.signal_start = t.signal_start := by
  rw [pwm_falling_low cfg t v hv] at hnc ⊢
  by_cases hp : t.print2 ≠ 0
  · simp only [if_pos hp] at hnc ⊢
    by_cases hfull : (pwm_pulse_end t).signal_pulse_counter ≥ 4000
    · rw [if_pos hfull]
      exact ⟨_, Or.inr rfl, rfl⟩
    · rw [if_neg hfull] at hnc ⊢
      rw [pwm_closed_close cfg (pwm_set_print (pwm_pulse_end t)) hopen] at hnc
      rw [pwm_close_not cfg _ (fun hh => hnc hh.2)]
      exact ⟨_, Or.inl rfl, rfl⟩
  · simp only [if_neg hp] at hnc ⊢
    rw [pwm_closed_close cfg (pwm_set_print t) hopen] at hnc
    rw [pwm_close_not cfg _ (fun hh => hnc hh.2)]
    exact ⟨_, Or.inl rfl, rfl⟩

theorem pwm_rising_signal_start (cfg : PwmConfig) (s : PwmState) (v : Int)
    (hopen : s.signal_start ≠ 0) : (pwm_rising cfg s v).signal_start = s.signal_start := by
  simp only [pwm_rising]
  split
  · split <;> simp [hopen]
  · rfl

/-- When the signal is open before a sample, it is closed at that sample exactly when the
sample is below the limit, the pulse table did not overflow at it, and the test
`pulse_end + 50000 < counter` (on the values the statics have at the test) succeeds. -/
theorem pwm_closed_sample_iff (cfg : PwmConfig) (s : PwmState) (v : Int)
    (hopen : s.signal_start ≠ 0) :
    pwm_closed (pwm_sample cfg s v) ↔
      (v < cfg.level_limit ∧
        if s.print2 ≠ 0 then
          uadd s.signal_pulse_counter 1 < 4000 ∧
            uadd (uadd s.counter 1) 50000 < uadd s.counter 1
        else uadd s.pulse_end 50000 < uadd s.counter 1) := by
  by_cases hv : v < cfg.level_limit
  · rw [pwm_sample_low cfg s v hv, pwm_closed_falling_iff cfg (pwm_tick s) v hopen hv]
    simp only [hv, true_and]
    rfl
  · rw [pwm_sample_high cfg s v hv]
    constructor
    · intro h
      exfalso
      refine pwm_not_closed_ok _ ?_ h
      have h1 : (pwm_tick (pwm_rising cfg s v)).signal_start = (pwm_rising cfg s v).signal_start :=
        rfl
      rw [h1, pwm_rising_signal_start cfg s v hopen]
      exact hopen
    · rintro ⟨h, _⟩
      exact absurd h hv

/-- A sample that does not close the signal leaves `signal_start` as it is. -/
theorem pwm_sample_keeps_open (cfg : PwmConfig) (s : PwmState) (v : Int)
    (hopen : s.signal_start ≠ 0) (hnc : ¬ pwm_closed (pwm_sample cfg s v)) :
    ∃ s1, (pwm_sample cfg s v = PwmOutcome.ok s1 ∨ pwm_sample cfg s v = PwmOutcome.err s1) ∧
      s1.signal_start = s.signal_start := by
  by_cases hv : v < cfg.level_limit
  · rw [pwm_sample_low cfg s v hv] at hnc ⊢
    exact pwm_falling_keeps_open cfg (pwm_tick s) v hopen hv hnc
  · rw [pwm_sample_high cfg s v hv]
    exact ⟨_, Or.inl rfl, pwm_rising_signal_start cfg s v hopen⟩

theorem uadd_eq (a b : Nat) (h : a + b < U32) : uadd a b = a + b := Nat.mod_eq_of_lt h

theorem usub_eq (a b : Nat) (hb : b ≤ a) (ha : a < U32) : usub a b = a - b := by
  unfold usub
  have hb2 : b % U32 = b := Nat.mod_eq_of_lt (by omega)
  rw [hb2]
  have h : a + U32 - b = (a - b) + U32 := by omega
  rw [h, Nat.add_mod_right]
  exact Nat.mod_eq_of_lt (by omega)

theorem pwm_analyze_nil (cfg : PwmConfig) (s : PwmState) :
    pwm_analyze cfg s [] = PwmOutcome.ok s := rfl

theorem pwm_analyze_cons (cfg : PwmConfig) (s : PwmState) (v : Int) (buf : List Int) :
    pwm_analyze cfg s (v :: buf) =
      match pwm_sample cfg s v with
      | PwmOutcome.ok s1 => pwm_analyze cfg s1 buf
      | PwmOutcome.err s1 => PwmOutcome.err s1
      | PwmOutcome.crashed => PwmOutcome.crashed := rfl

/-- How `pwm_close` can return. -/
theorem pwm_close_ok_cases (cfg : PwmConfig) (t s1 : PwmState)
    (h : pwm_close cfg t = PwmOutcome.ok s1) :
    s1 = t ∨ ∃ d, (d = t.signal_pulse_data ∨ d = t.signal_pulse_data.clear) ∧
      s1 = { t with
             signal_end := usub t.counter 40000
             pulses_found := 0
             signal_pulse_data := d
             signal_pulse_counter := 0
             signal_grabber := if cfg.sg_buf then t.signal_grabber + 1 else t.signal_grabber
             signal_start := 0 } := by
  by_cases hc : t.signal_start ≠ 0 ∧ uadd t.pulse_end 50000 < t.counter
  · rw [pwm_close_yes cfg t hc] at h
    unfold classify_signal_table at h
    cases hcl : classify_signal cfg.override_short cfg.override_long t.signal_pulse_data with
    | skipped =>
      rw [hcl] at h
      exact Or.inr ⟨_, Or.inl rfl, (PwmOutcome.ok.inj h).symm⟩
    | done c =>
      rw [hcl] at h
      exact Or.inr ⟨_, Or.inr rfl, (PwmOutcome.ok.inj h).symm⟩
    | crashed =>
      rw [hcl] at h
      exact PwmOutcome.noConfusion h
  · rw [pwm_close_not cfg t hc] at h
    exact Or.inl (PwmOutcome.ok.inj h).symm

theorem pwm_close_not_err (cfg : PwmConfig) (t s1 : PwmState) :
    pwm_close cfg t ≠ PwmOutcome.err s1 := by
  intro h
  by_cases hc : t.signal_start ≠ 0 ∧ uadd t.pulse_end 50000 < t.counter
  · rw [pwm_close_yes cfg t hc] at h
    cases hcl : classify_signal_table cfg.override_short cfg.override_long
        t.signal_pulse_data with
    | none => rw [hcl] at h; exact PwmOutcome.noConfusion h
    | some d => rw [hcl] at h; exact PwmOutcome.noConfusion h
  · rw [pwm_close_not cfg t hc] at h
    exact PwmOutcome.noConfusion h

/-- The ways a sample can be processed without a crash. -/
theorem pwm_sample_cases (cfg : PwmConfig) (s s1 : PwmState) (v : Int)
    (h : pwm_sample cfg s v = PwmOutcome.ok s1 ∨ pwm_sample cfg s v = PwmOutcome.err s1) :
    (¬ v < cfg.level_limit ∧ s1 = pwm_tick (pwm_rising cfg s v)) ∨
    (v < cfg.level_limit ∧ s.print2 ≠ 0 ∧ uadd s.signal_pulse_counter 1 ≥ 4000 ∧
      pwm_sample cfg s v = PwmOutcome.err s1 ∧
      s1 = { pwm_pulse_end (pwm_tick s) with signal_pulse_counter := 0 }) ∨
    (v < cfg.level_limit ∧ s.print2 ≠ 0 ∧ uadd s.signal_pulse_counter 1 < 4000 ∧
      pwm_close cfg (pwm_set_print (pwm_pulse_end (pwm_tick s))) = PwmOutcome.ok s1) ∨
    (v < cfg.level_limit ∧ s.print2 = 0 ∧
      pwm_close cfg (pwm_set_print (pwm_tick s)) = PwmOutcome.ok s1) := by
  by_cases hv : v < cfg.level_limit
  · rw [pwm_sample_low cfg s v hv, pwm_falling_low cfg _ v hv] at h
    have hs := pwm_sample_low cfg s v hv
    rw [pwm_falling_low cfg _ v hv] at hs
    by_cases hp : s.print2 ≠ 0
    · have hp2 : (pwm_tick s).print2 ≠ 0 := hp
      rw [if_pos hp2] at h hs
      by_cases hfull : uadd s.signal_pulse_counter 1 ≥ 4000
      · have hfull2 : (pwm_pulse_end (pwm_tick s)).signal_pulse_counter ≥ 4000 := hfull
        rw [if_pos hfull2] at h hs
        rcases h with h | h
        · exact PwmOutcome.noConfusion h
        · have := PwmOutcome.err.inj h
          right; left
          refine ⟨hv, hp, hfull, ?_, this.symm⟩
          rw [hs, this]
      · have hfull2 : ¬ (pwm_pulse_end (pwm_tick s)).signal_pulse_counter ≥ 4000 := hfull
        rw [if_neg hfull2] at h
        rcases h with h | h
        · right; right; left
          exact ⟨hv, hp, by omega, h⟩
        · exact absurd h (pwm_close_not_err cfg _ s1)
    · have hp2 : ¬ (pwm_tick s).print2 ≠ 0 := hp
      rw [if_neg hp2] at h
      rcases h with h | h
      · right; right; right
        exact ⟨hv, by simpa using hp, h⟩
      · exact absurd h (pwm_close_not_err cfg _ s1)
  · rw [pwm_sample_high cfg s v hv] at h
    rcases h with h | h
    · exact Or.inl ⟨hv, (PwmOutcome.ok.inj h).symm⟩
    · exact PwmOutcome.noConfusion h

/-- Induction over the samples of a chunk, for a property indexed by the number of samples
consumed. -/
theorem pwm_analyze_induction (cfg : PwmConfig) (J : Nat → PwmState → Prop) (B : Nat)
    (hstep : ∀ n s v s1, J n s → n < B →
      (pwm_sample cfg s v = PwmOutcome.ok s1 ∨ pwm_sample cfg s v = PwmOutcome.err s1) →
      J (n + 1) s1) :
    ∀ buf n s s1, J n s → n + buf.length ≤ B →
      (pwm_analyze cfg s buf = PwmOutcome.ok s1 ∨ pwm_analyze cfg s buf = PwmOutcome.err s1) →
      ∃ m, m ≤ n + buf.length ∧ J m s1 := by
  intro buf
  induction buf with
  | nil =>
    intro n s s1 hJ _ h
    rw [pwm_analyze_nil] at h
    rcases h with h | h
    · have : s = s1 := PwmOutcome.ok.inj h
      subst this
      exact ⟨n, by simp, hJ⟩
    · exact PwmOutcome.noConfusion h
  | cons v buf ih =>
    intro n s s1 hJ hB h
    rw [pwm_analyze_cons] at h
    have hlen : (v :: buf).length = buf.length + 1 := rfl
    cases hs : pwm_sample cfg s v with
    | ok s2 =>
      rw [hs] at h
      have hJ2 := hstep n s v s2 hJ (by omega) (Or.inl hs)
      obtain ⟨m, hm, hJm⟩ := ih (n + 1) s2 s1 hJ2 (by omega) h
      exact ⟨m, by omega, hJm⟩
    | err s2 =>
      rw [hs] at h
      have hJ2 := hstep n s v s2 hJ (by omega) (Or.inr hs)
      rcases h with h | h
      · exact PwmOutcome.noConfusion h
      · have : s2 = s1 := PwmOutcome.err.inj h
        subst this
        exact ⟨n + 1, by omega, hJ2⟩
    | crashed =>
      rw [hs] at h
      rcases h with h | h <;> exact PwmOutcome.noConfusion h

theorem total_samples_cons (buf : List Int) (rest : List (List Int)) :
    total_samples (buf :: rest) = buf.length + total_samples rest := by
  simp [total_samples]

/-- Induction over the chunks handed to `pwm_analyze`. -/
theorem pwm_chunks_induction (cfg : PwmConfig) (J : Nat → PwmState → Prop) (B : Nat)
    (hstep : ∀ n s v s1, J n s → n < B →
      (pwm_sample cfg s v = PwmOutcome.ok s1 ∨ pwm_sample cfg s v = PwmOutcome.err s1) →
      J (n + 1) s1) :
    ∀ chunks n s s1, J n s → n + total_samples chunks ≤ B →
      pwm_chunks cfg s chunks = some s1 →
      ∃ m, m ≤ n + total_samples chunks ∧ J m s1 := by
  intro chunks
  induction chunks with
  | nil =>
    intro n s s1 hJ _ h
    have : s = s1 := Option.some.inj h
    subst this
    exact ⟨n, by omega, hJ⟩
  | cons buf rest ih =>
    intro n s s1 hJ hB h
    rw [total_samples_cons] at hB ⊢
    have hch : pwm_chunks cfg s (buf :: rest) =
        match pwm_analyze cfg s buf with
        | PwmOutcome.ok s2 => pwm_chunks cfg s2 rest
        | PwmOutcome.err s2 => pwm_chunks cfg s2 rest
        | PwmOutcome.crashed => none := rfl
    rw [hch] at h
    cases ha : pwm_analyze cfg s buf with
    | ok s2 =>
      rw [ha] at h
      obtain ⟨m, hm, hJm⟩ := pwm_analyze_induction cfg J B hstep buf n s s2 hJ (by omega)
        (Or.inl ha)
      obtain ⟨m2, hm2, hJ2⟩ := ih m s2 s1 hJm (by omega) h
      exact ⟨m2, by omega, hJ2⟩
    | err s2 =>
      rw [ha] at h
      obtain ⟨m, hm, hJm⟩ := pwm_analyze_induction cfg J B hstep buf n s s2 hJ (by omega)
        (Or.inr ha)
      obtain ⟨m2, hm2, hJ2⟩ := ih m s2 s1 hJm (by omega) h
      exact ⟨m2, by omega, hJ2⟩
    | crashed =>
      rw [ha] at h
      exact Option.noConfusion h

theorem pwm_rising_cursor (cfg : PwmConfig) (s : PwmState) (v : Int) :
    (pwm_rising cfg s v).signal_pulse_counter = s.signal_pulse_counter := by
  simp only [pwm_rising]
  split
  · split
    · split <;> rfl
    · split <;> rfl
  · rfl

theorem pwm_rising_counter (cfg : PwmConfig) (s : PwmState) (v : Int) :
    (pwm_rising cfg s v).counter = s.counter := by
  simp only [pwm_rising]
  split
  · split
    · split <;> rfl
    · split <;> rfl
  · rfl

/-- The rising-edge block writes the table in the row at the cursor only. -/
theorem pwm_rising_table_other (cfg : PwmConfig) (s : PwmState) (v : Int) (i j : Nat)
    (hi : i ≠ s.signal_pulse_counter) :
    (pwm_rising cfg s v).signal_pulse_data i j = s.signal_pulse_data i j := by
  by_cases hv : v > cfg.level_limit <;> by_cases hs : s.signal_start = 0 <;>
    by_cases hp : s.print ≠ 0 <;> simp [pwm_rising, hv, hs, hp, PulseTable.set, hi]

theorem pwm_pulse_end_table_other (s : PwmState) (i j : Nat) (hi : i ≠ s.signal_pulse_counter) :
    (pwm_pulse_end s).signal_pulse_data i j = s.signal_pulse_data i j := by
  simp [pwm_pulse_end, PulseTable.set, hi]

theorem PulseTable.clear_of_ge (d : PulseTable) (i j : Nat) (hi : 1000 ≤ i) :
    d.clear i j = d i j := by
  unfold PulseTable.clear
  rw [if_neg (by omega)]

/-- One sample keeps the cursor inside the table and the rows past the table untouched. -/
theorem pwm_cursor_step (cfg : PwmConfig) (s s1 : PwmState) (v : Int) (hI : PwmCursorInv s)
    (h : pwm_sample cfg s v = PwmOutcome.ok s1 ∨ pwm_sample cfg s v = PwmOutcome.err s1) :
    PwmCursorInv s1 := by
  obtain ⟨hc, hrows⟩ := hI
  have hpe : ∀ i j, 4000 ≤ i →
      (pwm_pulse_end (pwm_tick s)).signal_pulse_data i j = 0 := by
    intro i j hi
    rw [pwm_pulse_end_table_other (pwm_tick s) i j
      (by show i ≠ s.signal_pulse_counter; omega)]
    exact hrows i j hi
  rcases pwm_sample_cases cfg s s1 v h with ⟨_, h1⟩ | ⟨_, _, _, _, h1⟩ | ⟨_, _, hlt, h1⟩ |
      ⟨_, _, h1⟩
  · subst h1
    refine ⟨?_, ?_⟩
    · show (pwm_rising cfg s v).signal_pulse_counter < 4000
      rw [pwm_rising_cursor]
      exact hc
    · intro i j hi
      show (pwm_rising cfg s v).signal_pulse_data i j = 0
      rw [pwm_rising_table_other cfg s v i j (by omega)]
      exact hrows i j hi
  · subst h1
    exact ⟨by show (0 : Nat) < 4000; omega, hpe⟩
  · rcases pwm_close_ok_cases cfg _ s1 h1 with h2 | ⟨d, hd, h2⟩
    · subst h2
      exact ⟨hlt, hpe⟩
    · subst h2
      refine ⟨by show (0 : Nat) < 4000; omega, ?_⟩
      intro i j hi
      show d i j = 0
      rcases hd with hd | hd
      · rw [hd]
        exact hpe i j hi
      · rw [hd, PulseTable.clear_of_ge _ i j (by omega)]
        exact hpe i j hi
  · rcases pwm_close_ok_cases cfg _ s1 h1 with h2 | ⟨d, hd, h2⟩
    · subst h2
      exact ⟨hc, hrows⟩
    · subst h2
      refine ⟨by show (0 : Nat) < 4000; omega, ?_⟩
      intro i j hi
      show d i j = 0
      rcases hd with hd | hd
      · rw [hd]
        exact hrows i j hi
      · rw [hd, PulseTable.clear_of_ge _ i j (by omega)]
        exact hrows i j hi

theorem pwm_cursor_init : PwmCursorInv pwm_init :=
  ⟨by decide, fun _ _ _ => rfl⟩

theorem PulseRowOk.mono (d : PulseTable) (i n m : Nat) (hnm : n ≤ m) (h : PulseRowOk d i n) :
    PulseRowOk d i m := by
  rcases h with h | h | ⟨h1, h2, h3⟩
  · exact Or.inl h
  · exact Or.inr (Or.inl h)
  · exact Or.inr (Or.inr ⟨h1, h2, by omega⟩)

theorem PulseRowOk.clear (d : PulseTable) (i n : Nat) (h : PulseRowOk d i n) :
    PulseRowOk d.clear i n := by
  unfold PulseRowOk PulseTable.clear
  by_cases hi : i < 1000
  · left
    simp [hi]
  · simpa [hi] using h

/-- Closing the signal keeps the invariant when no pulse is open. -/
theorem PwmInv.close (cfg : PwmConfig) (n : Nat) (t s1 : PwmState) (hI : PwmInv n t)
    (hp : t.print2 = 0) (h : pwm_close cfg t = PwmOutcome.ok s1) : PwmInv n s1 := by
  obtain ⟨hc, _, hrows⟩ := hI
  rcases pwm_close_ok_cases cfg t s1 h with h2 | ⟨d, hd, h2⟩
  · subst h2
    exact ⟨hc, fun h0 => absurd hp h0, hrows⟩
  · subst h2
    refine ⟨hc, fun h0 => absurd hp h0, ?_⟩
    intro i
    show PulseRowOk d i n
    rcases hd with hd | hd
    · rw [hd]
      exact hrows i
    · rw [hd]
      exact PulseRowOk.clear _ i n (hrows i)

/-- The row that the falling-edge block writes at sample `n + 1`: the start of the open pulse,
the end `n + 1` and the length `n + 1 - start`. -/
theorem pwm_pulse_end_row (n : Nat) (s : PwmState) (hI : PwmInv n s) (hn : n + 1 < U32)
    (hp : s.print2 ≠ 0) :
    (pwm_pulse_end (pwm_tick s)).signal_pulse_data s.signal_pulse_counter 0 = s.pulse_start ∧
      (pwm_pulse_end (pwm_tick s)).signal_pulse_data s.signal_pulse_counter 1 = n + 1 ∧
      (pwm_pulse_end (pwm_tick s)).signal_pulse_data s.signal_pulse_counter 2 =
        n + 1 - s.pulse_start ∧ s.pulse_start < n := by
  obtain ⟨hc, hopen, _⟩ := hI
  obtain ⟨hstart, hlt⟩ := hopen hp
  have hcnt : uadd s.counter 1 = n + 1 := by
    rw [hc]
    exact uadd_eq n 1 hn
  refine ⟨?_, ?_, ?_, hlt⟩
  · simp [pwm_pulse_end, pwm_tick, PulseTable.set, hstart]
  · simp [pwm_pulse_end, pwm_tick, PulseTable.set, hcnt]
  · simp only [pwm_pulse_end, pwm_tick, PulseTable.set, hcnt]
    simp only [and_self, if_true]
    exact usub_eq _ _ (by omega) hn

/-- The invariant after the open pulse has been completed at sample `n + 1`. -/
theorem PwmInv.pulse_end (n : Nat) (s : PwmState) (hI : PwmInv n s) (hn : n + 1 < U32)
    (hp : s.print2 ≠ 0) : PwmInv (n + 1) (pwm_pulse_end (pwm_tick s)) := by
  obtain ⟨hc, hopen, hrows⟩ := hI
  obtain ⟨hstart, hlt⟩ := hopen hp
  have hcnt : uadd s.counter 1 = n + 1 := by
    rw [hc]
    exact uadd_eq n 1 hn
  refine ⟨hcnt, fun h0 => absurd rfl h0, ?_⟩
  intro i
  by_cases hi : i = s.signal_pulse_counter
  · right; right
    subst hi
    have h0 : (pwm_pulse_end (pwm_tick s)).signal_pulse_data s.signal_pulse_counter 0 =
        s.pulse_start := by
      simp [pwm_pulse_end, pwm_tick, PulseTable.set, hstart]
    have h1 : (pwm_pulse_end (pwm_tick s)).signal_pulse_data s.signal_pulse_counter 1 =
        n + 1 := by
      simp [pwm_pulse_end, pwm_tick, PulseTable.set, hcnt]
    have h2 : (pwm_pulse_end (pwm_tick s)).signal_pulse_data s.signal_pulse_counter 2 =
        n + 1 - s.pulse_start := by
      simp only [pwm_pulse_end, pwm_tick, PulseTable.set, hcnt]
      simp only [and_self, if_true]
      exact usub_eq _ _ (by omega) hn
    rw [h0, h1, h2]
    exact ⟨by omega, rfl, Nat.le_refl _⟩
  · have hrow : ∀ j, (pwm_pulse_end (pwm_tick s)).signal_pulse_data i j =
        s.signal_pulse_data i j :=
      fun j => pwm_pulse_end_table_other (pwm_tick s) i j hi
    have := PulseRowOk.mono _ i n (n + 1) (by omega) (hrows i)
    unfold PulseRowOk at this ⊢
    rw [hrow 0, hrow 1, hrow 2]
    exact this

/-- The invariant after the rising-edge block and `counter++`. -/
theorem PwmInv.rising (cfg : PwmConfig) (n : Nat) (s : PwmState) (v : Int) (hI : PwmInv n s)
    (hn : n + 1 < U32) : PwmInv (n + 1) (pwm_tick (pwm_rising cfg s v)) := by
  obtain ⟨hc, hopen, hrows⟩ := hI
  have hcnt : (pwm_tick (pwm_rising cfg s v)).counter = n + 1 := by
    show uadd (pwm_rising cfg s v).counter 1 = n + 1
    rw [pwm_rising_counter, hc]
    exact uadd_eq n 1 hn
  by_cases hv : v > cfg.level_limit ∧ s.print ≠ 0
  · obtain ⟨hv1, hv2⟩ := hv
    have hfields : (pwm_rising cfg s v).print2 = 1 ∧ (pwm_rising cfg s v).pulse_start = n ∧
        (pwm_rising cfg s v).signal_pulse_data s.signal_pulse_counter 0 = n ∧
        (pwm_rising cfg s v).signal_pulse_data s.signal_pulse_counter 1 = U32 - 1 ∧
        (pwm_rising cfg s v).signal_pulse_data s.signal_pulse_counter 2 = U32 - 1 := by
      by_cases hs : s.signal_start = 0 <;>
        simp [pwm_rising, hv1, hv2, hs, PulseTable.set, hc]
    obtain ⟨_, f2, f3, f4, f5⟩ := hfields
    refine ⟨hcnt, ?_, ?_⟩
    · intro _
      show (pwm_rising cfg s v).signal_pulse_data (pwm_rising cfg s v).signal_pulse_counter 0 =
        (pwm_rising cfg s v).pulse_start ∧ (pwm_rising cfg s v).pulse_start < n + 1
      rw [pwm_rising_cursor, f2, f3]
      exact ⟨rfl, by omega⟩
    · intro i
      show PulseRowOk (pwm_rising cfg s v).signal_pulse_data i (n + 1)
      by_cases hi : i = s.signal_pulse_counter
      · subst hi
        exact Or.inr (Or.inl ⟨f4, f5⟩)
      · have := PulseRowOk.mono _ i n (n + 1) (by omega) (hrows i)
        unfold PulseRowOk at this ⊢
        rw [pwm_rising_table_other cfg s v i 0 hi, pwm_rising_table_other cfg s v i 1 hi,
          pwm_rising_table_other cfg s v i 2 hi]
        exact this
  · have hfields : (pwm_rising cfg s v).print2 = s.print2 ∧
        (pwm_rising cfg s v).pulse_start = s.pulse_start ∧
        (pwm_rising cfg s v).signal_pulse_data = s.signal_pulse_data := by
      by_cases hv1 : v > cfg.level_limit
      · have hv2 : ¬ s.print ≠ 0 := fun h => hv ⟨hv1, h⟩
        by_cases hs : s.signal_start = 0 <;> simp [pwm_rising, hv1, hv2, hs]
      · simp [pwm_rising, hv1]
    obtain ⟨f1, f2, f3⟩ := hfields
    refine ⟨hcnt, ?_, ?_⟩
    · intro hp
      show (pwm_rising cfg s v).signal_pulse_data (pwm_rising cfg s v).signal_pulse_counter 0 =
        (pwm_rising cfg s v).pulse_start ∧ (pwm_rising cfg s v).pulse_start < n + 1
      have hp2 : s.print2 ≠ 0 := by
        rw [← f1]
        exact hp
      obtain ⟨h1, h2⟩ := hopen hp2
      rw [pwm_rising_cursor, f2, f3]
      exact ⟨h1, by omega⟩
    · intro i
      show PulseRowOk (pwm_rising cfg s v).signal_pulse_data i (n + 1)
      rw [f3]
      exact PulseRowOk.mono _ i n (n + 1) (by omega) (hrows i)

/-- One sample keeps the invariant of the pulse extractor, as long as the counter does not
wrap. -/
theorem PwmInv.step (cfg : PwmConfig) (n : Nat) (s s1 : PwmState) (v : Int) (hI : PwmInv n s)
    (hn : n + 1 < U32)
    (h : pwm_sample cfg s v = PwmOutcome.ok s1 ∨ pwm_sample cfg s v = PwmOutcome.err s1) :
    PwmInv (n + 1) s1 := by
  rcases pwm_sample_cases cfg s s1 v h with ⟨_, h1⟩ | ⟨_, hp, _, _, h1⟩ | ⟨_, hp, _, h1⟩ |
      ⟨_, hp, h1⟩
  · subst h1
    exact PwmInv.rising cfg n s v hI hn
  · subst h1
    obtain ⟨hc, _, hrows⟩ := PwmInv.pulse_end n s hI hn hp
    exact ⟨hc, fun h0 => absurd rfl h0, hrows⟩
  · have h2 := PwmInv.pulse_end n s hI hn hp
    have h3 : PwmInv (n + 1) (pwm_set_print (pwm_pulse_end (pwm_tick s))) := h2
    exact PwmInv.close cfg (n + 1) _ s1 h3 rfl h1
  · obtain ⟨hc, _, hrows⟩ := hI
    have h3 : PwmInv (n + 1) (pwm_set_print (pwm_tick s)) := by
      refine ⟨?_, fun h0 => absurd hp h0, fun i => PulseRowOk.mono _ i n (n + 1) (by omega)
        (hrows i)⟩
      show uadd s.counter 1 = n + 1
      rw [hc]
      exact uadd_eq n 1 hn
    exact PwmInv.close cfg (n + 1) _ s1 h3 hp h1

theorem PwmInv.init : PwmInv 0 pwm_init :=
  ⟨rfl, fun h => absurd rfl h, fun _ => Or.inl ⟨rfl, rfl, rfl⟩⟩

/-- The invariant holds after any chunks, as long as the counter does not wrap. -/
theorem PwmInv.chunks (cfg : PwmConfig) (chunks : List (List Int)) (s : PwmState)
    (hrun : pwm_chunks cfg pwm_init chunks = some s) (hwrap : total_samples chunks < U32) :
    ∃ m, m ≤ total_samples chunks ∧ PwmInv m s := by
  obtain ⟨m, hm, hI⟩ := pwm_chunks_induction cfg PwmInv (U32 - 1)
    (fun n t v t1 hJ hlt h => PwmInv.step cfg n t t1 v hJ (by omega) h)
    chunks 0 pwm_init s PwmInv.init (by omega) hrun
  exact ⟨m, by omega, hI⟩

/-! ### Auxiliary facts on `classify_signal` -/

/-- The table after a call of `classify_signal` that returns: unchanged after the early return,
cleared otherwise. -/
theorem classify_signal_table_some (os ol : Nat) (d d1 : PulseTable)
    (h : classify_signal_table os ol d = some d1) :
    (d 0 0 = 0 ∧ d1 = d) ∨ (d 0 0 ≠ 0 ∧ d1 = d.clear) := by
  unfold classify_signal_table at h
  by_cases h0 : d 0 0 = 0
  · left
    have hs : classify_signal os ol d = ClassifyOutcome.skipped := by
      simp only [classify_signal, if_pos h0]
    rw [hs] at h
    exact ⟨h0, (Option.some.inj h).symm⟩
  · right
    cases hc : classify_signal os ol d with
    | skipped =>
      exfalso
      unfold classify_signal at hc
      rw [if_neg h0] at hc
      split at hc
      · exact ClassifyOutcome.noConfusion hc
      · split at hc <;> exact ClassifyOutcome.noConfusion hc
    | done c =>
      rw [hc] at h
      exact ⟨h0, (Option.some.inj h).symm⟩
    | crashed =>
      rw [hc] at h
      exact Option.noConfusion h

theorem classify_signal_table_of_returns (os ol : Nat) (d : PulseTable) (h0 : d 0 0 ≠ 0)
    (h : classify_signal os ol d ≠ ClassifyOutcome.crashed) :
    classify_signal_table os ol d = some d.clear := by
  cases hc : classify_signal_table os ol d with
  | none =>
    exfalso
    unfold classify_signal_table at hc
    cases hcl : classify_signal os ol d with
    | skipped => rw [hcl] at hc; exact Option.noConfusion hc
    | done c => rw [hcl] at hc; exact Option.noConfusion hc
    | crashed => exact h hcl
  | some d1 =>
    rcases classify_signal_table_some os ol d d1 hc with ⟨h1, _⟩ | ⟨_, h2⟩
    · exact absurd h1 h0
    · rw [h2]

set_option maxRecDepth 100000 in
theorem two_level_table_returns :
    classify_signal 0 0 two_level_table ≠ ClassifyOutcome.crashed := by
  decide

set_option maxRecDepth 100000 in
theorem two_level_table_classified :
    classify_signal 0 0 two_level_table = ClassifyOutcome.done two_level_classification := by
  decide

/-- What a completed run of `classify_signal` has computed, in terms of the final state of the
2-cluster refinement. -/
theorem classify_signal_done (os ol : Nat) (d : PulseTable) (c : Classification)
    (h : classify_signal os ol d = ClassifyOutcome.done c) :
    ∃ c2, cluster2_loop d 9 (cluster2_init d) = some c2 ∧ c2.min ≠ 0 ∧
      c.min = c2.min ∧ c.max = c2.max ∧
      c.signal_type = (if c2.max / c2.min > 1 then 2 else 1) ∧
      c.p_limit = (if os ≠ 0 then os else uadd c2.max c2.min / 2) := by
  unfold classify_signal at h
  by_cases h0 : d 0 0 = 0
  · rw [if_pos h0] at h
    exact ClassifyOutcome.noConfusion h
  · rw [if_neg h0] at h
    cases hl : cluster2_loop d 9 (cluster2_init d) with
    | none =>
      rw [hl] at h
      exact ClassifyOutcome.noConfusion h
    | some c2 =>
      rw [hl] at h
      by_cases hm : c2.min = 0
      · simp only [if_pos hm] at h
        exact ClassifyOutcome.noConfusion h
      · simp only [if_neg hm] at h
        have hc := ClassifyOutcome.done.inj h
        subst hc
        exact ⟨c2, rfl, hm, rfl, rfl, rfl, rfl⟩

theorem pulse_scan_eq (d : PulseTable) : pulse_scan d = pulse_scan_upto d 1000 := rfl

theorem pulse_scan_upto_succ (d : PulseTable) (n : Nat) :
    pulse_scan_upto d (n + 1) = pulse_scan_step d (pulse_scan_upto d n) n := by
  unfold pulse_scan_upto
  rw [List.range_succ, List.foldl_append]
  rfl

theorem cluster2_sums_eq (d : PulseTable) (t : Nat) :
    cluster2_sums d t = cluster2_sums_upto d t 1000 := rfl

theorem cluster2_sums_upto_succ (d : PulseTable) (t n : Nat) :
    cluster2_sums_upto d t (n + 1) = cluster2_sums_step d t (cluster2_sums_upto d t n) n := by
  unfold cluster2_sums_upto
  rw [List.range_succ, List.foldl_append]
  rfl

/-- The first loop of `classify_signal` after `n` rows: `max` bounds the lengths seen from above
and `min` from below, `max` is zero or one of the lengths, `min` is a million or one of the
lengths, and `min` is at most a million. -/
theorem pulse_scan_upto_spec (d : PulseTable) :
    ∀ n, (∀ i, i < n → d i 0 > 0 →
          d i 2 ≤ (pulse_scan_upto d n).max ∧ (pulse_scan_upto d n).min ≤ d i 2) ∧
      ((pulse_scan_upto d n).max = 0 ∨
        ∃ i, i < n ∧ d i 0 > 0 ∧ d i 2 = (pulse_scan_upto d n).max) ∧
      ((pulse_scan_upto d n).min = 1000000 ∨
        ∃ i, i < n ∧ d i 0 > 0 ∧ d i 2 = (pulse_scan_upto d n).min) ∧
      (pulse_scan_upto d n).min ≤ 1000000 := by
  intro n
  induction n with
  | zero =>
    refine ⟨fun i hi => absurd hi (Nat.not_lt_zero i), Or.inl rfl, Or.inl rfl, ?_⟩
    exact Nat.le_refl _
  | succ n ih =>
    obtain ⟨hA, hB, hC, hD⟩ := ih
    rw [pulse_scan_upto_succ]
    generalize pulse_scan_upto d n = m at hA hB hC hD
    unfold pulse_scan_step
    by_cases hv : d n 0 > 0
    · rw [if_pos hv]
      by_cases h1 : d n 2 > m.max
      · by_cases h2 : d n 2 ≤ m.min
        · simp only [if_pos h1, if_pos h2]
          refine ⟨?_, Or.inr ⟨n, by omega, hv, rfl⟩, Or.inr ⟨n, by omega, hv, rfl⟩, by
            show d n 2 ≤ 1000000
            omega⟩
          intro i hi hvi
          show d i 2 ≤ d n 2 ∧ d n 2 ≤ d i 2
          by_cases hin : i = n
          · subst hin
            exact ⟨Nat.le_refl _, Nat.le_refl _⟩
          · have := hA i (by omega) hvi
            omega
        · simp only [if_pos h1, if_neg h2]
          refine ⟨?_, Or.inr ⟨n, by omega, hv, rfl⟩, ?_, hD⟩
          · intro i hi hvi
            show d i 2 ≤ d n 2 ∧ m.min ≤ d i 2
            by_cases hin : i = n
            · subst hin
              exact ⟨Nat.le_refl _, by omega⟩
            · have := hA i (by omega) hvi
              omega
          · rcases hC with hC | ⟨i, hi, hvi, hei⟩
            · exact Or.inl hC
            · exact Or.inr ⟨i, by omega, hvi, hei⟩
      · by_cases h2 : d n 2 ≤ m.min
        · simp only [if_neg h1, if_pos h2]
          refine ⟨?_, ?_, Or.inr ⟨n, by omega, hv, rfl⟩, by
            show d n 2 ≤ 1000000
            omega⟩
          · intro i hi hvi
            show d i 2 ≤ m.max ∧ d n 2 ≤ d i 2
            by_cases hin : i = n
            · subst hin
              exact ⟨by omega, Nat.le_refl _⟩
            · have := hA i (by omega) hvi
              omega
          · rcases hB with hB | ⟨i, hi, hvi, hei⟩
            · exact Or.inl hB
            · exact Or.inr ⟨i, by omega, hvi, hei⟩
        · simp only [if_neg h1, if_neg h2]
          refine ⟨?_, ?_, ?_, hD⟩
          · intro i hi hvi
            by_cases hin : i = n
            · subst hin
              exact ⟨by omega, by omega⟩
            · exact hA i (by omega) hvi
          · rcases hB with hB | ⟨i, hi, hvi, hei⟩
            · exact Or.inl hB
            · exact Or.inr ⟨i, by omega, hvi, hei⟩
          · rcases hC with hC | ⟨i, hi, hvi, hei⟩
            · exact Or.inl hC
            · exact Or.inr ⟨i, by omega, hvi, hei⟩
    · rw [if_neg hv]
      refine ⟨?_, ?_, ?_, hD⟩
      · intro i hi hvi
        by_cases hin : i = n
        · subst hin
          exact absurd hvi hv
        · exact hA i (by omega) hvi
      · rcases hB with hB | ⟨i, hi, hvi, hei⟩
        · exact Or.inl hB
        · exact Or.inr ⟨i, by omega, hvi, hei⟩
      · rcases hC with hC | ⟨i, hi, hvi, hei⟩
        · exact Or.inl hC
        · exact Or.inr ⟨i, by omega, hvi, hei⟩

/-- The bucket sums of a round on a table whose pulse lengths are `lo` (below `t`) or `hi` (at
or above `t`): each sum is the count times the length, and a bucket is not empty when its length
occurs. -/
theorem cluster2_sums_two_level (d : PulseTable) (lo hi t : Nat)
    (hvalid : ∀ i, i < 1000 → d i 0 > 0 → d i 2 = lo ∨ d i 2 = hi)
    (hlt : lo < t) (hge : t ≤ hi) (hbound : 1000 * hi < U32) :
    ∀ n, n ≤ 1000 →
      (cluster2_sums_upto d t n).min_new = (cluster2_sums_upto d t n).count_min * lo ∧
      (cluster2_sums_upto d t n).max_new = (cluster2_sums_upto d t n).count_max * hi ∧
      (cluster2_sums_upto d t n).count_min ≤ n ∧ (cluster2_sums_upto d t n).count_max ≤ n ∧
      ((∃ i, i < n ∧ d i 0 > 0 ∧ d i 2 = lo) → 0 < (cluster2_sums_upto d t n).count_min) ∧
      ((∃ i, i < n ∧ d i 0 > 0 ∧ d i 2 = hi) → 0 < (cluster2_sums_upto d t n).count_max) := by
  intro n
  induction n with
  | zero =>
    intro _
    refine ⟨by simp [cluster2_sums_upto], by simp [cluster2_sums_upto], Nat.le_refl _,
      Nat.le_refl _, ?_, ?_⟩
    · rintro ⟨i, hi, _⟩
      exact absurd hi (Nat.not_lt_zero i)
    · rintro ⟨i, hi, _⟩
      exact absurd hi (Nat.not_lt_zero i)
  | succ n ih =>
    intro hn
    obtain ⟨h1, h2, h3, h4, h5, h6⟩ := ih (by omega)
    rw [cluster2_sums_upto_succ]
    generalize cluster2_sums_upto d t n = a at h1 h2 h3 h4 h5 h6
    unfold cluster2_sums_step
    by_cases hv : d n 0 > 0
    · rw [if_pos hv]
      rcases hvalid n (by omega) hv with hl | hl
      · have hlt2 : d n 2 < t := by omega
        rw [if_pos hlt2, hl]
        have hmul : (a.count_min + 1) * lo ≤ 1000 * hi :=
          Nat.le_trans (Nat.mul_le_mul_right lo (by omega)) (Nat.mul_le_mul_left 1000 (by omega))
        have hexp : (a.count_min + 1) * lo = a.count_min * lo + lo := by
          rw [Nat.add_mul, Nat.one_mul]
        have hsum : uadd a.min_new lo = (a.count_min + 1) * lo := by
          rw [h1, hexp]
          exact uadd_eq _ _ (by omega)
        have hcnt : uadd a.count_min 1 = a.count_min + 1 :=
          uadd_eq _ _ (by unfold U32; omega)
        refine ⟨?_, h2, ?_, by show a.count_max ≤ n + 1; omega, ?_, ?_⟩
        · show uadd a.min_new lo = uadd a.count_min 1 * lo
          rw [hsum, hcnt]
        · show uadd a.count_min 1 ≤ n + 1
          omega
        · intro _
          show 0 < uadd a.count_min 1
          omega
        · rintro ⟨i, hi, hvi, hei⟩
          show 0 < a.count_max
          by_cases hin : i = n
          · subst hin
            omega
          · exact h6 ⟨i, by omega, hvi, hei⟩
      · have hlt2 : ¬ d n 2 < t := by omega
        rw [if_neg hlt2, hl]
        have hmul : (a.count_max + 1) * hi ≤ 1000 * hi := Nat.mul_le_mul_right hi (by omega)
        have hexp : (a.count_max + 1) * hi = a.count_max * hi + hi := by
          rw [Nat.add_mul, Nat.one_mul]
        have hsum : uadd a.max_new hi = (a.count_max + 1) * hi := by
          rw [h2, hexp]
          exact uadd_eq _ _ (by omega)
        have hcnt : uadd a.count_max 1 = a.count_max + 1 :=
          uadd_eq _ _ (by unfold U32; omega)
        refine ⟨h1, ?_, by show a.count_min ≤ n + 1; omega, ?_, ?_, ?_⟩
        · show uadd a.max_new hi = uadd a.count_max 1 * hi
          rw [hsum, hcnt]
        · show uadd a.count_max 1 ≤ n + 1
          omega
        · rintro ⟨i, hi, hvi, hei⟩
          show 0 < a.count_min
          by_cases hin : i = n
          · subst hin
            omega
          · exact h5 ⟨i, by omega, hvi, hei⟩
        · intro _
          show 0 < uadd a.count_max 1
          omega
    · rw [if_neg hv]
      refine ⟨h1, h2, by omega, by omega, ?_, ?_⟩
      · rintro ⟨i, hi, hvi, hei⟩
        by_cases hin : i = n
        · subst hin
          exact absurd hvi hv
        · exact h5 ⟨i, by omega, hvi, hei⟩
      · rintro ⟨i, hi, hvi, hei⟩
        by_cases hin : i = n
        · subst hin
          exact absurd hvi hv
        · exact h6 ⟨i, by omega, hvi, hei⟩

/-- The first loop of `classify_signal` on a table whose pulse lengths are `lo` or `hi`. -/
theorem pulse_scan_two_level (d : PulseTable) (lo hi : Nat)
    (hvalid : ∀ i, i < 1000 → d i 0 > 0 → d i 2 = lo ∨ d i 2 = hi)
    (hlo : ∃ i, i < 1000 ∧ d i 0 > 0 ∧ d i 2 = lo)
    (hhi : ∃ i, i < 1000 ∧ d i 0 > 0 ∧ d i 2 = hi)
    (hsep : lo < hi) (hmil : lo ≤ 1000000) :
    (pulse_scan d).max = hi ∧ (pulse_scan d).min = lo := by
  rw [pulse_scan_eq]
  obtain ⟨hA, hB, hC, hD⟩ := pulse_scan_upto_spec d 1000
  obtain ⟨il, hil, hvl, hel⟩ := hlo
  obtain ⟨ih, hih, hvh, heh⟩ := hhi
  have h1 := hA il hil hvl
  have h2 := hA ih hih hvh
  constructor
  · rcases hB with hB | ⟨i, hi1, hvi, hei⟩
    · omega
    · rcases hvalid i hi1 hvi with h | h <;> omega
  · rcases hC with hC | ⟨i, hi1, hvi, hei⟩
    · omega
    · rcases hvalid i hi1 hvi with h | h <;> omega

theorem usub_self (x : Nat) : usub x x = 0 := by
  unfold usub
  have h : x + U32 - x % U32 = (x - x % U32) + U32 := by
    have := Nat.mod_le x U32
    omega
  have hdvd : (x - x % U32) % U32 = 0 := by
    have h1 : x - x % U32 = U32 * (x / U32) := by
      have := Nat.div_add_mod x U32
      omega
    rw [h1]
    exact Nat.mul_mod_right _ _
  rw [h, Nat.add_mod_right, hdvd]

/-- The state before the first round on a two-level table. -/
theorem cluster2_init_two_level (d : PulseTable) (lo hi : Nat)
    (hvalid : ∀ i, i < 1000 → d i 0 > 0 → d i 2 = lo ∨ d i 2 = hi)
    (hlo : ∃ i, i < 1000 ∧ d i 0 > 0 ∧ d i 2 = lo)
    (hhi : ∃ i, i < 1000 ∧ d i 0 > 0 ∧ d i 2 = hi)
    (hsep : lo + 2 ≤ hi) (hmil : lo ≤ 1000000) (hbound : 1000 * hi < U32) :
    cluster2_init d = { min := lo, max := hi, t := (hi + lo) / 2,
                        delta := ((hi - lo) * (hi - lo)) % U32, k := 1 } := by
  obtain ⟨hmax, hmin⟩ := pulse_scan_two_level d lo hi hvalid hlo hhi (by omega) hmil
  unfold cluster2_init
  simp only [hmax, hmin]
  have h1 : uadd hi lo = hi + lo := uadd_eq _ _ (by omega)
  have h2 : usub hi lo = hi - lo := usub_eq _ _ (by omega) (by omega)
  rw [h1, h2]
  rfl

/-- One round on a two-level table gives the centers `lo` and `hi` and `delta = 0`. -/
theorem cluster2_round_two_level (d : PulseTable) (lo hi : Nat)
    (hvalid : ∀ i, i < 1000 → d i 0 > 0 → d i 2 = lo ∨ d i 2 = hi)
    (hlo : ∃ i, i < 1000 ∧ d i 0 > 0 ∧ d i 2 = lo)
    (hhi : ∃ i, i < 1000 ∧ d i 0 > 0 ∧ d i 2 = hi)
    (hsep : lo + 2 ≤ hi) (hbound : 1000 * hi < U32) (s : Cluster2)
    (hmin : s.min = lo) (hmax : s.max = hi) (ht : s.t = (hi + lo) / 2) :
    cluster2_round d s =
      some { min := lo, max := hi, t := (lo + hi) / 2, delta := 0, k := s.k + 1 } := by
  obtain ⟨h1, h2, _, _, h5, h6⟩ := cluster2_sums_two_level d lo hi ((hi + lo) / 2) hvalid
    (by omega) (by omega) hbound 1000 (Nat.le_refl _)
  have hpmin := h5 hlo
  have hpmax := h6 hhi
  unfold cluster2_round
  rw [ht, cluster2_sums_eq]
  generalize cluster2_sums_upto d ((hi + lo) / 2) 1000 = a at h1 h2 hpmin hpmax
  have hne : ¬ (a.count_min = 0 ∨ a.count_max = 0) := by omega
  simp only [if_neg hne]
  have hd1 : a.min_new / a.count_min = lo := by
    rw [h1]
    exact Nat.mul_div_cancel_left lo hpmin
  have hd2 : a.max_new / a.count_max = hi := by
    rw [h2]
    exact Nat.mul_div_cancel_left hi hpmax
  rw [hd1, hd2, hmin, hmax, usub_self, usub_self]
  have h3 : uadd lo hi = lo + hi := uadd_eq _ _ (by omega)
  rw [h3]
  rfl

/-- The 2-cluster refinement of a two-level table stops after one round. -/
theorem cluster2_loop_two_level (d : PulseTable) (lo hi : Nat)
    (hvalid : ∀ i, i < 1000 → d i 0 > 0 → d i 2 = lo ∨ d i 2 = hi)
    (hlo : ∃ i, i < 1000 ∧ d i 0 > 0 ∧ d i 2 = lo)
    (hhi : ∃ i, i < 1000 ∧ d i 0 > 0 ∧ d i 2 = hi)
    (hsep : lo + 2 ≤ hi) (hmil : lo ≤ 1000000) (hbound : 1000 * hi < U32)
    (hdelta : ((hi - lo) * (hi - lo)) % U32 ≠ 0) :
    cluster2_loop d 9 (cluster2_init d) =
      some { min := lo, max := hi, t := (lo + hi) / 2, delta := 0, k := 2 } := by
  have hinit := cluster2_init_two_level d lo hi hvalid hlo hhi hsep hmil hbound
  have hround := cluster2_round_two_level d lo hi hvalid hlo hhi hsep hbound (cluster2_init d)
    (by rw [hinit]) (by rw [hinit]) (by rw [hinit])
  have hk : (cluster2_init d).k = 1 := by rw [hinit]
  have hd : (cluster2_init d).delta > 0 := by
    rw [hinit]
    exact Nat.pos_of_ne_zero hdelta
  rw [hk] at hround
  show (if (cluster2_init d).k < 10 ∧ (cluster2_init d).delta > 0 then
      (cluster2_round d (cluster2_init d)).bind (cluster2_loop d 8) else some (cluster2_init d)) = _
  rw [if_pos ⟨by omega, hd⟩, hround, Option.some_bind]
  show (if (2 : Nat) < 10 ∧ (0 : Nat) > 0 then _ else _) = _
  rw [if_neg (by omega)]

theorem two_level_table_lengths :
    ∀ i, i < 1000 → two_level_table i 0 > 0 →
      two_level_table i 2 = 200 ∨ two_level_table i 2 = 800 := by
  intro i _ hv
  unfold two_level_table at hv ⊢
  by_cases h20 : i < 20
  · by_cases h10 : i < 10
    · simp [h20, h10]
    · simp [h20, h10]
  · simp [h20] at hv

theorem gap_scan_eq (d : PulseTable) : gap_scan d = gap_scan_upto d 999 := rfl

theorem gap_scan_upto_succ (d : PulseTable) (n : Nat) :
    gap_scan_upto d (n + 1) = gap_scan_step d (gap_scan_upto d n) (n + 1) := by
  unfold gap_scan_upto
  rw [List.range'_concat, List.foldl_append]
  have h : 1 + 1 * n = n + 1 := by omega
  rw [h]
  rfl

theorem gap_scan_step_eq (d : PulseTable) (m : GapRange) (i : Nat) :
    gap_scan_step d m i =
      if d i 0 > 0 then
        if gap_at d i > m.a2 then
          if gap_at d i ≤ m.a0 then { a0 := gap_at d i, a2 := gap_at d i }
          else { a0 := m.a0, a2 := gap_at d i }
        else
          if gap_at d i ≤ m.a0 then { a0 := gap_at d i, a2 := m.a2 } else m
      else m := by
  unfold gap_scan_step gap_at
  by_cases hv : d i 0 > 0
  · by_cases h1 : usub (d i 0) (d (i - 1) 1) > m.a2
    · by_cases h2 : usub (d i 0) (d (i - 1) 1) ≤ m.a0 <;> simp [hv, h1, h2]
    · by_cases h2 : usub (d i 0) (d (i - 1) 1) ≤ m.a0 <;> simp [hv, h1, h2]
  · simp [hv]

theorem cluster3_sums_eq (dist : Nat → Nat) (b0 b1 : Nat) :
    cluster3_sums dist b0 b1 = cluster3_sums_upto dist b0 b1 1000 := rfl

theorem cluster3_sums_upto_succ (dist : Nat → Nat) (b0 b1 n : Nat) :
    cluster3_sums_upto dist b0 b1 (n + 1) =
      cluster3_sums_step dist b0 b1 (cluster3_sums_upto dist b0 b1 n) n := by
  unfold cluster3_sums_upto
  rw [List.range_succ, List.foldl_append]
  rfl

theorem uadd_le (a b : Nat) : uadd a b ≤ a + b := Nat.mod_le _ _

/-- The gap scan after the rows `1..n`: `a0` bounds the gaps seen from below and `a2` from
above, `a2` is zero or one of the gaps, and `a0` is a million or one of the gaps. -/
theorem gap_scan_upto_spec (d : PulseTable) :
    ∀ n, (∀ i, 1 ≤ i → i ≤ n → d i 0 > 0 →
          (gap_scan_upto d n).a0 ≤ gap_at d i ∧ gap_at d i ≤ (gap_scan_upto d n).a2) ∧
      ((gap_scan_upto d n).a2 = 0 ∨
        ∃ i, 1 ≤ i ∧ i ≤ n ∧ d i 0 > 0 ∧ gap_at d i = (gap_scan_upto d n).a2) ∧
      ((gap_scan_upto d n).a0 = 1000000 ∨
        ∃ i, 1 ≤ i ∧ i ≤ n ∧ d i 0 > 0 ∧ gap_at d i = (gap_scan_upto d n).a0) := by
  intro n
  induction n with
  | zero =>
    exact ⟨fun i h1 h0 => absurd h1 (by omega), Or.inl rfl, Or.inl rfl⟩
  | succ n ih =>
    obtain ⟨hA, hB, hC⟩ := ih
    rw [gap_scan_upto_succ, gap_scan_step_eq]
    generalize gap_scan_upto d n = m at hA hB hC
    have hB2 : m.a2 = 0 ∨ ∃ i, 1 ≤ i ∧ i ≤ n + 1 ∧ d i 0 > 0 ∧ gap_at d i = m.a2 := by
      rcases hB with hB | ⟨i, h1, hi, hvi, hei⟩
      · exact Or.inl hB
      · exact Or.inr ⟨i, h1, by omega, hvi, hei⟩
    have hC2 : m.a0 = 1000000 ∨ ∃ i, 1 ≤ i ∧ i ≤ n + 1 ∧ d i 0 > 0 ∧ gap_at d i = m.a0 := by
      rcases hC with hC | ⟨i, h1, hi, hvi, hei⟩
      · exact Or.inl hC
      · exact Or.inr ⟨i, h1, by omega, hvi, hei⟩
    by_cases hv : d (n + 1) 0 > 0
    · rw [if_pos hv]
      have hnew : ∃ i, 1 ≤ i ∧ i ≤ n + 1 ∧ d i 0 > 0 ∧ gap_at d i = gap_at d (n + 1) :=
        ⟨n + 1, by omega, Nat.le_refl _, hv, rfl⟩
      have hA2 : ∀ (lo hi : Nat), lo ≤ m.a0 → lo ≤ gap_at d (n + 1) → m.a2 ≤ hi →
          gap_at d (n + 1) ≤ hi →
          ∀ i, 1 ≤ i → i ≤ n + 1 → d i 0 > 0 → lo ≤ gap_at d i ∧ gap_at d i ≤ hi := by
        intro lo hi h1 h2 h3 h4 i hi1 hin hvi
        by_cases hlast : i = n + 1
        · subst hlast
          exact ⟨h2, h4⟩
        · have := hA i hi1 (by omega) hvi
          omega
      by_cases h1 : gap_at d (n + 1) > m.a2
      · by_cases h2 : gap_at d (n + 1) ≤ m.a0
        · rw [if_pos h1, if_pos h2]
          exact ⟨hA2 (gap_at d (n + 1)) (gap_at d (n + 1)) h2 (Nat.le_refl _)
            (Nat.le_of_lt h1) (Nat.le_refl _), Or.inr hnew, Or.inr hnew⟩
        · rw [if_pos h1, if_neg h2]
          exact ⟨hA2 m.a0 (gap_at d (n + 1)) (Nat.le_refl _) (Nat.le_of_lt (Nat.not_le.mp h2))
            (Nat.le_of_lt h1) (Nat.le_refl _), Or.inr hnew, hC2⟩
      · by_cases h2 : gap_at d (n + 1) ≤ m.a0
        · rw [if_neg h1, if_pos h2]
          exact ⟨hA2 (gap_at d (n + 1)) m.a2 h2 (Nat.le_refl _) (Nat.le_refl _)
            (Nat.not_lt.mp h1), hB2, Or.inr hnew⟩
        · rw [if_neg h1, if_neg h2]
          exact ⟨hA2 m.a0 m.a2 (Nat.le_refl _) (Nat.le_of_lt (Nat.not_le.mp h2))
            (Nat.le_refl _) (Nat.not_lt.mp h1), hB2, hC2⟩
    · rw [if_neg hv]
      refine ⟨?_, hB2, hC2⟩
      intro i h1 hi hvi
      by_cases hin : i = n + 1
      · subst hin
        exact absurd hvi hv
      · exact hA i h1 (by omega) hvi

/-- Every positive entry of `signal_distance_data` is one of the gaps that the scan has seen. -/
theorem signal_distance_data_pos (d : PulseTable) (j : Nat)
    (h : signal_distance_data d j > 0) :
    j + 1 < 1000 ∧ d (j + 1) 0 > 0 ∧ signal_distance_data d j = gap_at d (j + 1) := by
  unfold signal_distance_data at h ⊢
  by_cases hc : j + 1 < 1000 ∧ d (j + 1) 0 > 0
  · rw [if_pos hc]
    exact ⟨hc.1, hc.2, rfl⟩
  · rw [if_neg hc] at h
    exact absurd h (Nat.lt_irrefl 0)

/-- The gaps that the 3-cluster refinement reads lie between the `a[0]` and `a[2]` of the
scan. -/
theorem signal_distance_data_bounds (d : PulseTable) (j : Nat)
    (h : signal_distance_data d j > 0) :
    (gap_scan d).a0 ≤ signal_distance_data d j ∧ signal_distance_data d j ≤ (gap_scan d).a2 := by
  obtain ⟨h1, h2, h3⟩ := signal_distance_data_pos d j h
  rw [h3, gap_scan_eq]
  exact (gap_scan_upto_spec d 999).1 (j + 1) (by omega) (by omega) h2

/-- Upper bounds on the bucket sums of a round of the 3-cluster refinement: no count exceeds
the number of entries read and every sum is at most its count times the largest gap, whether or
not a sum has wrapped. -/
theorem cluster3_sums_upper (dist : Nat → Nat) (b0 b1 M : Nat)
    (hM : ∀ i, i < 1000 → dist i > 0 → dist i ≤ M) :
    ∀ n, n ≤ 1000 →
      (cluster3_sums_upto dist b0 b1 n).cnt0 ≤ n ∧
      (cluster3_sums_upto dist b0 b1 n).cnt1 ≤ n ∧
      (cluster3_sums_upto dist b0 b1 n).cnt2 ≤ n ∧
      (cluster3_sums_upto dist b0 b1 n).new0 ≤ (cluster3_sums_upto dist b0 b1 n).cnt0 * M ∧
      (cluster3_sums_upto dist b0 b1 n).new1 ≤ (cluster3_sums_upto dist b0 b1 n).cnt1 * M ∧
      (cluster3_sums_upto dist b0 b1 n).new2 ≤ (cluster3_sums_upto dist b0 b1 n).cnt2 * M := by
  intro n
  induction n with
  | zero =>
    intro _
    simp [cluster3_sums_upto]
  | succ n ih =>
    intro hn
    have ih2 := ih (by omega)
    rw [cluster3_sums_upto_succ]
    generalize cluster3_sums_upto dist b0 b1 n = a at ih2
    obtain ⟨new0, cnt0, new1, cnt1, new2, cnt2⟩ := a
    simp only at ih2
    obtain ⟨h0, h1, h2, h3, h4, h5⟩ := ih2
    have hc0 : uadd cnt0 1 = cnt0 + 1 := uadd_eq _ _ (by unfold U32; omega)
    have hc1 : uadd cnt1 1 = cnt1 + 1 := uadd_eq _ _ (by unfold U32; omega)
    have hc2 : uadd cnt2 1 = cnt2 + 1 := uadd_eq _ _ (by unfold U32; omega)
    have he0 : (cnt0 + 1) * M = cnt0 * M + M := by rw [Nat.add_mul, Nat.one_mul]
    have he1 : (cnt1 + 1) * M = cnt1 * M + M := by rw [Nat.add_mul, Nat.one_mul]
    have he2 : (cnt2 + 1) * M = cnt2 * M + M := by rw [Nat.add_mul, Nat.one_mul]
    unfold cluster3_sums_step
    by_cases hv : dist n > 0
    · have hx := hM n (by omega) hv
      have hu0 := uadd_le new0 (dist n)
      have hu1 := uadd_le new1 (dist n)
      have hu2 := uadd_le new2 (dist n)
      rw [if_pos hv]
      by_cases hb0 : dist n < b0
      · rw [if_pos hb0]
        simp only [hc0, he0]
        omega
      · rw [if_neg hb0]
        by_cases hb1 : dist n < b1 ∧ dist n ≥ b0
        · rw [if_pos hb1]
          simp only [hc1, he1]
          omega
        · rw [if_neg hb1]
          by_cases hb2 : dist n ≥ b1
          · rw [if_pos hb2]
            simp only [hc2, he2]
            omega
          · rw [if_neg hb2]
            simp only
            omega
    · rw [if_neg hv]
      simp only
      omega

/-- Exact bounds on the bucket sums when they cannot overflow (`1000 * M < 2^32`): bucket 0
holds gaps below `b0`, bucket 1 gaps from `b0` up to `b1`, bucket 2 gaps from `b1` on, and every
gap is at least `lo`. -/
theorem cluster3_sums_exact (dist : Nat → Nat) (b0 b1 lo M : Nat)
    (hM : ∀ i, i < 1000 → dist i > 0 → dist i ≤ M)
    (hlo : ∀ i, i < 1000 → dist i > 0 → lo ≤ dist i) (hbound : 1000 * M < U32) :
    ∀ n, n ≤ 1000 →
      (cluster3_sums_upto dist b0 b1 n).new0 + (cluster3_sums_upto dist b0 b1 n).cnt0 ≤
        (cluster3_sums_upto dist b0 b1 n).cnt0 * b0 ∧
      (cluster3_sums_upto dist b0 b1 n).cnt1 * b0 ≤ (cluster3_sums_upto dist b0 b1 n).new1 ∧
      (cluster3_sums_upto dist b0 b1 n).new1 + (cluster3_sums_upto dist b0 b1 n).cnt1 ≤
        (cluster3_sums_upto dist b0 b1 n).cnt1 * b1 ∧
      (cluster3_sums_upto dist b0 b1 n).cnt2 * b1 ≤ (cluster3_sums_upto dist b0 b1 n).new2 ∧
      (cluster3_sums_upto dist b0 b1 n).cnt1 * lo ≤ (cluster3_sums_upto dist b0 b1 n).new1 := by
  intro n
  induction n with
  | zero =>
    intro _
    simp [cluster3_sums_upto]
  | succ n ih =>
    intro hn
    have ih2 := ih (by omega)
    have hup := cluster3_sums_upper dist b0 b1 M hM n (by omega)
    rw [cluster3_sums_upto_succ]
    generalize cluster3_sums_upto dist b0 b1 n = a at ih2 hup
    obtain ⟨new0, cnt0, new1, cnt1, new2, cnt2⟩ := a
    simp only at ih2 hup
    obtain ⟨h0, h1, h2, h3, h4⟩ := ih2
    obtain ⟨u0, u1, u2, u3, u4, u5⟩ := hup
    have hc0 : uadd cnt0 1 = cnt0 + 1 := uadd_eq _ _ (by unfold U32; omega)
    have hc1 : uadd cnt1 1 = cnt1 + 1 := uadd_eq _ _ (by unfold U32; omega)
    have hc2 : uadd cnt2 1 = cnt2 + 1 := uadd_eq _ _ (by unfold U32; omega)
    have hm0 : cnt0 * M ≤ 999 * M := Nat.mul_le_mul_right M (by omega)
    have hm1 : cnt1 * M ≤ 999 * M := Nat.mul_le_mul_right M (by omega)
    have hm2 : cnt2 * M ≤ 999 * M := Nat.mul_le_mul_right M (by omega)
    have e00 : (cnt0 + 1) * b0 = cnt0 * b0 + b0 := by rw [Nat.add_mul, Nat.one_mul]
    have e10 : (cnt1 + 1) * b0 = cnt1 * b0 + b0 := by rw [Nat.add_mul, Nat.one_mul]
    have e11 : (cnt1 + 1) * b1 = cnt1 * b1 + b1 := by rw [Nat.add_mul, Nat.one_mul]
    have e21 : (cnt2 + 1) * b1 = cnt2 * b1 + b1 := by rw [Nat.add_mul, Nat.one_mul]
    have e1l : (cnt1 + 1) * lo = cnt1 * lo + lo := by rw [Nat.add_mul, Nat.one_mul]
    unfold cluster3_sums_step
    by_cases hv : dist n > 0
    · have hx := hM n (by omega) hv
      have hy := hlo n (by omega) hv
      have s0 : uadd new0 (dist n) = new0 + dist n := uadd_eq _ _ (by omega)
      have s1 : uadd new1 (dist n) = new1 + dist n := uadd_eq _ _ (by omega)
      have s2 : uadd new2 (dist n) = new2 + dist n := uadd_eq _ _ (by omega)
      rw [if_pos hv]
      by_cases hb0 : dist n < b0
      · rw [if_pos hb0]
        simp only [hc0, s0, e00]
        omega
      · rw [if_neg hb0]
        by_cases hb1 : dist n < b1 ∧ dist n ≥ b0
        · rw [if_pos hb1]
          simp only [hc1, s1, e10, e11, e1l]
          omega
        · rw [if_neg hb1]
          by_cases hb2 : dist n ≥ b1
          · rw [if_pos hb2]
            simp only [hc2, s2, e21]
            omega
          · rw [if_neg hb2]
            simp only
            omega
    · rw [if_neg hv]
      simp only
      omega

/-- The mean of bucket 2 after a round is at most any upper bound `M` of the gaps. -/
theorem cluster3_round_a2_le (dist : Nat → Nat) (lo M : Nat)
    (hM : ∀ i, i < 1000 → dist i > 0 → dist i ≤ M) (s : Cluster3) :
    (cluster3_round dist lo M s).a2 ≤ M := by
  have hup := cluster3_sums_upper dist s.b0 s.b1 M hM 1000 (Nat.le_refl _)
  unfold cluster3_round
  simp only []
  rw [cluster3_sums_eq]
  generalize cluster3_sums_upto dist s.b0 s.b1 1000 = a at hup
  obtain ⟨_, _, _, _, _, h5⟩ := hup
  by_cases hc : a.cnt2 = 0
  · rw [if_neg (by simpa using hc)]
    rw [hc, Nat.zero_mul] at h5
    omega
  · rw [if_pos hc]
    exact Nat.div_le_of_le_mul h5

/-- The center `a[0]` after a round is the bucket mean raised to `lo`, given that the gaps are
bounded by `M`: the second clamping statement never fires. -/
theorem cluster3_round_a0_ge (dist : Nat → Nat) (lo M : Nat)
    (hM : ∀ i, i < 1000 → dist i > 0 → dist i ≤ M) (s : Cluster3) :
    lo ≤ (cluster3_round dist lo M s).a0 := by
  have h2 := cluster3_round_a2_le dist lo M hM s
  unfold cluster3_round at h2 ⊢
  simp only [] at h2 ⊢
  rw [cluster3_sums_eq] at h2 ⊢
  generalize cluster3_sums_upto dist s.b0 s.b1 1000 = a at h2 ⊢
  rw [if_neg (Nat.not_lt.mpr h2)]
  have hcl : ∀ x : Nat, lo ≤ (if x < lo then lo else x) := by
    intro x
    split <;> omega
  exact hcl _

/-- Every state the 3-cluster loop reaches from a clamped state is clamped. -/
theorem cluster3_loop_clamped (dist : Nat → Nat) (lo M : Nat)
    (hM : ∀ i, i < 1000 → dist i > 0 → dist i ≤ M) :
    ∀ fuel s, lo ≤ s.a0 → s.a2 ≤ M →
      lo ≤ (cluster3_loop dist lo M fuel s).a0 ∧ (cluster3_loop dist lo M fuel s).a2 ≤ M := by
  intro fuel
  induction fuel with
  | zero => intro s h0 h2; exact ⟨h0, h2⟩
  | succ fuel ih =>
    intro s h0 h2
    unfold cluster3_loop
    by_cases hc : s.k < 10 ∧ s.delta > 0
    · rw [if_pos hc]
      exact ih _ (cluster3_round_a0_ge dist lo M hM s) (cluster3_round_a2_le dist lo M hM s)
    · rw [if_neg hc]
      exact ⟨h0, h2⟩

theorem cluster3_init_a0 (d : PulseTable) : (cluster3_init d).a0 = (gap_scan d).a0 := by
  unfold cluster3_init
  simp only []

theorem cluster3_init_a2 (d : PulseTable) : (cluster3_init d).a2 = (gap_scan d).a2 := by
  unfold cluster3_init
  simp only []

/-- Every gap of the table is at most the largest gap found by the scan. -/
theorem signal_distance_data_le_max (d : PulseTable) :
    ∀ i, i < 1000 → signal_distance_data d i > 0 → signal_distance_data d i ≤ (gap_scan d).a2 :=
  fun i _ h => (signal_distance_data_bounds d i h).2

/-- Every gap of the table is at least the smallest gap found by the scan. -/
theorem signal_distance_data_ge_min (d : PulseTable) :
    ∀ i, i < 1000 → signal_distance_data d i > 0 → (gap_scan d).a0 ≤ signal_distance_data d i :=
  fun i _ h => (signal_distance_data_bounds d i h).1

/-- One round of the 3-cluster refinement with non-empty middle and upper buckets and bucket sums
that fit 32 bits (`1000 * M < 2^32`, all gaps between `lo` and `M`) leaves ordered centers. -/
theorem cluster3_round_ordered (dist : Nat → Nat) (lo M : Nat)
    (hM : ∀ i, i < 1000 → dist i > 0 → dist i ≤ M)
    (hlo : ∀ i, i < 1000 → dist i > 0 → lo ≤ dist i) (hbound : 1000 * M < U32)
    (s : Cluster3) (h1 : (cluster3_sums_upto dist s.b0 s.b1 1000).cnt1 ≠ 0)
    (h2 : (cluster3_sums_upto dist s.b0 s.b1 1000).cnt2 ≠ 0) :
    (cluster3_round dist lo M s).a0 ≤ (cluster3_round dist lo M s).a1 ∧
    (cluster3_round dist lo M s).a1 ≤ (cluster3_round dist lo M s).a2 := by
  have hup := cluster3_sums_upper dist s.b0 s.b1 M hM 1000 (Nat.le_refl _)
  have hex := cluster3_sums_exact dist s.b0 s.b1 lo M hM hlo hbound 1000 (Nat.le_refl _)
  unfold cluster3_round
  simp only []
  rw [cluster3_sums_eq]
  generalize cluster3_sums_upto dist s.b0 s.b1 1000 = a at hup hex h1 h2
  obtain ⟨_, _, _, _, _, u5⟩ := hup
  obtain ⟨e0, e1, e2, e3, e4⟩ := hex
  have p1 : 0 < a.cnt1 := Nat.pos_of_ne_zero h1
  have p2 : 0 < a.cnt2 := Nat.pos_of_ne_zero h2
  rw [if_pos h1, if_pos h2]
  have hn2 : a.new2 / a.cnt2 ≤ M := Nat.div_le_of_le_mul u5
  rw [if_neg (Nat.not_lt.mpr hn2)]
  have hb0 : s.b0 ≤ a.new1 / a.cnt1 := (Nat.le_div_iff_mul_le p1).mpr (by rw [Nat.mul_comm]; exact e1)
  have hl1 : lo ≤ a.new1 / a.cnt1 := (Nat.le_div_iff_mul_le p1).mpr (by rw [Nat.mul_comm]; exact e4)
  have hb1 : a.new1 / a.cnt1 < s.b1 := (Nat.div_lt_iff_lt_mul p1).mpr (by rw [Nat.mul_comm]; omega)
  have hb2 : s.b1 ≤ a.new2 / a.cnt2 := (Nat.le_div_iff_mul_le p2).mpr (by rw [Nat.mul_comm]; exact e3)
  have hn0 : (if a.cnt0 ≠ 0 then a.new0 / a.cnt0 else a.new0) ≤ s.b0 := by
    by_cases hc : a.cnt0 = 0
    · rw [if_neg (by simpa using hc)]
      rw [hc, Nat.zero_mul] at e0
      omega
    · rw [if_pos hc]
      exact Nat.le_of_lt ((Nat.div_lt_iff_lt_mul (Nat.pos_of_ne_zero hc)).mpr
        (by rw [Nat.mul_comm]; have := Nat.pos_of_ne_zero hc; omega))
  refine ⟨?_, by omega⟩
  generalize (if a.cnt0 ≠ 0 then a.new0 / a.cnt0 else a.new0) = n0 at hn0
  split <;> omega

set_option maxRecDepth 100000 in
/-- The first round of the gap refinement on `even_gap_table`: both gaps fall into bucket 2. -/
theorem even_gap_table_round :
    gap_scan even_gap_table = { a0 := 90, a2 := 90 } ∧
    cluster3_round (signal_distance_data even_gap_table) (gap_scan even_gap_table).a0
        (gap_scan even_gap_table).a2 (cluster3_init even_gap_table) =
      { a0 := 90, a1 := 0, a2 := 90, b0 := 45, b1 := 45, delta := 16200, k := 2 } := by
  decide

set_option maxRecDepth 100000 in
/-- The gap refinement on `even_gap_table` never settles: it stops at the round limit. -/
theorem even_gap_table_loop :
    cluster3_loop (signal_distance_data even_gap_table) (gap_scan even_gap_table).a0
        (gap_scan even_gap_table).a2 9 (cluster3_init even_gap_table) =
      { a0 := 90, a1 := 0, a2 := 90, b0 := 45, b1 := 45, delta := 8100, k := 10 } := by
  decide

set_option maxRecDepth 100000 in
/-- The first round of the gap refinement on `three_gap_table` fills all three buckets. -/
theorem three_gap_table_buckets :
    1000 * (gap_scan three_gap_table).a2 < U32 ∧
    (cluster3_sums (signal_distance_data three_gap_table) (cluster3_init three_gap_table).b0
      (cluster3_init three_gap_table).b1).cnt1 ≠ 0 ∧
    (cluster3_sums (signal_distance_data three_gap_table) (cluster3_init three_gap_table).b0
      (cluster3_init three_gap_table).b1).cnt2 ≠ 0 := by
  decide

set_option maxRecDepth 100000 in
/-- The first round of the gap refinement on `three_gap_table`. -/
theorem three_gap_table_round :
    cluster3_round (signal_distance_data three_gap_table) (gap_scan three_gap_table).a0
        (gap_scan three_gap_table).a2 (cluster3_init three_gap_table) =
      { a0 := 10, a1 := 50, a2 := 100, b0 := 30, b1 := 75, delta := 25, k := 2 } := by
  decide

/-! ### Facts on the Signal Grabber split -/

theorem int32_eq (x : Int) (h1 : -2147483648 ≤ x) (h2 : x < 2147483648) : int32 x = x := by
  unfold int32
  omega

/-- Reading `sz` bytes of a ring buffer from `sp`: the part up to the physical end followed by
the part from index 0 is the circular range. -/
theorem ring_read (buf : List Nat) (sp sz : Nat) (hsp : sp < buf.length)
    (hsz : sz ≤ buf.length) :
    (buf.drop sp).take (min sz (buf.length - sp)) ++ buf.take (sz - (buf.length - sp)) =
      (List.range sz).map (fun k => buf.getD ((sp + k) % buf.length) 0) := by
  apply List.ext_getElem
  · simp only [List.length_append, List.length_take, List.length_drop, List.length_map,
      List.length_range]
    omega
  · intro i h1 h2
    simp only [List.length_map, List.length_range] at h2
    simp only [List.getElem_map, List.getElem_range]
    by_cases hi : i < buf.length - sp
    · rw [List.getElem_append_left (by
        simp only [List.length_take, List.length_drop]; omega)]
      rw [List.getElem_take, List.getElem_drop]
      rw [Nat.mod_eq_of_lt (by omega)]
      rw [List.getD_eq_getElem _ _ (by omega)]
    · have hlen : ((buf.drop sp).take (min sz (buf.length - sp))).length = buf.length - sp := by
        simp only [List.length_take, List.length_drop]; omega
      rw [List.getElem_append_right (by omega)]
      rw [List.getElem_take]
      have hm : (sp + i) % buf.length = i - (buf.length - sp) := by
        have : sp + i = (i - (buf.length - sp)) + buf.length := by omega
        rw [this, Nat.add_mod_right, Nat.mod_eq_of_lt (by omega)]
      rw [hm, List.getD_eq_getElem _ _ (by omega)]
      simp only [hlen]

/-- The split on in-range arguments, in natural numbers. -/
theorem grabber_split_nat (n sp sz : Nat) (hn : n ≤ 1073741824) (hsp : sp < n) (hsz : sz ≤ n) :
    grabber_split n sp sz =
      if sp + sz > n then
        { start_pos := sp, wlen := ((n - sp : Nat) : Int), wrest := ((sz - (n - sp) : Nat) : Int) }
      else { start_pos := sp, wlen := sz, wrest := 0 } := by
  unfold grabber_split
  have h0 : ¬ ((sp : Int) < 0) := by omega
  simp only [if_neg h0]
  rw [int32_eq _ (by omega) (by omega)]
  by_cases h : sp + sz > n
  · have h2 : (sp : Int) + sz > n := by omega
    rw [if_pos h, if_pos h2]
    rw [int32_eq ((n : Int) - sp) (by omega) (by omega)]
    rw [int32_eq _ (by omega) (by omega)]
    congr 1 <;> omega
  · have h2 : ¬ ((sp : Int) + sz > n) := by omega
    rw [if_neg h, if_neg h2]

/-! ### Facts on a train of pulses -/

theorem pwm_analyze_append (cfg : PwmConfig) (a b : List Int) : ∀ s : PwmState,
    pwm_analyze cfg s (a ++ b) =
      match pwm_analyze cfg s a with
      | PwmOutcome.ok s1 => pwm_analyze cfg s1 b
      | PwmOutcome.err s1 => PwmOutcome.err s1
      | PwmOutcome.crashed => PwmOutcome.crashed := by
  induction a with
  | nil => intro s; rfl
  | cons v a ih =>
    intro s
    rw [List.cons_append, pwm_analyze_cons, pwm_analyze_cons]
    cases pwm_sample cfg s v with
    | ok s1 => exact ih s1
    | err s1 => rfl
    | crashed => rfl

/-- A sample above the limit while `print` is set: a pulse is opened in the slot at the
cursor. -/
theorem pwm_high_sample (s : PwmState) (c k : Nat) (h1 : s.counter = c) (hc : c + 1 < U32)
    (h2 : s.print = 1) (h4 : s.signal_pulse_counter = k) :
    ∃ s1, pwm_sample pwm_config_100 s 101 = PwmOutcome.ok s1 ∧
      s1.counter = c + 1 ∧ s1.print = 0 ∧ s1.print2 = 1 ∧ s1.signal_pulse_counter = k ∧
      s1.signal_start = (if s.signal_start = 0 then c else s.signal_start) ∧
      s1.pulse_start = c ∧ s1.signal_pulse_data k 0 = c ∧
      ∀ i, i ≠ k → ∀ j, s1.signal_pulse_data i j = s.signal_pulse_data i j := by
  refine ⟨_, pwm_sample_high _ _ _ (by decide), ?_⟩
  have hc1 : uadd c 1 = c + 1 := uadd_eq _ _ hc
  by_cases hs : s.signal_start = 0
  · simp [pwm_tick, pwm_rising, pwm_config_100, h1, h2, h4, PulseTable.set, hc1, hs]
    intro i hi j
    simp [hi]
  · simp [pwm_tick, pwm_rising, pwm_config_100, h1, h2, h4, PulseTable.set, hc1, hs]
    intro i hi j
    simp [hi]

/-- A sample below the limit that ends a pulse, the table not yet full: no jump to `err` and
no close. -/
theorem pwm_low_sample (s1 : PwmState) (c k : Nat) (hk : k + 1 < 4000)
    (h1 : s1.counter = c) (hc : c + 50001 < U32) (h3 : s1.print2 = 1)
    (h4 : s1.signal_pulse_counter = k) :
    pwm_sample pwm_config_100 s1 0 =
      PwmOutcome.ok (pwm_set_print (pwm_pulse_end (pwm_tick s1))) := by
  rw [pwm_sample_low _ _ _ (by decide), pwm_falling_low _ _ _ (by decide)]
  have hp : (pwm_tick s1).print2 ≠ 0 := by simp [pwm_tick, h3]
  have hc1 : uadd k 1 = k + 1 := uadd_eq _ _ (by unfold U32; omega)
  have hn : ¬ (pwm_pulse_end (pwm_tick s1)).signal_pulse_counter ≥ 4000 := by
    simp [pwm_pulse_end, pwm_tick, h4, hc1]
    omega
  rw [if_pos hp, if_neg hn]
  apply pwm_close_not
  have he : (pwm_set_print (pwm_pulse_end (pwm_tick s1))).pulse_end =
      (pwm_set_print (pwm_pulse_end (pwm_tick s1))).counter := by
    simp [pwm_set_print, pwm_pulse_end, pwm_tick]
  have hcn : (pwm_set_print (pwm_pulse_end (pwm_tick s1))).counter = c + 1 := by
    simp [pwm_set_print, pwm_pulse_end, pwm_tick, h1]
    exact uadd_eq _ _ (by omega)
  rw [he, hcn, uadd_eq _ _ (by omega)]
  omega

/-- The fields of the statics after the statements that end a pulse. -/
theorem pwm_low_fields (s1 : PwmState) (c k p : Nat) (hk : k < 4000)
    (h1 : s1.counter = c) (hc : c + 1 < U32) (h4 : s1.signal_pulse_counter = k)
    (h6 : s1.pulse_start = p) (hp : p ≤ c) (h7 : s1.signal_pulse_data k 0 = p) :
    (pwm_pulse_end (pwm_tick s1)).counter = c + 1 ∧
    (pwm_pulse_end (pwm_tick s1)).print = s1.print ∧
    (pwm_pulse_end (pwm_tick s1)).print2 = 0 ∧
    (pwm_pulse_end (pwm_tick s1)).signal_pulse_counter = k + 1 ∧
    (pwm_pulse_end (pwm_tick s1)).signal_start = s1.signal_start ∧
    (pwm_pulse_end (pwm_tick s1)).pulse_end = c + 1 ∧
    ((pwm_pulse_end (pwm_tick s1)).signal_pulse_data k 0 = p ∧
      (pwm_pulse_end (pwm_tick s1)).signal_pulse_data k 1 = c + 1 ∧
      (pwm_pulse_end (pwm_tick s1)).signal_pulse_data k 2 = c + 1 - p) ∧
    ∀ i, i ≠ k → ∀ j,
      (pwm_pulse_end (pwm_tick s1)).signal_pulse_data i j = s1.signal_pulse_data i j := by
  have hc1 : uadd k 1 = k + 1 := uadd_eq _ _ (by unfold U32; omega)
  have hc2 : uadd c 1 = c + 1 := uadd_eq _ _ hc
  have hs : usub (c + 1) p = c + 1 - p := usub_eq _ _ (by omega) hc
  simp [pwm_pulse_end, pwm_tick, h1, h4, h6, h7, hc1, hc2, hs, PulseTable.set]
  intro i hi j
  simp [hi]

theorem pwm_set_print_fields (s : PwmState) :
    (pwm_set_print s).counter = s.counter ∧ (pwm_set_print s).print = 1 ∧
    (pwm_set_print s).print2 = s.print2 ∧
    (pwm_set_print s).signal_pulse_counter = s.signal_pulse_counter ∧
    (pwm_set_print s).signal_start = s.signal_start ∧
    (pwm_set_print s).pulse_end = s.pulse_end ∧
    (pwm_set_print s).signal_pulse_data = s.signal_pulse_data :=
  ⟨rfl, rfl, rfl, rfl, rfl, rfl, rfl⟩

/-- A sample below the limit while no pulse is open and the close test fails: only the counter
and `print` change. -/
theorem pwm_quiet_sample (s : PwmState) (c : Nat) (h1 : s.counter = c) (hc : c + 1 < U32)
    (h3 : s.print2 = 0) (hpe : s.pulse_end + 50000 < U32)
    (hq : s.signal_start = 0 ∨ c + 1 ≤ s.pulse_end + 50000) :
    pwm_sample pwm_config_100 s 0 = PwmOutcome.ok (pwm_set_print (pwm_tick s)) ∧
      (pwm_set_print (pwm_tick s)).counter = c + 1 ∧ (pwm_set_print (pwm_tick s)).print = 1 ∧
      (pwm_set_print (pwm_tick s)).print2 = 0 ∧
      (pwm_set_print (pwm_tick s)).signal_pulse_counter = s.signal_pulse_counter ∧
      (pwm_set_print (pwm_tick s)).signal_start = s.signal_start ∧
      (pwm_set_print (pwm_tick s)).pulse_end = s.pulse_end ∧
      (pwm_set_print (pwm_tick s)).signal_pulse_data = s.signal_pulse_data := by
  have hcn : (pwm_set_print (pwm_tick s)).counter = c + 1 := by
    simp [pwm_set_print, pwm_tick, h1]
    exact uadd_eq _ _ hc
  refine ⟨?_, hcn, rfl, h3, rfl, rfl, rfl, rfl⟩
  rw [pwm_sample_low _ _ _ (by decide), pwm_falling_low _ _ _ (by decide)]
  have hp : ¬ (pwm_tick s).print2 ≠ 0 := by simp [pwm_tick, h3]
  rw [if_neg hp]
  apply pwm_close_not
  rw [hcn]
  show ¬ (s.signal_start ≠ 0 ∧ uadd s.pulse_end 50000 < c + 1)
  rw [uadd_eq _ _ hpe]
  omega

/-- One pulse of the train while the table is not full. -/
theorem pulse_train_step (k : Nat) (s : PwmState) (rest : List Int) (h : PulseTrainInv k s)
    (hk : k + 1 < 4000) :
    ∃ s2, pwm_analyze pwm_config_100 s (101 :: 0 :: rest) = pwm_analyze pwm_config_100 s2 rest ∧
      PulseTrainInv (k + 1) s2 := by
  obtain ⟨i1, i2, _, i4, i5, i6⟩ := h
  obtain ⟨s1, e1, h1, _, h3, h4, h5, h6, h7, h8⟩ :=
    pwm_high_sample s (2 * k + 1) k i1 (by unfold U32; omega) i2 i4
  have e2 := pwm_low_sample s1 (2 * k + 2) k hk h1 (by unfold U32; omega) h3 h4
  obtain ⟨f1, _, f3, f4, f5, _, f7, f8⟩ :=
    pwm_low_fields s1 (2 * k + 2) k (2 * k + 1) (by omega) h1 (by unfold U32; omega) h4 h6
      (by omega) h7
  obtain ⟨g1, g2, g3, g4, g5, _, g7⟩ := pwm_set_print_fields (pwm_pulse_end (pwm_tick s1))
  have hss : s1.signal_start = 1 := by
    rw [h5, i5]
    by_cases hk0 : k = 0
    · subst hk0
      rfl
    · simp [hk0]
  refine ⟨pwm_set_print (pwm_pulse_end (pwm_tick s1)), ?_, ?_⟩
  · rw [pwm_analyze_cons, e1]
    show pwm_analyze pwm_config_100 s1 (0 :: rest) = _
    rw [pwm_analyze_cons, e2]
  · refine ⟨by rw [g1, f1]; omega, g2, by rw [g3, f3], by rw [g4, f4],
      by rw [g5, f5, hss, if_neg (by omega)], ?_⟩
    intro i hi
    rw [g7]
    by_cases hik : i = k
    · subst hik
      exact ⟨f7.1, by rw [f7.2.1], by rw [f7.2.2]; omega⟩
    · rw [f8 i hik, f8 i hik, f8 i hik, h8 i hik, h8 i hik, h8 i hik]
      exact i6 i (by omega)

/-- The pulse of the train that fills the last row: the cursor is reset and `pwm_analyze`
returns through `err`, whatever follows in the chunk. -/
theorem pulse_train_overflow (s : PwmState) (rest : List Int) (h : PulseTrainInv 3999 s) :
    ∃ s2, pwm_analyze pwm_config_100 s (101 :: 0 :: rest) = PwmOutcome.err s2 ∧
      PulseTrainOverflowed s2 := by
  obtain ⟨i1, i2, _, i4, i5, i6⟩ := h
  obtain ⟨s1, e1, h1, h2, h3, h4, h5, h6, h7, h8⟩ :=
    pwm_high_sample s (2 * 3999 + 1) 3999 i1 (by unfold U32; omega) i2 i4
  obtain ⟨f1, f2, f3, f4, f5, f6, f7, f8⟩ :=
    pwm_low_fields s1 (2 * 3999 + 2) 3999 (2 * 3999 + 1) (by omega) h1 (by unfold U32; omega)
      h4 h6 (by omega) h7
  have hss : s1.signal_start = 1 := by
    rw [h5, i5]
    simp
  have hp : (pwm_tick s1).print2 ≠ 0 := by simp [pwm_tick, h3]
  have hn : (pwm_pulse_end (pwm_tick s1)).signal_pulse_counter ≥ 4000 := by omega
  have e2 : pwm_sample pwm_config_100 s1 0 =
      PwmOutcome.err { pwm_pulse_end (pwm_tick s1) with signal_pulse_counter := 0 } := by
    rw [pwm_sample_low _ _ _ (by decide), pwm_falling_low _ _ _ (by decide), if_pos hp,
      if_pos hn]
  refine ⟨{ pwm_pulse_end (pwm_tick s1) with signal_pulse_counter := 0 }, ?_, ?_⟩
  · rw [pwm_analyze_cons, e1]
    show pwm_analyze pwm_config_100 s1 (0 :: rest) = _
    rw [pwm_analyze_cons, e2]
  · refine ⟨f1, f2.trans h2, f3, rfl, f5.trans hss, f6, ?_⟩
    intro i hi
    show (pwm_pulse_end (pwm_tick s1)).signal_pulse_data i 0 = 2 * i + 1 ∧
      (pwm_pulse_end (pwm_tick s1)).signal_pulse_data i 1 = 2 * i + 3 ∧
      (pwm_pulse_end (pwm_tick s1)).signal_pulse_data i 2 = 2
    by_cases hik : i = 3999
    · subst hik
      exact f7
    · rw [f8 i hik, f8 i hik, f8 i hik, h8 i hik, h8 i hik, h8 i hik]
      exact i6 i (by omega)

/-- A run of pulses of the train that does not fill the table. -/
theorem pulse_train_run (rest : List Int) : ∀ (n k : Nat) (s : PwmState), PulseTrainInv k s →
    k + n < 4000 →
    ∃ s2, pwm_analyze pwm_config_100 s (pulse_train n ++ rest) =
        pwm_analyze pwm_config_100 s2 rest ∧ PulseTrainInv (k + n) s2 := by
  intro n
  induction n with
  | zero => intro k s h _; exact ⟨s, rfl, h⟩
  | succ n ih =>
    intro k s h hk
    obtain ⟨s1, e1, i1⟩ := pulse_train_step k s (pulse_train n ++ rest) h (by omega)
    obtain ⟨s2, e2, i2⟩ := ih (k + 1) s1 i1 (by omega)
    refine ⟨s2, ?_, ?_⟩
    · show pwm_analyze pwm_config_100 s (101 :: 0 :: (pulse_train n ++ rest)) = _
      rw [e1, e2]
    · have : k + (n + 1) = k + 1 + n := by omega
      rw [this]
      exact i2

theorem pulse_train_succ (n : Nat) : pulse_train (n + 1) = pulse_train n ++ [101, 0] := by
  induction n with
  | zero => rfl
  | succ n ih =>
    show 101 :: 0 :: pulse_train (n + 1) = (101 :: 0 :: pulse_train n) ++ [101, 0]
    rw [ih]
    rfl

/-- The quiet sample before the train, from the initial statics. -/
theorem pulse_train_start :
    ∃ s, pwm_sample pwm_config_100 pwm_init 0 = PwmOutcome.ok s ∧ PulseTrainInv 0 s := by
  obtain ⟨e, _⟩ := pwm_quiet_sample pwm_init 0 rfl (by unfold U32; omega) rfl
    (by unfold U32; show 0 + 50000 < 2 ^ 32; omega) (Or.inl rfl)
  refine ⟨_, e, rfl, rfl, rfl, rfl, rfl, ?_⟩
  intro i hi
  omega

/-- A quiet sample and 4000 pulses overflow the table. -/
theorem pulse_train_overflows :
    ∃ s, pwm_analyze pwm_config_100 pwm_init (0 :: pulse_train 4000) = PwmOutcome.err s ∧
      PulseTrainOverflowed s := by
  obtain ⟨s0, e0, i0⟩ := pulse_train_start
  obtain ⟨s1, e1, i1⟩ := pulse_train_run [101, 0] 3999 0 s0 i0 (by omega)
  obtain ⟨s2, e2, i2⟩ := pulse_train_overflow s1 [] (by simpa using i1)
  refine ⟨s2, ?_, i2⟩
  rw [pwm_analyze_cons, e0]
  show pwm_analyze pwm_config_100 s0 (pulse_train (3999 + 1)) = _
  rw [pulse_train_succ, e1, e2]

/-- The samples `0, 101, 0` after the overflow: the new pulse goes to row 0, the other rows
keep the pulses of the train. -/
theorem pulse_train_next_pulse (s : PwmState) (rest : List Int) (h : PulseTrainOverflowed s) :
    ∃ s2, pwm_analyze pwm_config_100 s (0 :: 101 :: 0 :: rest) =
        pwm_analyze pwm_config_100 s2 rest ∧ PulseTrainStale 0 s2 := by
  obtain ⟨i1, _, i3, i4, i5, i6, i7⟩ := h
  obtain ⟨e0, a1, a2, _, a4, a5, a6, a7⟩ := pwm_quiet_sample s 8001 i1 (by unfold U32; omega) i3
    (by rw [i6]; unfold U32; omega) (Or.inr (by omega))
  obtain ⟨s1, e1, h1, _, h3, h4, h5, h6, h7, h8⟩ :=
    pwm_high_sample (pwm_set_print (pwm_tick s)) 8002 0 a1 (by unfold U32; omega) a2
      (a4.trans i4)
  have e2 := pwm_low_sample s1 8003 0 (by omega) h1 (by unfold U32; omega) h3 h4
  obtain ⟨f1, _, f3, f4, f5, f6, f7, f8⟩ :=
    pwm_low_fields s1 8003 0 8002 (by omega) h1 (by unfold U32; omega) h4 h6 (by omega) h7
  obtain ⟨g1, g2, g3, g4, g5, g6, g7⟩ := pwm_set_print_fields (pwm_pulse_end (pwm_tick s1))
  have hss : s1.signal_start = 1 := by
    rw [h5, a5, i5]
    simp
  refine ⟨pwm_set_print (pwm_pulse_end (pwm_tick s1)), ?_, ?_⟩
  · rw [pwm_analyze_cons, e0]
    show pwm_analyze pwm_config_100 (pwm_set_print (pwm_tick s)) (101 :: 0 :: rest) = _
    rw [pwm_analyze_cons, e1]
    show pwm_analyze pwm_config_100 s1 (0 :: rest) = _
    rw [pwm_analyze_cons, e2]
  · refine ⟨by rw [g1, f1], g2, by rw [g3, f3], by rw [g4, f4], by rw [g5, f5, hss],
      by rw [g6, f6], ?_, ?_⟩
    · rw [g7]
      exact f7
    · intro i hi1 hi2
      have hik : i ≠ 0 := by omega
      rw [g7, f8 i hik, f8 i hik, f8 i hik, h8 i hik, h8 i hik, h8 i hik, a7]
      exact i7 i hi2

/-- Quiet samples after the new pulse, up to 50000 of them, change the counter only. -/
theorem pulse_train_quiet : ∀ (m n : Nat) (s : PwmState), PulseTrainStale n s →
    n + m ≤ 50000 →
    ∃ s2, pwm_analyze pwm_config_100 s (List.replicate m 0) = PwmOutcome.ok s2 ∧
      PulseTrainStale (n + m) s2 := by
  intro m
  induction m with
  | zero => intro n s h _; exact ⟨s, rfl, h⟩
  | succ m ih =>
    intro n s h hn
    obtain ⟨i1, _, i3, i4, i5, i6, i7, i8⟩ := h
    obtain ⟨e0, a1, a2, a3, a4, a5, a6, a7⟩ :=
      pwm_quiet_sample s (8004 + n) i1 (by unfold U32; omega) i3
        (by rw [i6]; unfold U32; omega) (Or.inr (by rw [i6]; omega))
    have hst : PulseTrainStale (n + 1) (pwm_set_print (pwm_tick s)) :=
      ⟨a1, a2, a3, a4.trans i4, a5.trans i5, a6.trans i6, by rw [a7]; exact i7,
        by rw [a7]; exact i8⟩
    obtain ⟨s2, e2, i2⟩ := ih (n + 1) _ hst (by omega)
    refine ⟨s2, ?_, ?_⟩
    · show pwm_analyze pwm_config_100 s (0 :: List.replicate m 0) = _
      rw [pwm_analyze_cons, e0]
      exact e2
    · have : n + (m + 1) = n + 1 + m := by omega
      rw [this]
      exact i2

theorem pwm_chunks_cons (cfg : PwmConfig) (s : PwmState) (buf : List Int)
    (rest : List (List Int)) :
    pwm_chunks cfg s (buf :: rest) =
      match pwm_analyze cfg s buf with
      | PwmOutcome.ok s1 => pwm_chunks cfg s1 rest
      | PwmOutcome.err s1 => pwm_chunks cfg s1 rest
      | PwmOutcome.crashed => none := rfl

/-- The statics after the overflowing chunk and a chunk with one pulse and 50000 quiet
samples. -/
theorem pulse_train_stale :
    ∃ s, pwm_chunks pwm_config_100 pwm_init
        [0 :: pulse_train 4000, 0 :: 101 :: 0 :: List.replicate 50000 0] = some s ∧
      PulseTrainStale 50000 s := by
  obtain ⟨s1, e1, i1⟩ := pulse_train_overflows
  obtain ⟨s2, e2, i2⟩ := pulse_train_next_pulse s1 (List.replicate 50000 0) i1
  obtain ⟨s3, e3, i3⟩ := pulse_train_quiet 50000 0 s2 i2 (by omega)
  refine ⟨s3, ?_, by simpa using i3⟩
  rw [pwm_chunks_cons, e1]
  simp only []
  rw [pwm_chunks_cons, e2, e3]
  rfl

/-- The sample that closes the signal hands the table of the statics to the classifier. -/
theorem pwm_sample_closes (cfg : PwmConfig) (s : PwmState) (v : Int) (hopen : s.signal_start ≠ 0)
    (hv : v < cfg.level_limit) (hp : s.print2 = 0)
    (hc : uadd s.pulse_end 50000 < uadd s.counter 1) :
    pwm_sample cfg s v =
      match classify_signal_table cfg.override_short cfg.override_long s.signal_pulse_data with
      | none => PwmOutcome.crashed
      | some d =>
        PwmOutcome.ok
          { s with
            counter := uadd s.counter 1
            print := 1
            signal_end := usub (uadd s.counter 1) 40000
            pulses_found := 0
            signal_pulse_data := d
            signal_pulse_counter := 0
            signal_grabber := if cfg.sg_buf then s.signal_grabber + 1 else s.signal_grabber
            signal_start := 0 } := by
  rw [pwm_sample_low cfg s v hv, pwm_falling_low cfg _ v hv]
  have hp2 : ¬ (pwm_tick s).print2 ≠ 0 := fun h => h hp
  rw [if_neg hp2, pwm_close_yes cfg (pwm_set_print (pwm_tick s)) ⟨hopen, hc⟩]
  rfl

/-! ### Facts on `getMinutesToWait` -/

theorem toU32_natCast (n : Nat) (h : n < 4294967296) : toU32 (n : Int) = n := by
  unfold toU32
  omega

theorem usub_small (a b : Nat) (hb : b ≤ a) (ha : a < 4294967296) : usub a b = a - b := by
  unfold usub U32
  omega

theorem int32_small (x : Int) (h0 : 0 ≤ x) (h1 : x < 2147483648) : int32 x = x := by
  unfold int32
  omega

/-- Adding what is missing to the next multiple of `f` gives a multiple of `f`. -/
theorem add_complement_mod (m f : Nat) (hf : 0 < f) : (m + (f - m % f)) % f = 0 := by
  have h1 : m % f < f := Nat.mod_lt m hf
  have h2 : m + (f - m % f) = f * (m / f) + f := by
    have := Nat.div_add_mod m f
    omega
  rw [h2, Nat.add_mod_right, Nat.mul_mod_right]

theorem getMinutesToWait_some (localtime : Int → Option Tm) (frequency : Nat)
    (currentTime timeLastDone : Int) (t : Tm) (h : localtime currentTime = some t) :
    getMinutesToWait localtime frequency currentTime timeLastDone =
      some (getMinutesToWait_minutes frequency (minsSinceLastDone currentTime timeLastDone) t) := by
  unfold getMinutesToWait
  simp only [h]

theorem getMinutesToWait_none (localtime : Int → Option Tm) (frequency : Nat)
    (currentTime timeLastDone : Int) (h : localtime currentTime = none) :
    getMinutesToWait localtime frequency currentTime timeLastDone = none := by
  unfold getMinutesToWait
  simp only [h]

/-- The value of `getMinutesToWait` for a frequency below 60 that divides 60. -/
theorem getMinutesToWait_sub_hour (frequency : Nat) (d : Int) (t : Tm) (m : Nat)
    (hf0 : 0 < frequency) (hf : frequency < 60)
    (hdiv : 60 % frequency = 0) (hm : t.tm_min = m) (hm60 : m < 60) :
    getMinutesToWait_minutes frequency d t =
      if m % frequency ≠ 0 then frequency - m % frequency
      else if d ≠ 0 then 0 else frequency := by
  have hlt : m % frequency < frequency := Nat.mod_lt m hf0
  have hne0 : ¬ frequency = 0 := by omega
  unfold getMinutesToWait_minutes
  simp only [hm, toU32_natCast m (by omega), if_neg hne0, if_pos hf]
  by_cases h1 : m % frequency ≠ 0
  · have e1 : int32 (usub frequency (m % frequency) : Nat) = ((frequency - m % frequency : Nat) : Int) := by
      rw [usub_small _ _ (by omega) (by omega), int32_small _ (by omega) (by omega)]
    have e2 : ¬ (((frequency - m % frequency : Nat) : Int) < 0) := by omega
    simp only [if_pos (⟨hdiv, h1⟩ : 60 % frequency = 0 ∧ m % frequency ≠ 0), if_pos h1, e1,
      if_neg e2]
    exact toU32_natCast _ (by omega)
  · simp only [if_neg (fun h => h1 h.2 : ¬ (60 % frequency = 0 ∧ m % frequency ≠ 0)),
      if_neg h1]
    by_cases h2 : d ≠ 0
    · simp only [if_pos (⟨hdiv, h2⟩ : 60 % frequency = 0 ∧ d ≠ 0), if_pos h2]
      rfl
    · have hd : d = 0 := by omega
      have h0 : toU32 0 = 0 := rfl
      have e0 : usub frequency 0 = frequency := usub_small _ _ (Nat.zero_le _) (by omega)
      have e1 : int32 (usub frequency 0 : Nat) = (frequency : Int) := by
        rw [e0]
        exact int32_small _ (by omega) (by omega)
      have e2 : ¬ ((frequency : Int) < 0) := by omega
      simp only [if_neg (fun h => h2 h.2 : ¬ (60 % frequency = 0 ∧ d ≠ 0)), if_neg h2]
      rw [hd, h0, e1, if_neg e2]
      exact toU32_natCast _ (by omega)

/-- The block for frequencies of whole hours: it is zero exactly at the top of an hour whose
hour is a multiple of `frequency / 60`, and positive otherwise. -/
theorem getMinutesToWait_hours_spec (frequency : Nat) (t : Tm) (h m : Nat) (hf : 60 ≤ frequency)
    (hdiv : frequency % 60 = 0) (hbig : frequency < 2147483648)
    (hh : t.tm_hour = h) (hm : t.tm_min = m) (hm60 : m < 60) :
    0 ≤ getMinutesToWait_hours frequency t ∧
    getMinutesToWait_hours frequency t < 2147483648 ∧
    (getMinutesToWait_hours frequency t = 0 ↔ (m = 0 ∧ h % (frequency / 60) = 0)) := by
  have hfh : 1 ≤ frequency / 60 := by omega
  have efh : int32 ((frequency / 60 : Nat) : Int) = ((frequency / 60 : Nat) : Int) :=
    int32_small _ (by omega) (by omega)
  have etm : Int.tmod (h : Int) ((frequency / 60 : Nat) : Int) =
      ((h % (frequency / 60) : Nat) : Int) := by
    rw [Int.tmod_eq_emod (by omega) (by omega)]
    exact (Int.ofNat_emod h (frequency / 60)).symm
  have em : Int.tmod (60 - (m : Int)) 60 = (60 - (m : Int)) % 60 :=
    Int.tmod_eq_emod (by omega) (by omega)
  have hlt : h % (frequency / 60) < frequency / 60 := Nat.mod_lt _ (by omega)
  unfold getMinutesToWait_hours
  simp only [hm, hh, efh, etm, em]
  generalize h % (frequency / 60) = x at hlt ⊢
  have hF : frequency / 60 ≤ 35791394 := by omega
  generalize frequency / 60 = F at hlt hF hfh ⊢
  have em2 : (60 - (m : Int)) % 60 = if m = 0 then 0 else 60 - (m : Int) := by
    split <;> omega
  rw [em2]
  by_cases hx : x = 0
  · by_cases hm0 : m = 0
    · subst hx
      subst hm0
      simp
    · have c1 : ¬ ((x : Int) ≠ 0 ∧ (m : Int) = 0) := by omega
      have c2 : ¬ ((x : Int) = 0 ∧ (m : Int) = 0) := by omega
      simp only [if_neg c1, if_pos c2, if_neg hm0]
      rw [int32_small ((↑F - 1 - ↑x) * 60) (by omega) (by omega),
        int32_small (60 - ↑m + (↑F - 1 - ↑x) * 60) (by omega) (by omega)]
      omega
  · by_cases hm0 : m = 0
    · have c1 : (x : Int) ≠ 0 ∧ (m : Int) = 0 := by omega
      have c2 : ¬ ((x : Int) = 0 ∧ (m : Int) = 0) := by omega
      simp only [if_pos c1, if_pos c2, if_pos hm0]
      rw [int32_small ((↑F - 1 - ↑x + 1) * 60) (by omega) (by omega),
        int32_small (0 + (↑F - 1 - ↑x + 1) * 60) (by omega) (by omega)]
      omega
    · have c1 : ¬ ((x : Int) ≠ 0 ∧ (m : Int) = 0) := by omega
      have c2 : ¬ ((x : Int) = 0 ∧ (m : Int) = 0) := by omega
      simp only [if_neg c1, if_pos c2, if_neg hm0]
      rw [int32_small ((↑F - 1 - ↑x) * 60) (by omega) (by omega),
        int32_small (60 - ↑m + (↑F - 1 - ↑x) * 60) (by omega) (by omega)]
      omega

/-- The value of `getMinutesToWait` is zero, for a frequency of whole hours below `2^31`,
exactly at the top of an hour whose hour is a multiple of `frequency / 60` when the minutes
elapsed are not zero. -/
theorem getMinutesToWait_hours_zero_iff (frequency : Nat) (d : Int) (t : Tm) (h m : Nat)
    (hf : 60 ≤ frequency) (hdiv : frequency % 60 = 0) (hbig : frequency < 2147483648)
    (hh : t.tm_hour = h) (hm : t.tm_min = m) (hm60 : m < 60) :
    (getMinutesToWait_minutes frequency d t = 0 ↔
      (m = 0 ∧ h % (frequency / 60) = 0 ∧ d ≠ 0)) := by
  have hne0 : ¬ frequency = 0 := by omega
  have hge : ¬ frequency < 60 := by omega
  obtain ⟨b0, b1, b2⟩ := getMinutesToWait_hours_spec frequency t h m hf hdiv hbig hh hm hm60
  unfold getMinutesToWait_minutes
  simp only [hm, if_neg hne0, if_neg hge]
  by_cases hd : d ≠ (m : Int)
  · simp only [if_pos (⟨hdiv, hd⟩ : frequency % 60 = 0 ∧ d ≠ (m : Int))]
    rw [if_neg (by omega)]
    generalize getMinutesToWait_hours frequency t = v at b0 b1 b2
    have hv : toU32 v = 0 ↔ v = 0 := by
      unfold toU32
      omega
    rw [hv, b2]
    constructor
    · rintro ⟨h1, h2⟩
      exact ⟨h1, h2, by omega⟩
    · rintro ⟨h1, h2, _⟩
      exact ⟨h1, h2⟩
  · simp only [if_neg (fun h => hd h.2 : ¬ (frequency % 60 = 0 ∧ d ≠ (m : Int)))]
    have hdm : d = (m : Int) := by omega
    rw [hdm, toU32_natCast m (by omega), usub_small _ _ (by omega) (by omega),
      int32_small _ (by omega) (by omega), if_neg (by omega), toU32_natCast _ (by omega)]
    constructor
    · intro h1
      omega
    · rintro ⟨h1, _, h3⟩
      omega

/-! ### Facts on the example tables and buffers -/

set_option maxRecDepth 100000 in
/-- The pulse lengths of `two_gap_table` are all 10: the 2-cluster refinement makes no round. -/
theorem two_gap_table_cluster2 :
    cluster2_loop two_gap_table 9 (cluster2_init two_gap_table) =
      some { min := 10, max := 10, t := 10, delta := 0, k := 1 } := by
  decide

set_option maxRecDepth 100000 in
/-- The smallest and the largest gap of `two_gap_table`. -/
theorem two_gap_table_scan : gap_scan two_gap_table = { a0 := 10, a2 := 100 } := by
  decide

set_option maxRecDepth 100000 in
/-- The state before the first round of the gap refinement on `two_gap_table`. -/
theorem two_gap_table_init :
    cluster3_init two_gap_table =
      { a0 := 10, a1 := 55, a2 := 100, b0 := 32, b1 := 77, delta := 10000000, k := 1 } := by
  decide

set_option maxRecDepth 100000 in
/-- The gap refinement on `two_gap_table` stops at the round limit with the centers
`(10, 10, 100)`. -/
theorem two_gap_table_cluster3 :
    cluster3_loop (signal_distance_data two_gap_table) 10 100 9
        { a0 := 10, a1 := 55, a2 := 100, b0 := 32, b1 := 77, delta := 10000000, k := 1 } =
      { a0 := 10, a1 := 10, a2 := 100, b0 := 10, b1 := 55, delta := 100, k := 10 } := by
  decide

set_option maxRecDepth 100000 in
/-- The distance re-walk of `two_gap_table` with the centers `(10, 10, 100)`. -/
theorem two_gap_table_rewalk :
    (List.range 1000).flatMap (rewalk_distance (signal_distance_data two_gap_table) 10 10 100) =
      [Symbol.packet] := by
  decide

/-- The classifier on `two_gap_table`. -/
theorem two_gap_table_classified :
    classify_signal 0 0 two_gap_table = ClassifyOutcome.done two_gap_classification := by
  unfold classify_signal
  rw [if_neg (by decide : ¬ two_gap_table 0 0 = 0), two_gap_table_cluster2]
  simp only [two_gap_table_scan, two_gap_table_init, two_gap_table_cluster3]
  have h0 : (if (0 : Nat) ≠ 0 then 0 else 10) = 10 := rfl
  have h1 : (if 10 / 10 > 1 then 2 else 1 : Nat) = 1 := rfl
  have h2 : ¬ ((10 : Nat) = 0) := by decide
  simp only [h0, h1, if_neg h2, if_true, two_gap_table_rewalk]
  rfl

/-- In the table left by a chunk processed from the initial statics, every row that holds a
pulse start has a positive length. -/
theorem pwm_analyze_lengths_positive (cfg : PwmConfig) (buf : List Int) (s : PwmState)
    (h : pwm_analyze cfg pwm_init buf = PwmOutcome.ok s) (hw : buf.length < U32) :
    ∀ i, s.signal_pulse_data i 0 > 0 → s.signal_pulse_data i 2 > 0 := by
  have hrun : pwm_chunks cfg pwm_init [buf] = some s := by
    rw [pwm_chunks_cons, h]
    rfl
  have htot : total_samples [buf] = buf.length := by simp [total_samples]
  obtain ⟨m, _, hI⟩ := PwmInv.chunks cfg [buf] s hrun (by rw [htot]; exact hw)
  intro i hi
  rcases hI.2.2 i with h0 | h1 | h2
  · omega
  · rw [h1.2]
    unfold U32
    omega
  · omega

set_option maxRecDepth 100000 in
/-- The pulse table after the samples `0, 101, 0, 101, 101, 0` at level limit 100, and what the
first round of the 2-cluster refinement finds in it. -/
theorem adjacent_lengths_state :
    ∃ s, pwm_analyze pwm_config_100 pwm_init [0, 101, 0, 101, 101, 0] = PwmOutcome.ok s ∧
      (s.signal_pulse_data 0 0 = 1 ∧ s.signal_pulse_data 0 1 = 3 ∧
        s.signal_pulse_data 0 2 = 2) ∧
      (s.signal_pulse_data 1 0 = 3 ∧ s.signal_pulse_data 1 1 = 6 ∧
        s.signal_pulse_data 1 2 = 3) ∧
      cluster2_init s.signal_pulse_data = { min := 2, max := 3, t := 2, delta := 1, k := 1 } ∧
      cluster2_sums s.signal_pulse_data 2 =
        { min_new := 0, count_min := 0, max_new := 5, count_max := 2 } ∧
      classify_signal 0 0 s.signal_pulse_data = ClassifyOutcome.crashed :=
  ⟨_, rfl, by decide, by decide, by decide, by decide, by decide⟩

/-- A round of the 2-cluster refinement whose short bucket is empty divides by zero. -/
theorem cluster2_round_empty_short (d : PulseTable) (s : Cluster2)
    (h : (cluster2_sums d s.t).count_min = 0) : cluster2_round d s = none := by
  unfold cluster2_round
  simp only [h, true_or, if_true]

set_option maxRecDepth 100000 in
/-- Every byte that passes the check of `waveman_callback` holds the pairs `0 1` and `1 1`
only, and bit `k` of the decoded nibble is the complement of the first bit of pair `k`. -/
theorem waveman_nibble_bits :
    ∀ b, b < 256 → b &&& 0x55 = 0x55 → ∀ k, k < 4 →
      (bit_pair b k).2 = true ∧ (waveman_nibble b).testBit k = !(bit_pair b k).1 := by
  decide

/-- The id printed by `prologue_callback` is the high nibble of `bb[1][0]`. -/
theorem prologue_event_id (bb : BitBuf) (e : PrologueEvent) (h : prologue_event bb = some e) :
    prologue_check bb ∧ e.id = (bb.byte 1 0 &&& 0xF0) >>> 4 := by
  unfold prologue_event at h
  by_cases hc : prologue_check bb
  · rw [if_pos hc] at h
    have := Option.some.inj h
    rw [← this]
    exact ⟨hc, rfl⟩
  · rw [if_neg hc] at h
    exact Option.noConfusion h

/-! ### Facts on the reads of `em1000_callback` -/

/-- The value of `AD_POP` is determined by the bytes at the indices it reads. -/
theorem AD_POP_congr (row row2 : Row) (bit : Nat) : ∀ bits,
    (∀ b ∈ AD_POP_bytes bits bit, row.byte b = row2.byte b) →
    AD_POP row bits bit = AD_POP row2 bits bit := by
  intro bits
  induction bits with
  | zero => intro _; rfl
  | succ n ih =>
    intro h
    have h1 : ∀ b ∈ AD_POP_bytes n bit, row.byte b = row2.byte b := by
      intro b hb
      apply h
      unfold AD_POP_bytes at hb ⊢
      rw [List.range_succ, List.map_append]
      exact List.mem_append_left _ hb
    have h2 : row.byte (((bit + n) / 8) % 256) = row2.byte (((bit + n) / 8) % 256) := by
      apply h
      unfold AD_POP_bytes
      rw [List.range_succ, List.map_append]
      exact List.mem_append_right _ (by simp)
    rw [AD_POP_succ, AD_POP_succ, ih h1]
    unfold AD_POP_step
    simp only [h2]

theorem AD_POP_positions_mem (bits bit p : Nat) (h : p ∈ AD_POP_positions bits bit) :
    bit ≤ p ∧ p < bit + bits := by
  unfold AD_POP_positions at h
  obtain ⟨i, hi, rfl⟩ := List.mem_map.mp h
  have := List.mem_range.mp hi
  omega

theorem AD_POP_bytes_mem (bits bit b : Nat) (hbit : bit + bits ≤ 2048)
    (h : b ∈ AD_POP_bytes bits bit) : bit / 8 ≤ b ∧ b ≤ (bit + bits - 1) / 8 := by
  unfold AD_POP_bytes at h
  obtain ⟨i, hi, rfl⟩ := List.mem_map.mp h
  have := List.mem_range.mp hi
  omega

/-- The combination of the three repetitions reads the columns 0..13 of the rows 0..2 only. -/
theorem em1000_combine_upto_congr (bb bb2 : BitBuf) : ∀ n,
    (∀ r c, r < 3 → c < n → bb.byte r c = bb2.byte r c) →
    em1000_combine_upto bb n = em1000_combine_upto bb2 n := by
  intro n
  induction n with
  | zero => intro _; rfl
  | succ n ih =>
    intro h
    rw [em1000_combine_upto_succ, em1000_combine_upto_succ,
      ih (fun r c hr hc => h r c hr (by omega)), h 0 n (by omega) (by omega),
      h 1 n (by omega) (by omega), h 2 n (by omega) (by omega)]

theorem em1000_callback_congr (bb bb2 : BitBuf)
    (h : ∀ r c, r < 3 → c < 14 → bb.byte r c = bb2.byte r c) :
    em1000_callback bb = em1000_callback bb2 := by
  unfold em1000_callback em1000_decode em1000_combine
  rw [em1000_combine_upto_congr bb bb2 14 h]

/-- The bit cursor of `em1000_callback` after `n ≤ 9` rounds of its second loop. -/
theorem em1000_read_bit (bb_p : Row) (n : Nat) (s : Em1000State) (hn : n ≤ 9)
    (h : em1000_read bb_p n = some s) : s.bit = 18 + 9 * n := by
  rw [em1000_read_spec bb_p n hn] at h
  by_cases hall : ∀ j, j < n → streamBit bb_p (26 + 9 * j) = true
  · rw [if_pos hall] at h
    have := Option.some.inj h
    rw [← this]
  · rw [if_neg hall] at h
    exact Option.noConfusion h

/-! ### Facts on a close that stops in the classifier -/

set_option maxRecDepth 100000 in
/-- The statics after the samples `0, 101, 0, 101, 101, 0` at level limit 100: the signal is
open, no pulse is open, and the classifier divides by zero on the table. -/
theorem adjacent_lengths_statics :
    ∃ s, pwm_analyze pwm_config_100 pwm_init [0, 101, 0, 101, 101, 0] = PwmOutcome.ok s ∧
      s.counter = 6 ∧ s.print2 = 0 ∧ s.pulse_end = 6 ∧ s.signal_start = 1 ∧
      classify_signal 0 0 s.signal_pulse_data = ClassifyOutcome.crashed :=
  ⟨_, rfl, by decide, by decide, by decide, by decide, by decide⟩

/-- Samples below the limit while no pulse is open and the close test keeps failing change the
counter and `print` only. -/
theorem pwm_quiet_run : ∀ (n : Nat) (s : PwmState) (c : Nat), s.counter = c → c + n < U32 →
    s.print2 = 0 → s.pulse_end + 50000 < U32 →
    (s.signal_start = 0 ∨ c + n ≤ s.pulse_end + 50000) →
    ∃ s2, pwm_analyze pwm_config_100 s (List.replicate n 0) = PwmOutcome.ok s2 ∧
      s2.counter = c + n ∧ s2.print2 = 0 ∧ s2.pulse_end = s.pulse_end ∧
      s2.signal_start = s.signal_start ∧ s2.signal_pulse_counter = s.signal_pulse_counter ∧
      s2.signal_pulse_data = s.signal_pulse_data := by
  intro n
  induction n with
  | zero => intro s c h1 _ h3 _ _; exact ⟨s, rfl, h1, h3, rfl, rfl, rfl, rfl⟩
  | succ n ih =>
    intro s c h1 hc h3 hpe hq
    obtain ⟨e0, a1, _, a3, a4, a5, a6, a7⟩ := pwm_quiet_sample s c h1 (by omega) h3 hpe
      (by omega)
    obtain ⟨s2, e2, b1, b3, b4, b5, b6, b7⟩ := ih (pwm_set_print (pwm_tick s)) (c + 1) a1
      (by omega) a3 (by rw [a6]; exact hpe) (by rw [a5, a6]; omega)
    refine ⟨s2, ?_, by omega, b3, b4.trans a6, b5.trans a5, b6.trans a4, b7.trans a7⟩
    show pwm_analyze pwm_config_100 s (0 :: List.replicate n 0) = _
    rw [pwm_analyze_cons, e0]
    exact e2

/-- The statics 50000 quiet samples after the samples `0, 101, 0, 101, 101, 0`. -/
theorem adjacent_lengths_quiet :
    ∃ s, pwm_analyze pwm_config_100 pwm_init
        ([0, 101, 0, 101, 101, 0] ++ List.replicate 50000 0) = PwmOutcome.ok s ∧
      s.counter = 50006 ∧ s.print2 = 0 ∧ s.pulse_end = 6 ∧ s.signal_start = 1 ∧
      classify_signal 0 0 s.signal_pulse_data = ClassifyOutcome.crashed := by
  obtain ⟨s0, e0, h1, h2, h3, h4, h5⟩ := adjacent_lengths_statics
  obtain ⟨s, e, b1, b2, b3, b4, _, b6⟩ := pwm_quiet_run 50000 s0 6 h1 (by unfold U32; omega) h2
    (by rw [h3]; unfold U32; omega) (Or.inr (by omega))
  refine ⟨s, ?_, b1, b2, b3.trans h3, b4.trans h4, by rw [b6]; exact h5⟩
  rw [pwm_analyze_append, e0]
  exact e

/-- A sample at which the close test succeeds while the classifier divides by zero on the
table: the program stops inside `classify_signal`. -/
theorem pwm_sample_close_crashes (cfg : PwmConfig) (s : PwmState) (v : Int)
    (hopen : s.signal_start ≠ 0) (hv : v < cfg.level_limit) (hp : s.print2 = 0)
    (hc : uadd s.pulse_end 50000 < uadd s.counter 1)
    (hcr : classify_signal cfg.override_short cfg.override_long s.signal_pulse_data =
      ClassifyOutcome.crashed) :
    pwm_sample cfg s v = PwmOutcome.crashed := by
  rw [pwm_sample_closes cfg s v hopen hv hp hc]
  unfold classify_signal_table
  rw [hcr]

/-! ### Facts on the observed smallest and largest gap -/

/-- The scan finds the observed maximum gap, and the observed minimum gap when that is at most
the initial guess 1000000. -/
theorem gap_scan_observed (d : PulseTable) (m M : Nat) (hm : IsObservedMinGap d m)
    (hM : IsObservedMaxGap d M) :
    (gap_scan d).a2 = M ∧ (m ≤ 1000000 → (gap_scan d).a0 = m) := by
  obtain ⟨hA, hB, hC⟩ := gap_scan_upto_spec d 999
  rw [← gap_scan_eq] at hA hB hC
  obtain ⟨⟨i0, h01, h02, h03, h04⟩, hmin⟩ := hm
  obtain ⟨⟨i1, h11, h12, h13, h14⟩, hmax⟩ := hM
  have a0 := hA i0 h01 (by omega) h03
  have a1 := hA i1 h11 (by omega) h13
  refine ⟨?_, ?_⟩
  · rcases hB with hB | ⟨i, h1, h2, h3, h4⟩
    · omega
    · have := hmax i h1 (by omega) h3
      omega
  · intro hs
    rcases hC with hC | ⟨i, h1, h2, h3, h4⟩
    · omega
    · have := hmin i h1 (by omega) h3
      omega

/-- The one gap of `far_gap_table` is 2000000 samples long. -/
theorem far_gap_table_gap :
    IsObservedMinGap far_gap_table 2000000 ∧ IsObservedMaxGap far_gap_table 2000000 := by
  have h1 : far_gap_table 1 0 > 0 ∧ gap_at far_gap_table 1 = 2000000 := by decide
  have h2 : ∀ i, 1 ≤ i → far_gap_table i 0 > 0 → i = 1 := by
    intro i hi h
    by_cases h1 : i = 1
    · exact h1
    · unfold far_gap_table at h
      rw [if_neg (by omega), if_neg h1] at h
      exact absurd h (Nat.lt_irrefl 0)
  refine ⟨⟨⟨1, by omega, by omega, h1.1, h1.2⟩, ?_⟩, ⟨⟨1, by omega, by omega, h1.1, h1.2⟩, ?_⟩⟩
  · intro i hi _ h
    rw [h2 i hi h, h1.2]
  · intro i hi _ h
    rw [h2 i hi h, h1.2]

set_option maxRecDepth 100000 in
/-- The gap scan and the first round of the gap refinement on `far_gap_table`: the initial guess
1000000 stays in `a[0]` and in `min`. -/
theorem far_gap_table_round :
    gap_scan far_gap_table = { a0 := 1000000, a2 := 2000000 } ∧
    (cluster3_round (signal_distance_data far_gap_table) (gap_scan far_gap_table).a0
        (gap_scan far_gap_table).a2 (cluster3_init far_gap_table)).a0 = 1000000 := by
  decide

/-- The gaps of `three_gap_table` are 10, 50 and 100 samples long. -/
theorem three_gap_table_gaps :
    IsObservedMinGap three_gap_table 10 ∧ IsObservedMaxGap three_gap_table 100 := by
  have h1 : three_gap_table 1 0 > 0 ∧ gap_at three_gap_table 1 = 10 := by decide
  have h2 : three_gap_table 2 0 > 0 ∧ gap_at three_gap_table 2 = 50 := by decide
  have h3 : three_gap_table 3 0 > 0 ∧ gap_at three_gap_table 3 = 100 := by decide
  have h4 : ∀ i, 1 ≤ i → three_gap_table i 0 > 0 → i = 1 ∨ i = 2 ∨ i = 3 := by
    intro i hi h
    by_cases c1 : i = 1
    · exact Or.inl c1
    · by_cases c2 : i = 2
      · exact Or.inr (Or.inl c2)
      · by_cases c3 : i = 3
        · exact Or.inr (Or.inr c3)
        · unfold three_gap_table at h
          rw [if_neg (by omega), if_neg c1, if_neg c2, if_neg c3] at h
          exact absurd h (Nat.lt_irrefl 0)
  refine ⟨⟨⟨1, by omega, by omega, h1.1, h1.2⟩, ?_⟩, ⟨⟨3, by omega, by omega, h3.1, h3.2⟩, ?_⟩⟩
  · intro i hi _ h
    rcases h4 i hi h with e | e | e <;> subst e <;> omega
  · intro i hi _ h
    rcases h4 i hi h with e | e | e <;> subst e <;> omega

/-! ## Theorems -/

/-- C1: for every byte buffer, width `w ≤ 16` and bit offset (a `uint8_t`) with
`offset + w` inside the buffer, bit `i < w` of `AD_POP(buffer, w, offset)` is the stream bit at
position `offset + i` (MSB-first inside a byte), so the field is bit-reversed and the first
bit read is the least-significant result bit; every byte read lies inside the buffer; no bit at
or above `w` is set; and
`AD_POP([0xAB,0xCD], 8, 4) = 0x3D`. -/
theorem C1_AD_POP_bit_reversed (bb : Row) (w offset : Nat) (hw : w ≤ 16) (hoff : offset < 256)
    (hin : offset + w ≤ 8 * bb.length) :
    (∀ i, i < w → (AD_POP bb w offset).testBit i = streamBit bb (offset + i)) ∧
      (∀ i, i < w → (offset + i) / 8 < bb.length) ∧
      AD_POP bb w offset < 2 ^ w ∧ AD_POP [0xAB, 0xCD] 8 4 = 0x3D := by
  refine ⟨fun i hi => AD_POP_testBit bb w offset i hw hoff hi, fun i hi => by omega,
    AD_POP_lt bb w offset hw hoff, ?_⟩
  decide

theorem C1_AD_POP_bit_reversed_witness :
    (8 ≤ 16 ∧ 4 < 256 ∧ 4 + 8 ≤ 8 * [0xAB, 0xCD].length) ∧
    (∀ i, i < 8 → (AD_POP [0xAB, 0xCD] 8 4).testBit i = streamBit [0xAB, 0xCD] (4 + i)) ∧
      (∀ i, i < 8 → (4 + i) / 8 < [0xAB, 0xCD].length) ∧
      AD_POP [0xAB, 0xCD] 8 4 < 2 ^ 8 ∧ AD_POP [0xAB, 0xCD] 8 4 = 0x3D :=
  ⟨by decide, C1_AD_POP_bit_reversed [0xAB, 0xCD] 8 4 (by decide) (by decide) (by decide)⟩

/-- C2: round trip of the bitstream reader. For every byte buffer, width `w ≤ 16` and in-bounds
offset, writing `v = AD_POP(buffer, w, offset)` back with the same convention (bit `i` of `v` to
stream position `offset + i`) into any buffer of the same size reproduces the original `w` bits at
positions `offset .. offset+w-1`; written back into the buffer itself it reproduces the buffer;
and two buffers give the same `v` iff they agree on those `w` stream bits. -/
theorem C2_AD_POP_round_trip (bb : Row) (w offset : Nat) (hw : w ≤ 16) (hoff : offset < 256)
    (hin : offset + w ≤ 8 * bb.length) :
    (∀ t : Row, t.length = bb.length → ∀ i, i < w →
        streamBit (write_bits t w offset (AD_POP bb w offset)) (offset + i)
          = streamBit bb (offset + i)) ∧
      write_bits bb w offset (AD_POP bb w offset) = bb ∧
      (∀ bb2 : Row, AD_POP bb w offset = AD_POP bb2 w offset ↔
        ∀ i, i < w → streamBit bb (offset + i) = streamBit bb2 (offset + i)) := by
  refine ⟨?_, ?_, ?_⟩
  · intro t ht i hi
    rw [streamBit_write_bits t offset _ w (by omega), if_pos (by omega),
      Nat.add_sub_cancel_left, AD_POP_testBit bb w offset i hw hoff hi]
  · exact write_bits_self bb offset _ w (fun i hi => AD_POP_testBit bb w offset i hw hoff hi)
  · intro bb2
    constructor
    · intro h i hi
      rw [← AD_POP_testBit bb w offset i hw hoff hi, h, AD_POP_testBit bb2 w offset i hw hoff hi]
    · intro h
      apply Nat.eq_of_testBit_eq
      intro i
      by_cases hi : i < w
      · rw [AD_POP_testBit bb w offset i hw hoff hi, AD_POP_testBit bb2 w offset i hw hoff hi,
          h i hi]
      · have hle : (2 : Nat) ^ w ≤ 2 ^ i := Nat.pow_le_pow_right (by decide) (by omega)
        rw [Nat.testBit_lt_two_pow (lt_of_lt_of_le (AD_POP_lt bb w offset hw hoff) hle),
          Nat.testBit_lt_two_pow (lt_of_lt_of_le (AD_POP_lt bb2 w offset hw hoff) hle)]

theorem C2_AD_POP_round_trip_witness :
    (8 ≤ 16 ∧ 4 < 256 ∧ 4 + 8 ≤ 8 * [0xAB, 0xCD].length) ∧
    ((∀ t : Row, t.length = [0xAB, 0xCD].length → ∀ i, i < 8 →
        streamBit (write_bits t 8 4 (AD_POP [0xAB, 0xCD] 8 4)) (4 + i)
          = streamBit [0xAB, 0xCD] (4 + i)) ∧
      write_bits [0xAB, 0xCD] 8 4 (AD_POP [0xAB, 0xCD] 8 4) = [0xAB, 0xCD] ∧
      (∀ bb2 : Row, AD_POP [0xAB, 0xCD] 8 4 = AD_POP bb2 8 4 ↔
        ∀ i, i < 8 → streamBit [0xAB, 0xCD] (4 + i) = streamBit bb2 (4 + i))) :=
  ⟨by decide, C2_AD_POP_round_trip [0xAB, 0xCD] 8 4 (by decide) (by decide) (by decide)⟩

/-- C3: `em1000_callback` returns 1 if and only if (i) in each of the columns 0..13 at least
two of the rows 0, 1, 2 agree, and, on the combined 14-byte row, (ii) each of the nine stop bits
at stream positions `26 + 9k` is 1 and (iii) the 8-bit field read at bit 99 equals the XOR of the
nine 8-bit fields read at bits `18 + 9k`; in every other case it returns 0. -/
theorem C3_em1000_accepts_iff (bb : BitBuf) :
    (em1000_callback bb = 1 ↔
      ((∀ i, i < 14 → (bb.byte 0 i = bb.byte 1 i ∨ bb.byte 0 i = bb.byte 2 i ∨
          bb.byte 1 i = bb.byte 2 i)) ∧
        ∃ bb_p, em1000_combine bb = some bb_p ∧
          (∀ k, k < 9 → streamBit bb_p (26 + 9 * k) = true) ∧
          AD_POP bb_p 8 99 = xorList (em1000_fields bb_p))) ∧
    (em1000_callback bb = 0 ↔
      ¬ ((∀ i, i < 14 → (bb.byte 0 i = bb.byte 1 i ∨ bb.byte 0 i = bb.byte 2 i ∨
          bb.byte 1 i = bb.byte 2 i)) ∧
        ∃ bb_p, em1000_combine bb = some bb_p ∧
          (∀ k, k < 9 → streamBit bb_p (26 + 9 * k) = true) ∧
          AD_POP bb_p 8 99 = xorList (em1000_fields bb_p))) := by
  have h := em1000_decode_isSome_iff bb
  unfold em1000_frame_ok at h
  exact ⟨(em1000_callback_eq_one bb).trans h, (em1000_callback_eq_zero bb).trans (not_congr h)⟩

/-- C4: majority combination in `em1000_callback`. In every column `i < 14` where at least two
of `bb[0][i]`, `bb[1][i]`, `bb[2][i]` are equal the column yields a byte held by at least two of
the three rows; the combined row, when the loop completes, has 14 entries and entry `i` is that
byte; and when in some column `i < 14` the three bytes are pairwise different the message is
rejected (the function returns 0). -/
theorem C4_em1000_majority (bb : BitBuf) :
    (∀ i, i < 14 →
        (bb.byte 0 i = bb.byte 1 i ∨ bb.byte 0 i = bb.byte 2 i ∨ bb.byte 1 i = bb.byte 2 i) →
        ∃ v, em1000_column (bb.byte 0 i) (bb.byte 1 i) (bb.byte 2 i) = some v ∧
          heldByTwo v (bb.byte 0 i) (bb.byte 1 i) (bb.byte 2 i)) ∧
    (∀ bb_p, em1000_combine bb = some bb_p → bb_p.length = 14 ∧ ∀ i, i < 14 →
        em1000_column (bb.byte 0 i) (bb.byte 1 i) (bb.byte 2 i) = some (bb_p.byte i) ∧
          heldByTwo (bb_p.byte i) (bb.byte 0 i) (bb.byte 1 i) (bb.byte 2 i)) ∧
    ((∃ i, i < 14 ∧ bb.byte 0 i ≠ bb.byte 1 i ∧ bb.byte 0 i ≠ bb.byte 2 i ∧
        bb.byte 1 i ≠ bb.byte 2 i) → em1000_callback bb = 0) := by
  refine ⟨?_, ?_, ?_⟩
  · intro i _ h
    obtain ⟨v, hv⟩ := Option.isSome_iff_exists.mp ((em1000_column_isSome _ _ _).mpr h)
    exact ⟨v, hv, em1000_column_some _ _ _ v hv⟩
  · intro bb_p h
    obtain ⟨hlen, hcols⟩ := em1000_combine_upto_some bb 14 bb_p h
    exact ⟨hlen, fun i hi => ⟨hcols i hi, em1000_column_some _ _ _ _ (hcols i hi)⟩⟩
  · rintro ⟨i, hi, h01, h02, h12⟩
    rw [em1000_callback_eq_zero, em1000_decode_isSome_iff]
    rintro ⟨hall, _⟩
    rcases hall i hi with h | h | h
    · exact h01 h
    · exact h02 h
    · exact h12 h

/-- C5: `ws2000_callback` reads row 0 from bit 11 as 5-bit groups (a nibble read by `AD_POP`,
then a stop bit); with `n = 12` when the first nibble is 4 and `n = 8` otherwise, it returns 1
if and only if the `n + 1` stop bits (at `15 + 5k`, `k ≤ n`) are all 1, the XOR of the `n + 1`
nibbles is 0 and the 4-bit field that follows equals (sum of the `n + 1` nibbles + 5) mod 16;
in every other case it returns 0; and the 8-bit running sum does not overflow. -/
theorem C5_ws2000_accepts_iff (bb : BitBuf) :
    (ws2000_callback bb = 1 ↔
      ((∀ k, k ≤ ws2000_count (bb.row 0) → streamBit (bb.row 0) (15 + 5 * k) = true) ∧
        xorList (ws2000_nibbles (bb.row 0) (ws2000_count (bb.row 0) + 1)) = 0 ∧
        AD_POP (bb.row 0) 4 (11 + 5 * (ws2000_count (bb.row 0) + 1)) =
          ((ws2000_nibbles (bb.row 0) (ws2000_count (bb.row 0) + 1)).sum + 5) % 16)) ∧
    (ws2000_callback bb = 0 ↔
      ¬ ((∀ k, k ≤ ws2000_count (bb.row 0) → streamBit (bb.row 0) (15 + 5 * k) = true) ∧
        xorList (ws2000_nibbles (bb.row 0) (ws2000_count (bb.row 0) + 1)) = 0 ∧
        AD_POP (bb.row 0) 4 (11 + 5 * (ws2000_count (bb.row 0) + 1)) =
          ((ws2000_nibbles (bb.row 0) (ws2000_count (bb.row 0) + 1)).sum + 5) % 16)) ∧
    (ws2000_count (bb.row 0) = if AD_POP (bb.row 0) 4 11 = 4 then 12 else 8) ∧
    (ws2000_nibbles (bb.row 0) (ws2000_count (bb.row 0) + 1)).sum + 5 < 256 := by
  have h := ws2000_decode_isSome_iff bb
  unfold ws2000_frame_ok at h
  refine ⟨(ws2000_callback_eq_one bb).trans h, (ws2000_callback_eq_zero bb).trans (not_congr h),
    rfl, ?_⟩
  have h1 := ws2000_nibbles_sum_le (bb.row 0) (ws2000_count (bb.row 0) + 1)
    (by have := ws2000_count_le (bb.row 0); omega)
  have h2 := ws2000_count_le (bb.row 0)
  omega

/-- C6 (as stated, refuted): a buffer on which `rubicson_callback` returns 1 although the header
byte of row 0 differs from the header byte of row 1. -/
theorem C6_rubicson_row0_not_compared :
    BitBuf.IsBytes [[0x4A, 0x80, 0xD7], [0x5A, 0x80, 0xD7], [0x5A, 0x80, 0xD7],
        [0x5A, 0x80, 0xD7], [0x5A, 0x80, 0xD7], [0x5A, 0x80, 0xD7], [0x5A, 0x80, 0xD7],
        [0x5A, 0x80, 0xD7], [0x5A, 0x80, 0xD7], [0x5A, 0x80, 0xD7]] ∧
      rubicson_callback [[0x4A, 0x80, 0xD7], [0x5A, 0x80, 0xD7], [0x5A, 0x80, 0xD7],
        [0x5A, 0x80, 0xD7], [0x5A, 0x80, 0xD7], [0x5A, 0x80, 0xD7], [0x5A, 0x80, 0xD7],
        [0x5A, 0x80, 0xD7], [0x5A, 0x80, 0xD7], [0x5A, 0x80, 0xD7]] = 1 ∧
      BitBuf.byte [[0x4A, 0x80, 0xD7], [0x5A, 0x80, 0xD7], [0x5A, 0x80, 0xD7],
        [0x5A, 0x80, 0xD7], [0x5A, 0x80, 0xD7], [0x5A, 0x80, 0xD7], [0x5A, 0x80, 0xD7],
        [0x5A, 0x80, 0xD7], [0x5A, 0x80, 0xD7], [0x5A, 0x80, 0xD7]] 0 0 ≠
      BitBuf.byte [[0x4A, 0x80, 0xD7], [0x5A, 0x80, 0xD7], [0x5A, 0x80, 0xD7],
        [0x5A, 0x80, 0xD7], [0x5A, 0x80, 0xD7], [0x5A, 0x80, 0xD7], [0x5A, 0x80, 0xD7],
        [0x5A, 0x80, 0xD7], [0x5A, 0x80, 0xD7], [0x5A, 0x80, 0xD7]] 1 0 := by
  exact ⟨BitBuf.isBytes_of_forall _ (by decide), by decide, by decide⟩

/-- C6 (amended): on every buffer on which `rubicson_callback` returns 1 the header byte
(column 0) is equal across the rows 1 to 9: `bb[r][0] = bb[r'][0]` for `1 ≤ r, r' ≤ 9`. -/
theorem C6_rubicson_header_rows_1_to_9 (bb : BitBuf) (h : rubicson_callback bb = 1)
    (r r' : Nat) (hr : 1 ≤ r ∧ r ≤ 9) (hr' : 1 ≤ r' ∧ r' ≤ 9) :
    bb.byte r 0 = bb.byte r' 0 := by
  obtain ⟨h1, h2, h3, h4, h5, h6, h7, h8, _⟩ := (rubicson_callback_eq_one bb).mp h
  have key : ∀ k, 1 ≤ k → k ≤ 9 → bb.byte k 0 = bb.byte 1 0 := by
    intro k hk1 hk9
    interval_cases k <;> omega
  rw [key r hr.1 hr.2, key r' hr'.1 hr'.2]

theorem C6_rubicson_header_rows_1_to_9_witness :
    rubicson_callback [[0x4A, 0x80, 0xD7], [0x5A, 0x80, 0xD7], [0x5A], [0x5A], [0x5A],
        [0x5A, 0x80, 0xD7], [0x5A], [0x5A], [0x5A], [0x5A]] = 1 ∧
      BitBuf.byte [[0x4A, 0x80, 0xD7], [0x5A, 0x80, 0xD7], [0x5A], [0x5A], [0x5A],
        [0x5A, 0x80, 0xD7], [0x5A], [0x5A], [0x5A], [0x5A]] 3 0 =
      BitBuf.byte [[0x4A, 0x80, 0xD7], [0x5A, 0x80, 0xD7], [0x5A], [0x5A], [0x5A],
        [0x5A, 0x80, 0xD7], [0x5A], [0x5A], [0x5A], [0x5A]] 9 0 :=
  ⟨by decide, C6_rubicson_header_rows_1_to_9 _ (by decide) 3 9 (by decide) (by decide)⟩

/-- C7: redundancy rejection. A bit buffer in which at most one row is non-zero (every row other
than some row `r0` holds zeros only) is rejected by each redundancy-only validator:
`rubicson_callback`, `prologue_callback` and `silvercrest_callback` all return 0. -/
theorem C7_single_row_rejected (bb : BitBuf) (r0 : Nat)
    (h : ∀ r, r ≠ r0 → ∀ c, bb.byte r c = 0) :
    rubicson_callback bb = 0 ∧ prologue_callback bb = 0 ∧ silvercrest_callback bb = 0 := by
  refine ⟨?_, ?_, ?_⟩
  · rw [rubicson_callback_eq_zero]
    rintro ⟨_, _, _, h45, _, _, _, _, h50, _, _⟩
    by_cases h5 : 5 = r0
    · have h4 := h 4 (by omega) 0
      rw [h45] at h4
      exact h50 h4
    · exact h50 (h 5 h5 0)
  · rw [prologue_callback_eq_zero]
    by_cases h1 : 1 = r0
    · have h2 := h 2 (by omega) 0
      rintro (⟨_, hb, _⟩ | ⟨_, hb, _⟩) <;> rw [h2] at hb <;> exact absurd hb (by decide)
    · have h1' := h 1 h1 0
      rintro (⟨hb, _⟩ | ⟨hb, _⟩) <;> rw [h1'] at hb <;> exact absurd hb (by decide)
  · unfold silvercrest_callback
    rw [if_neg]
    rintro ⟨hb1, hb2, _⟩
    by_cases h1 : 1 = r0
    · have h2 := h 2 (by omega) 0
      rw [h2] at hb2
      exact absurd hb2 (by decide)
    · have h1' := h 1 h1 0
      rw [h1'] at hb1
      exact absurd hb1 (by decide)

theorem C7_single_row_rejected_witness :
    (∀ r, r ≠ 5 → ∀ c, BitBuf.byte [[], [], [], [], [], [0x5A, 0x80, 0xD7, 0x30, 0xC0]] r c = 0) ∧
      rubicson_callback [[], [], [], [], [], [0x5A, 0x80, 0xD7, 0x30, 0xC0]] = 0 ∧
      prologue_callback [[], [], [], [], [], [0x5A, 0x80, 0xD7, 0x30, 0xC0]] = 0 ∧
      silvercrest_callback [[], [], [], [], [], [0x5A, 0x80, 0xD7, 0x30, 0xC0]] = 0 := by
  have hz : ∀ r, r ≠ 5 → ∀ c,
      BitBuf.byte [[], [], [], [], [], [0x5A, 0x80, 0xD7, 0x30, 0xC0]] r c = 0 := by
    intro r hr c
    rcases Nat.lt_or_ge r 6 with h6 | h6
    · interval_cases r <;> first | rfl | exact absurd rfl hr
    · exact BitBuf.byte_of_length_le _ r c h6
  exact ⟨hz, C7_single_row_rejected _ 5 hz⟩

/-- C8 (as stated, refuted): rows 0 and 1 carry the same non-zero message and every other row
is absent (zero), yet `rubicson_callback` returns 0. -/
theorem C8_rubicson_two_rows_rejected :
    BitBuf.row [[0x5A, 0x80, 0xD7, 0x30, 0xC0], [0x5A, 0x80, 0xD7, 0x30, 0xC0]] 0 =
        BitBuf.row [[0x5A, 0x80, 0xD7, 0x30, 0xC0], [0x5A, 0x80, 0xD7, 0x30, 0xC0]] 1 ∧
      (∀ c, c < 5 →
        BitBuf.byte [[0x5A, 0x80, 0xD7, 0x30, 0xC0], [0x5A, 0x80, 0xD7, 0x30, 0xC0]] 0 c ≠ 0) ∧
      (∀ r, 2 ≤ r → ∀ c,
        BitBuf.byte [[0x5A, 0x80, 0xD7, 0x30, 0xC0], [0x5A, 0x80, 0xD7, 0x30, 0xC0]] r c = 0) ∧
      rubicson_callback [[0x5A, 0x80, 0xD7, 0x30, 0xC0], [0x5A, 0x80, 0xD7, 0x30, 0xC0]] = 0 := by
  exact ⟨rfl, by decide, fun r hr c => BitBuf.byte_of_length_le _ r c hr, by decide⟩

/-- C8 (amended): a bit buffer in which the rows 1 to 9 all carry the same message, whose bytes
0, 1 and 2 are non-zero, is accepted by `rubicson_callback` (it returns 1), whatever the other
rows hold. -/
theorem C8_rubicson_nine_rows_accepted (bb : BitBuf) (msg : Row)
    (hrows : ∀ r, 1 ≤ r → r ≤ 9 → bb.row r = msg)
    (h0 : msg.byte 0 ≠ 0) (h1 : msg.byte 1 ≠ 0) (h2 : msg.byte 2 ≠ 0) :
    rubicson_callback bb = 1 := by
  rw [rubicson_callback_eq_one]
  unfold rubicson_check BitBuf.byte
  rw [hrows 1 (by omega) (by omega), hrows 2 (by omega) (by omega),
    hrows 3 (by omega) (by omega), hrows 4 (by omega) (by omega),
    hrows 5 (by omega) (by omega), hrows 6 (by omega) (by omega),
    hrows 7 (by omega) (by omega), hrows 8 (by omega) (by omega),
    hrows 9 (by omega) (by omega)]
  exact ⟨rfl, rfl, rfl, rfl, rfl, rfl, rfl, rfl, h0, h1, h2⟩

theorem C8_rubicson_nine_rows_accepted_witness :
    (∀ r, 1 ≤ r → r ≤ 9 →
        BitBuf.row [[], [0x5A, 0x80, 0xD7], [0x5A, 0x80, 0xD7], [0x5A, 0x80, 0xD7],
          [0x5A, 0x80, 0xD7], [0x5A, 0x80, 0xD7], [0x5A, 0x80, 0xD7], [0x5A, 0x80, 0xD7],
          [0x5A, 0x80, 0xD7], [0x5A, 0x80, 0xD7]] r = [0x5A, 0x80, 0xD7]) ∧
      rubicson_callback [[], [0x5A, 0x80, 0xD7], [0x5A, 0x80, 0xD7], [0x5A, 0x80, 0xD7],
          [0x5A, 0x80, 0xD7], [0x5A, 0x80, 0xD7], [0x5A, 0x80, 0xD7], [0x5A, 0x80, 0xD7],
          [0x5A, 0x80, 0xD7], [0x5A, 0x80, 0xD7]] = 1 := by
  have hrows : ∀ r, 1 ≤ r → r ≤ 9 →
      BitBuf.row [[], [0x5A, 0x80, 0xD7], [0x5A, 0x80, 0xD7], [0x5A, 0x80, 0xD7],
        [0x5A, 0x80, 0xD7], [0x5A, 0x80, 0xD7], [0x5A, 0x80, 0xD7], [0x5A, 0x80, 0xD7],
        [0x5A, 0x80, 0xD7], [0x5A, 0x80, 0xD7]] r = [0x5A, 0x80, 0xD7] := by
    intro r h1 h9
    interval_cases r <;> rfl
  exact ⟨hrows, C8_rubicson_nine_rows_accepted _ [0x5A, 0x80, 0xD7] hrows
    (by decide) (by decide) (by decide)⟩

/-- C9: the temperature of `rubicson_callback` is a 12-bit sign extension. For every accepted
buffer of bytes, with `v = (bb[0][1] mod 16) * 256 + bb[0][2]`, the extracted `temp` (tenths of a
degree) is `v` when `v < 2048` and `v - 4096` otherwise, so it lies in `[-2048, 2047]`; and any
other accepted buffer with the same low nibble of `bb[0][1]` and the same `bb[0][2]` gives the
same temperature (the high nibble of `bb[0][1]` has no influence). -/
theorem C9_rubicson_temperature (bb : BitBuf) (hb : bb.IsBytes) (ev : RubicsonEvent)
    (h : rubicson_event bb = some ev) :
    (ev.temp =
        if (bb.byte 0 1 % 16) * 256 + bb.byte 0 2 < 2048
        then (((bb.byte 0 1 % 16) * 256 + bb.byte 0 2 : Nat) : Int)
        else (((bb.byte 0 1 % 16) * 256 + bb.byte 0 2 : Nat) : Int) - 4096) ∧
      (-2048 ≤ ev.temp ∧ ev.temp ≤ 2047) ∧
      (∀ (bb2 : BitBuf) (ev2 : RubicsonEvent), bb2.IsBytes → rubicson_event bb2 = some ev2 →
        bb2.byte 0 1 % 16 = bb.byte 0 1 % 16 → bb2.byte 0 2 = bb.byte 0 2 →
        ev2.temp = ev.temp) := by
  have ht := rubicson_temp_eq bb (hb 0 2)
  rw [← rubicson_event_temp bb ev h] at ht
  refine ⟨ht, ?_, ?_⟩
  · have h2 := hb 0 2
    rw [ht]
    split <;> omega
  · intro bb2 ev2 hb2 he2 hn h2
    have ht2 := rubicson_temp_eq bb2 (hb2 0 2)
    rw [← rubicson_event_temp bb2 ev2 he2, hn, h2] at ht2
    rw [ht, ht2]


theorem C9_rubicson_temperature_witness :
    (rubicson_sample.IsBytes ∧
        rubicson_event rubicson_sample = some rubicson_sample_event) ∧
      (rubicson_sample_event.temp =
        if (rubicson_sample.byte 0 1 % 16) * 256 + rubicson_sample.byte 0 2 < 2048
        then (((rubicson_sample.byte 0 1 % 16) * 256 + rubicson_sample.byte 0 2 : Nat) : Int)
        else (((rubicson_sample.byte 0 1 % 16) * 256 + rubicson_sample.byte 0 2 : Nat) : Int)
          - 4096) :=
  ⟨⟨BitBuf.isBytes_of_forall _ (by decide), by decide⟩,
    (C9_rubicson_temperature rubicson_sample (BitBuf.isBytes_of_forall _ (by decide))
      rubicson_sample_event (by decide)).1⟩

/-- C10 (as stated, refuted): with level limit 100, after three samples below the limit a sample
equal to the limit opens no pulse: no pulse is open afterwards, slot 0 of the table has no
start recorded and no signal is open. -/
theorem C10_sample_equal_to_limit_opens_no_pulse :
    ∃ s, pwm_analyze pwm_config_100 pwm_init [0, 0, 0, 100] = PwmOutcome.ok s ∧
      s.counter = 4 ∧ s.print = 1 ∧ s.print2 = 0 ∧ s.signal_pulse_data 0 0 = 0 ∧
      s.pulses_found = 0 ∧ s.signal_start = 0 :=
  ⟨_, rfl, rfl, rfl, rfl, rfl, rfl, rfl⟩

/-- C10 (amended): whenever `pwm_analyze` processes a sample strictly greater than the level
limit while the `print` flag is set (no pulse is open), it opens a pulse: the current sample
index (`counter` before its increment) is recorded as `pulse_start` and as the start of the
table slot at the cursor, `print2` is set, `print` is cleared, the cursor stays, and a signal is
opened at this index if none was open. A sample equal to the limit only advances the counter. -/
theorem C10_rising_edge_opens_pulse (cfg : PwmConfig) (s : PwmState) (v : Int)
    (hv : v > cfg.level_limit) (hp : s.print ≠ 0) :
    (∃ s1, pwm_sample cfg s v = PwmOutcome.ok s1 ∧
        s1.print2 = 1 ∧ s1.print = 0 ∧ s1.pulse_start = s.counter ∧
        s1.signal_pulse_data s.signal_pulse_counter 0 = s.counter ∧
        s1.signal_pulse_counter = s.signal_pulse_counter ∧
        s1.counter = uadd s.counter 1 ∧
        s1.signal_start = (if s.signal_start = 0 then s.counter else s.signal_start)) ∧
      pwm_sample cfg s cfg.level_limit = PwmOutcome.ok { s with counter := uadd s.counter 1 } := by
  constructor
  · have hnlt : ¬ v < cfg.level_limit := by omega
    have hstep : pwm_sample cfg s v = PwmOutcome.ok
        { pwm_rising cfg s v with counter := uadd (pwm_rising cfg s v).counter 1 } := by
      simp only [pwm_sample, pwm_falling, if_neg hnlt]
    refine ⟨_, hstep, ?_⟩
    by_cases hs : s.signal_start = 0
    · simp [pwm_rising, hv, hp, hs, PulseTable.set]
    · simp [pwm_rising, hv, hp, hs, PulseTable.set]
  · have h1 : ¬ cfg.level_limit > cfg.level_limit := by omega
    have h2 : ¬ cfg.level_limit < cfg.level_limit := by omega
    simp only [pwm_sample, pwm_rising, pwm_falling, if_neg h1, if_neg h2]

theorem C10_rising_edge_opens_pulse_witness :
    ((101 : Int) > pwm_config_100.level_limit ∧ pwm_init.print ≠ 0) ∧
      ∃ s1, pwm_sample pwm_config_100 pwm_init 101 = PwmOutcome.ok s1 ∧
        s1.print2 = 1 ∧ s1.print = 0 ∧ s1.pulse_start = pwm_init.counter ∧
        s1.signal_pulse_data pwm_init.signal_pulse_counter 0 = pwm_init.counter ∧
        s1.signal_pulse_counter = pwm_init.signal_pulse_counter ∧
        s1.counter = uadd pwm_init.counter 1 ∧
        s1.signal_start =
          (if pwm_init.signal_start = 0 then pwm_init.counter else pwm_init.signal_start) :=
  ⟨⟨by decide, by decide⟩,
    (C10_rising_edge_opens_pulse pwm_config_100 pwm_init 101 (by decide) (by decide)).1⟩

/-- C11: PulseEvent invariant. From the initial statics and for every sequence of chunks of
samples (fewer than `2^32` samples, so the sample counter does not wrap), every row of the pulse
table is cleared, or open (end and length still hold `-1`), or a completed pulse with
`end > start` and `length = end - start`; and when the falling-edge block completes the open
pulse at the next sample, the row it writes at the cursor has the end `counter + 1`, which is
after its start, and the length `end - start`. -/
theorem C11_pulse_event_invariant (cfg : PwmConfig) (chunks : List (List Int)) (s : PwmState)
    (hrun : pwm_chunks cfg pwm_init chunks = some s) (hwrap : total_samples chunks < U32) :
    (∀ i, (s.signal_pulse_data i 0 = 0 ∧ s.signal_pulse_data i 1 = 0 ∧
          s.signal_pulse_data i 2 = 0) ∨
        (s.signal_pulse_data i 1 = U32 - 1 ∧ s.signal_pulse_data i 2 = U32 - 1) ∨
        (s.signal_pulse_data i 0 < s.signal_pulse_data i 1 ∧
          s.signal_pulse_data i 2 = s.signal_pulse_data i 1 - s.signal_pulse_data i 0)) ∧
    (s.print2 ≠ 0 → total_samples chunks + 1 < U32 →
      (pwm_pulse_end (pwm_tick s)).signal_pulse_data s.signal_pulse_counter 1 = s.counter + 1 ∧
      (pwm_pulse_end (pwm_tick s)).signal_pulse_data s.signal_pulse_counter 0 <
        (pwm_pulse_end (pwm_tick s)).signal_pulse_data s.signal_pulse_counter 1 ∧
      (pwm_pulse_end (pwm_tick s)).signal_pulse_data s.signal_pulse_counter 2 =
        (pwm_pulse_end (pwm_tick s)).signal_pulse_data s.signal_pulse_counter 1 -
          (pwm_pulse_end (pwm_tick s)).signal_pulse_data s.signal_pulse_counter 0) := by
  obtain ⟨m, hm, hI⟩ := PwmInv.chunks cfg chunks s hrun hwrap
  constructor
  · intro i
    rcases hI.2.2 i with h | h | ⟨h1, h2, _⟩
    · exact Or.inl h
    · exact Or.inr (Or.inl h)
    · exact Or.inr (Or.inr ⟨h1, h2⟩)
  · intro hp hnext
    obtain ⟨h0, h1, h2, hlt⟩ := pwm_pulse_end_row m s hI (by omega) hp
    rw [h0, h1, h2, hI.1]
    exact ⟨rfl, by omega, rfl⟩

theorem C11_pulse_event_invariant_witness :
    (pwm_chunks pwm_config_100 pwm_init [[0, 101], [0]] = some pwm_after_pulse ∧
      total_samples [[0, 101], [0]] < U32) ∧
    (pwm_after_pulse.signal_pulse_data 0 0 < pwm_after_pulse.signal_pulse_data 0 1 ∧
      pwm_after_pulse.signal_pulse_data 0 2 =
        pwm_after_pulse.signal_pulse_data 0 1 - pwm_after_pulse.signal_pulse_data 0 0) := by
  refine ⟨⟨rfl, by decide⟩, ?_⟩
  rcases (C11_pulse_event_invariant pwm_config_100 [[0, 101], [0]] pwm_after_pulse rfl
    (by decide)).1 0 with h | h | h
  · exact absurd h.2.1 (by decide)
  · exact absurd h.1 (by decide)
  · exact h

/-- C12 (the close does not complete when the classifier divides by zero). At level limit 100
the samples `0, 101, 0, 101, 101, 0` and 50000 quiet samples leave the signal open
(`signal_start = 1`) with `pulse_end = 6` and `counter = 50006`. The next quiet sample is below
the limit and `pulse_end + 50000 < counter` holds after `counter++`, so the close block runs the
classifier; the table holds the lengths 2 and 3, `classify_signal` divides by zero, and the
statements that reset the cursor and `signal_start` are never reached: no state with the signal
closed follows that sample. -/
theorem C12_close_crashes_in_classifier :
    ∃ s, pwm_analyze pwm_config_100 pwm_init
        ([0, 101, 0, 101, 101, 0] ++ List.replicate 50000 0) = PwmOutcome.ok s ∧
      s.signal_start = 1 ∧ s.print2 = 0 ∧ s.pulse_end = 6 ∧ s.counter = 50006 ∧
      (0 : Int) < pwm_config_100.level_limit ∧ s.pulse_end + 50000 < s.counter + 1 ∧
      classify_signal 0 0 s.signal_pulse_data = ClassifyOutcome.crashed ∧
      pwm_sample pwm_config_100 s 0 = PwmOutcome.crashed ∧
      ¬ ∃ s1, pwm_sample pwm_config_100 s 0 = PwmOutcome.ok s1 ∧ s1.signal_start = 0 ∧
        s1.signal_pulse_counter = 0 := by
  obtain ⟨s, e, h1, h2, h3, h4, h5⟩ := adjacent_lengths_quiet
  have hcr : pwm_sample pwm_config_100 s 0 = PwmOutcome.crashed := by
    apply pwm_sample_close_crashes pwm_config_100 s 0 (by omega) (by decide) h2 _ h5
    rw [h3, h1, uadd_eq _ _ (by unfold U32; omega), uadd_eq _ _ (by unfold U32; omega)]
    omega
  refine ⟨s, e, h4, h2, h3, h1, by decide, by omega, h5, hcr, ?_⟩
  rintro ⟨s1, hs1, _⟩
  rw [hcr] at hs1
  exact PwmOutcome.noConfusion hs1

/-- C13 (as stated, refuted): after the samples `101, 0, 101, 0` at level limit 100 the first
pulse starts at sample 0, so `signal_pulse_data[0][0]` is zero; `classify_signal` then returns
at once and leaves the table as it is, with the second pulse still in row 1. -/
theorem C13_early_return_keeps_table :
    ∃ s, pwm_analyze pwm_config_100 pwm_init [101, 0, 101, 0] = PwmOutcome.ok s ∧
      classify_signal_table 0 0 s.signal_pulse_data = some s.signal_pulse_data ∧
      s.signal_pulse_data 1 0 = 2 ∧ s.signal_pulse_data 1 1 = 4 ∧ s.signal_pulse_data 1 2 = 2 :=
  ⟨_, rfl, rfl, rfl, rfl, rfl⟩

/-- C13 (amended): for every table content whose first slot has a non-zero start
(`signal_pulse_data[0][0]` is not zero), after `classify_signal` returns every slot that the
classifier reads (rows 0..999: start, end and length) is zero; when the first start is zero the
function returns at once and the table is unchanged. -/
theorem C13_table_cleared (os ol : Nat) (d d1 : PulseTable)
    (h : classify_signal_table os ol d = some d1) :
    (d 0 0 ≠ 0 → ∀ i j, i < 1000 → j < 3 → d1 i j = 0) ∧ (d 0 0 = 0 → d1 = d) := by
  rcases classify_signal_table_some os ol d d1 h with ⟨h0, h1⟩ | ⟨h0, h1⟩
  · exact ⟨fun hn => absurd h0 hn, fun _ => h1⟩
  · refine ⟨?_, fun hz => absurd hz h0⟩
    intro _ i j hi hj
    rw [h1]
    unfold PulseTable.clear
    rw [if_pos ⟨hi, hj⟩]

theorem C13_table_cleared_witness :
    classify_signal_table 0 0 two_level_table = some two_level_table.clear ∧
      (two_level_table 0 0 ≠ 0 → ∀ i j, i < 1000 → j < 3 → two_level_table.clear i j = 0) :=
  ⟨classify_signal_table_of_returns 0 0 two_level_table (by decide) two_level_table_returns,
    (C13_table_cleared 0 0 two_level_table two_level_table.clear
      (classify_signal_table_of_returns 0 0 two_level_table (by decide)
        two_level_table_returns)).1⟩

/-- C14 (overflow containment fails). At level limit 100, a chunk of one quiet sample and 4000
pulses of two samples fills the table: `pwm_analyze` resets the cursor and leaves through `err`
with all 4000 rows still holding the pulses `(2 i + 1, 2 i + 3, 2)`, `signal_start` still 1 and
`print` zero. After a second chunk with the samples `0, 101, 0` and 50000 quiet samples, row 0
holds the new pulse `(8002, 8004, 2)` while the rows `1..3999` still hold pulses recorded before
the overflow; the next quiet sample closes the signal and hands exactly this table to
`classify_signal`. -/
theorem C14_overflow_keeps_stale_rows :
    (∃ s1, pwm_analyze pwm_config_100 pwm_init (0 :: pulse_train 4000) = PwmOutcome.err s1 ∧
      PulseTrainOverflowed s1) ∧
    ∃ s, pwm_chunks pwm_config_100 pwm_init
        [0 :: pulse_train 4000, 0 :: 101 :: 0 :: List.replicate 50000 0] = some s ∧
      s.signal_start = 1 ∧ s.signal_pulse_counter = 1 ∧
      (s.signal_pulse_data 0 0 = 8002 ∧ s.signal_pulse_data 0 1 = 8004 ∧
        s.signal_pulse_data 0 2 = 2) ∧
      (∀ i, 1 ≤ i → i < 4000 → s.signal_pulse_data i 0 = 2 * i + 1 ∧
        s.signal_pulse_data i 1 = 2 * i + 3 ∧ s.signal_pulse_data i 2 = 2) ∧
      pwm_closed (pwm_sample pwm_config_100 s 0) ∧
      pwm_sample pwm_config_100 s 0 =
        match classify_signal_table 0 0 s.signal_pulse_data with
        | none => PwmOutcome.crashed
        | some d =>
          PwmOutcome.ok
            { s with
              counter := uadd s.counter 1
              print := 1
              signal_end := usub (uadd s.counter 1) 40000
              pulses_found := 0
              signal_pulse_data := d
              signal_pulse_counter := 0
              signal_grabber := s.signal_grabber
              signal_start := 0 } := by
  refine ⟨pulse_train_overflows, ?_⟩
  obtain ⟨s, e, i1, _, i3, i4, i5, i6, i7, i8⟩ := pulse_train_stale
  have hopen : s.signal_start ≠ 0 := by omega
  have hc : uadd s.pulse_end 50000 < uadd s.counter 1 := by
    rw [i6, i1, uadd_eq _ _ (by unfold U32; omega), uadd_eq _ _ (by unfold U32; omega)]
    omega
  refine ⟨s, e, i5, i4, i7, i8, ?_, ?_⟩
  · rw [pwm_closed_sample_iff _ _ _ hopen]
    refine ⟨by decide, ?_⟩
    rw [if_neg (fun h => h i3)]
    exact hc
  · exact pwm_sample_closes pwm_config_100 s 0 hopen (by decide) i3 hc

/-- C15: the pulse table never grows. From the initial statics, after any chunks of samples that
`pwm_analyze` processes, the write cursor `signal_pulse_counter` is below the row count 4000 of
the table, and no row past the table has been written: every slot written lies inside the
table. -/
theorem C15_cursor_inside_table (cfg : PwmConfig) (chunks : List (List Int)) (s : PwmState)
    (hrun : pwm_chunks cfg pwm_init chunks = some s) :
    s.signal_pulse_counter < 4000 ∧ ∀ i j, 4000 ≤ i → s.signal_pulse_data i j = 0 := by
  obtain ⟨_, _, hI⟩ := pwm_chunks_induction cfg (fun _ t => PwmCursorInv t)
    (total_samples chunks) (fun _ t v t1 hJ _ h => pwm_cursor_step cfg t t1 v hJ h)
    chunks 0 pwm_init s pwm_cursor_init (by omega) hrun
  exact hI

theorem C15_cursor_inside_table_witness :
    pwm_chunks pwm_config_100 pwm_init [[0, 101], [0]] = some pwm_after_pulse ∧
      pwm_after_pulse.signal_pulse_counter < 4000 :=
  ⟨rfl, (C15_cursor_inside_table pwm_config_100 [[0, 101], [0]] pwm_after_pulse rfl).1⟩

set_option maxRecDepth 100000 in
/-- C16 (as stated, refuted): with pulse lengths 2000000 and 3000000 the scan keeps its initial
`min = 1000000`, the first round finds no length below `t` and divides by zero; with pulse
lengths 100 and 65636 the initial `delta = 65536^2` wraps to zero and no round is made
(`k` stays 1). -/
theorem C16_large_lengths_do_not_converge :
    cluster2_init long_pulse_table =
        { min := 1000000, max := 3000000, t := 2000000, delta := 1385447424, k := 1 } ∧
      cluster2_loop long_pulse_table 9 (cluster2_init long_pulse_table) = none ∧
      cluster2_loop wide_pulse_table 9 (cluster2_init wide_pulse_table) =
        some { min := 100, max := 65636, t := 32868, delta := 0, k := 1 } := by
  decide

/-- C16 (amended): for every pulse table whose pulse lengths take exactly two values `lo` and
`hi` with `hi ≥ lo + 2`, `lo ≤ 1000000`, `1000 * hi < 2^32` and `(hi - lo)^2` not a multiple of
`2^32`, the first round of the pulse-length refinement runs (`delta > 0`) and the refinement
stops after exactly one round (`k = 2`) with centers `(min, max) = (lo, hi)` and `delta = 0`;
when the first start is not zero and `lo` is not zero, `classify_signal` then completes with
these centers, `p_limit = (lo + hi) / 2` (no override) and pulse coding exactly when
`hi / lo > 1`. -/
theorem C16_two_level_convergence (d : PulseTable) (lo hi : Nat)
    (hvalid : ∀ i, i < 1000 → d i 0 > 0 → d i 2 = lo ∨ d i 2 = hi)
    (hlo : ∃ i, i < 1000 ∧ d i 0 > 0 ∧ d i 2 = lo)
    (hhi : ∃ i, i < 1000 ∧ d i 0 > 0 ∧ d i 2 = hi)
    (hsep : lo + 2 ≤ hi) (hmil : lo ≤ 1000000) (hbound : 1000 * hi < U32)
    (hdelta : ((hi - lo) * (hi - lo)) % U32 ≠ 0) :
    (cluster2_init d).k = 1 ∧ (cluster2_init d).delta > 0 ∧
      cluster2_loop d 9 (cluster2_init d) =
        some { min := lo, max := hi, t := (lo + hi) / 2, delta := 0, k := 2 } ∧
      (∀ os ol, d 0 0 ≠ 0 → lo ≠ 0 →
        ∃ c, classify_signal os ol d = ClassifyOutcome.done c ∧ c.min = lo ∧ c.max = hi ∧
          (os = 0 → c.p_limit = (lo + hi) / 2) ∧
          c.signal_type = (if hi / lo > 1 then 2 else 1)) := by
  have hinit := cluster2_init_two_level d lo hi hvalid hlo hhi hsep hmil hbound
  have hloop := cluster2_loop_two_level d lo hi hvalid hlo hhi hsep hmil hbound hdelta
  refine ⟨by rw [hinit], by rw [hinit]; exact Nat.pos_of_ne_zero hdelta, hloop, ?_⟩
  intro os ol h0 hlo0
  have hcl : ∃ c, classify_signal os ol d = ClassifyOutcome.done c := by
    unfold classify_signal
    rw [if_neg h0, hloop]
    simp only [if_neg hlo0]
    exact ⟨_, rfl⟩
  obtain ⟨c, hc⟩ := hcl
  obtain ⟨c2, hl2, _, h1, h2, h3, h4⟩ := classify_signal_done os ol d c hc
  rw [hloop] at hl2
  have hc2 := Option.some.inj hl2
  subst hc2
  refine ⟨c, hc, h1, h2, ?_, h3⟩
  intro hos
  rw [h4, if_neg (fun hne => hne hos)]
  show uadd hi lo / 2 = (lo + hi) / 2
  rw [uadd_eq _ _ (by omega), Nat.add_comm]

theorem C16_two_level_convergence_witness :
    ((200 : Nat) + 2 ≤ 800 ∧ (200 : Nat) ≤ 1000000 ∧ 1000 * 800 < U32 ∧
        ((800 - 200) * (800 - 200)) % U32 ≠ 0) ∧
      cluster2_loop two_level_table 9 (cluster2_init two_level_table) =
        some { min := 200, max := 800, t := (200 + 800) / 2, delta := 0, k := 2 } ∧
      ∃ c, classify_signal 0 0 two_level_table = ClassifyOutcome.done c ∧ c.min = 200 ∧
        c.max = 800 ∧ ((0 : Nat) = 0 → c.p_limit = (200 + 800) / 2) ∧
        c.signal_type = (if 800 / 200 > 1 then 2 else 1) :=
  ⟨by decide,
    (C16_two_level_convergence two_level_table 200 800 two_level_table_lengths
      ⟨0, by decide⟩ ⟨10, by decide⟩ (by decide) (by decide) (by decide) (by decide)).2.2.1,
    (C16_two_level_convergence two_level_table 200 800 two_level_table_lengths
      ⟨0, by decide⟩ ⟨10, by decide⟩ (by decide) (by decide) (by decide) (by decide)).2.2.2
      0 0 (by decide) (by decide)⟩

/-- C17: signal-type decision. When `classify_signal` completes, with `(min, max)` the final
centers of the 2-cluster refinement, `min` is not zero, the signal is classified pulse-coded
(`signal_type = 2`) exactly when `max / min > 1` in integer division, that is when
`max ≥ 2 * min`, and distance-coded (`signal_type = 1`) otherwise; and `p_limit` is the
`override_short` value when one is set and else `(max + min) / 2` in `unsigned int`
arithmetic, which is `(max + min) / 2` when the sum fits 32 bits. -/
theorem C17_signal_type (os ol : Nat) (d : PulseTable) (c : Classification)
    (h : classify_signal os ol d = ClassifyOutcome.done c) :
    (∃ c2, cluster2_loop d 9 (cluster2_init d) = some c2 ∧ c.min = c2.min ∧ c.max = c2.max) ∧
      c.min ≠ 0 ∧
      (c.signal_type = 2 ↔ c.max / c.min > 1) ∧
      (c.max / c.min > 1 ↔ c.max ≥ 2 * c.min) ∧
      (c.signal_type = 1 ↔ ¬ c.max / c.min > 1) ∧
      c.p_limit = (if os ≠ 0 then os else uadd c.max c.min / 2) ∧
      (os = 0 → c.max + c.min < U32 → c.p_limit = (c.max + c.min) / 2) := by
  obtain ⟨c2, hl, hm, h1, h2, h3, h4⟩ := classify_signal_done os ol d c h
  rw [← h1, ← h2] at h3 h4
  rw [← h1] at hm
  refine ⟨⟨c2, hl, h1, h2⟩, hm, ?_, ?_, ?_, h4, ?_⟩
  · rw [h3]
    by_cases hd : c.max / c.min > 1
    · simp [hd]
    · simp [hd]
  · have hpos : 0 < c.min := Nat.pos_of_ne_zero hm
    constructor
    · intro hd
      have h2le : 2 ≤ c.max / c.min := hd
      have := (Nat.le_div_iff_mul_le hpos).mp h2le
      omega
    · intro hd
      have : 2 ≤ c.max / c.min := (Nat.le_div_iff_mul_le hpos).mpr (by omega)
      exact this
  · rw [h3]
    by_cases hd : c.max / c.min > 1
    · simp [hd]
    · simp [hd]
  · intro hos hsum
    rw [h4, if_neg (fun hne => hne hos), uadd_eq _ _ hsum]

theorem C17_signal_type_witness :
    classify_signal 0 0 two_level_table = ClassifyOutcome.done two_level_classification ∧
      (two_level_classification.signal_type = 2 ↔
        two_level_classification.max / two_level_classification.min > 1) ∧
      (two_level_classification.max / two_level_classification.min > 1 ↔
        two_level_classification.max ≥ 2 * two_level_classification.min) :=
  ⟨two_level_table_classified,
    (C17_signal_type 0 0 two_level_table two_level_classification
      two_level_table_classified).2.2.1,
    (C17_signal_type 0 0 two_level_table two_level_classification
      two_level_table_classified).2.2.2.1⟩

/-- C18, counterexample to the unconditional order of the centers. On a table of three pulses
with two equal gaps of 90 samples the scan gives `min = max = 90` and both boundaries 90, so the
first round puts both gaps into bucket 2 and leaves buckets 0 and 1 empty: the centers after the
clamping step are `(90, 0, 90)`, with `a0 > a1`. Later rounds repeat this and the loop stops at
the round limit with the same centers. -/
theorem C18_empty_bucket_breaks_order :
    gap_scan even_gap_table = { a0 := 90, a2 := 90 } ∧
    cluster3_round (signal_distance_data even_gap_table) (gap_scan even_gap_table).a0
        (gap_scan even_gap_table).a2 (cluster3_init even_gap_table) =
      { a0 := 90, a1 := 0, a2 := 90, b0 := 45, b1 := 45, delta := 16200, k := 2 } ∧
    cluster3_loop (signal_distance_data even_gap_table) (gap_scan even_gap_table).a0
        (gap_scan even_gap_table).a2 9 (cluster3_init even_gap_table) =
      { a0 := 90, a1 := 0, a2 := 90, b0 := 45, b1 := 45, delta := 8100, k := 10 } ∧
    ¬ ((cluster3_round (signal_distance_data even_gap_table) (gap_scan even_gap_table).a0
        (gap_scan even_gap_table).a2 (cluster3_init even_gap_table)).a0 ≤
      (cluster3_round (signal_distance_data even_gap_table) (gap_scan even_gap_table).a0
        (gap_scan even_gap_table).a2 (cluster3_init even_gap_table)).a1) := by
  refine ⟨even_gap_table_round.1, even_gap_table_round.2, even_gap_table_loop, ?_⟩
  rw [even_gap_table_round.2]
  decide

/-- C18 (amended). A round of the gap refinement, from whatever state `s` it starts, ends with
`a0 ≤ a1 ≤ a2` (after the clamping step) provided the middle and the upper bucket of that round
are not empty and the bucket sums fit 32 bits, which `1000 * max < 2^32` ensures. An empty
middle or upper bucket keeps the center 0, which is what breaks the order otherwise; the center
of an empty lower bucket is raised to `min` by the clamping step. -/
theorem C18_centers_ordered (d : PulseTable) (s : Cluster3)
    (hfit : 1000 * (gap_scan d).a2 < U32)
    (h1 : (cluster3_sums (signal_distance_data d) s.b0 s.b1).cnt1 ≠ 0)
    (h2 : (cluster3_sums (signal_distance_data d) s.b0 s.b1).cnt2 ≠ 0) :
    (cluster3_round (signal_distance_data d) (gap_scan d).a0 (gap_scan d).a2 s).a0 ≤
      (cluster3_round (signal_distance_data d) (gap_scan d).a0 (gap_scan d).a2 s).a1 ∧
    (cluster3_round (signal_distance_data d) (gap_scan d).a0 (gap_scan d).a2 s).a1 ≤
      (cluster3_round (signal_distance_data d) (gap_scan d).a0 (gap_scan d).a2 s).a2 := by
  rw [cluster3_sums_eq] at h1 h2
  exact cluster3_round_ordered _ _ _ (signal_distance_data_le_max d)
    (signal_distance_data_ge_min d) hfit s h1 h2

/-- C18 (amended), instance: four pulses with the gaps 10, 50 and 100; the first round fills all
three buckets and gives the centers `(10, 50, 100)`. -/
theorem C18_centers_ordered_witness :
    (1000 * (gap_scan three_gap_table).a2 < U32 ∧
      (cluster3_sums (signal_distance_data three_gap_table) (cluster3_init three_gap_table).b0
        (cluster3_init three_gap_table).b1).cnt1 ≠ 0 ∧
      (cluster3_sums (signal_distance_data three_gap_table) (cluster3_init three_gap_table).b0
        (cluster3_init three_gap_table).b1).cnt2 ≠ 0) ∧
    cluster3_round (signal_distance_data three_gap_table) (gap_scan three_gap_table).a0
        (gap_scan three_gap_table).a2 (cluster3_init three_gap_table) =
      { a0 := 10, a1 := 50, a2 := 100, b0 := 30, b1 := 75, delta := 25, k := 2 } ∧
    ((cluster3_round (signal_distance_data three_gap_table) (gap_scan three_gap_table).a0
        (gap_scan three_gap_table).a2 (cluster3_init three_gap_table)).a0 ≤
      (cluster3_round (signal_distance_data three_gap_table) (gap_scan three_gap_table).a0
        (gap_scan three_gap_table).a2 (cluster3_init three_gap_table)).a1 ∧
    (cluster3_round (signal_distance_data three_gap_table) (gap_scan three_gap_table).a0
        (gap_scan three_gap_table).a2 (cluster3_init three_gap_table)).a1 ≤
      (cluster3_round (signal_distance_data three_gap_table) (gap_scan three_gap_table).a0
        (gap_scan three_gap_table).a2 (cluster3_init three_gap_table)).a2) :=
  ⟨three_gap_table_buckets, three_gap_table_round,
    C18_centers_ordered three_gap_table (cluster3_init three_gap_table)
      three_gap_table_buckets.1 three_gap_table_buckets.2.1 three_gap_table_buckets.2.2⟩

/-- C19 (as stated, refuted): the one gap of `far_gap_table` is 2000000 samples long, so the
observed minimum gap is 2000000; the scan starts from `a[0] = 1000000` and lowers it only to a
gap that is not larger, so `min` stays 1000000, and after the first round of the 3-cluster
refinement `a0` is 1000000, below the observed minimum gap. -/
theorem C19_far_gap_below_minimum :
    IsObservedMinGap far_gap_table 2000000 ∧
    gap_scan far_gap_table = { a0 := 1000000, a2 := 2000000 } ∧
    (cluster3_round (signal_distance_data far_gap_table) (gap_scan far_gap_table).a0
        (gap_scan far_gap_table).a2 (cluster3_init far_gap_table)).a0 = 1000000 ∧
    ¬ 2000000 ≤
      (cluster3_round (signal_distance_data far_gap_table) (gap_scan far_gap_table).a0
        (gap_scan far_gap_table).a2 (cluster3_init far_gap_table)).a0 := by
  refine ⟨far_gap_table_gap.1, far_gap_table_round.1, far_gap_table_round.2, ?_⟩
  rw [far_gap_table_round.2]
  omega

/-- C19 (amended: clamping of the gap centers). For every pulse table with at least one gap
whose observed minimum gap `m` is at most 1000000 and whose observed maximum gap is `M`, the
scan of `classify_signal` leaves `min = m` and `max = M`, and each round of the 3-cluster
refinement, from whatever state it starts, ends with `a0` not below `m` and `a2` not above `M`;
so does every state the loop of `classify_signal` reaches from its initial guesses. The bound on
`a2` holds because a bucket mean never exceeds the largest gap, even when a bucket sum has
wrapped. -/
theorem C19_gap_centers_clamped (d : PulseTable) (m M : Nat) (hm : IsObservedMinGap d m)
    (hM : IsObservedMaxGap d M) (hsmall : m ≤ 1000000) :
    (gap_scan d).a0 = m ∧ (gap_scan d).a2 = M ∧
    (∀ s : Cluster3,
      m ≤ (cluster3_round (signal_distance_data d) (gap_scan d).a0 (gap_scan d).a2 s).a0 ∧
      (cluster3_round (signal_distance_data d) (gap_scan d).a0 (gap_scan d).a2 s).a2 ≤ M) ∧
    (∀ fuel,
      m ≤ (cluster3_loop (signal_distance_data d) (gap_scan d).a0 (gap_scan d).a2 fuel
          (cluster3_init d)).a0 ∧
      (cluster3_loop (signal_distance_data d) (gap_scan d).a0 (gap_scan d).a2 fuel
          (cluster3_init d)).a2 ≤ M) := by
  obtain ⟨e2, e0⟩ := gap_scan_observed d m M hm hM
  have e0 := e0 hsmall
  have hle := signal_distance_data_le_max d
  have hr := fun s => cluster3_round_a0_ge (signal_distance_data d) (gap_scan d).a0
    (gap_scan d).a2 hle s
  have hr2 := fun s => cluster3_round_a2_le (signal_distance_data d) (gap_scan d).a0
    (gap_scan d).a2 hle s
  have hl := fun fuel => cluster3_loop_clamped (signal_distance_data d) (gap_scan d).a0
    (gap_scan d).a2 hle fuel (cluster3_init d) (Nat.le_of_eq (cluster3_init_a0 d).symm)
    (Nat.le_of_eq (cluster3_init_a2 d))
  refine ⟨e0, e2, fun s => ⟨?_, ?_⟩, fun fuel => ⟨?_, ?_⟩⟩
  · have := hr s
    omega
  · have := hr2 s
    omega
  · have := (hl fuel).1
    omega
  · have := (hl fuel).2
    omega

theorem C19_gap_centers_clamped_witness :
    IsObservedMinGap three_gap_table 10 ∧ IsObservedMaxGap three_gap_table 100 ∧
    (gap_scan three_gap_table).a0 = 10 ∧ (gap_scan three_gap_table).a2 = 100 ∧
    10 ≤ (cluster3_round (signal_distance_data three_gap_table) (gap_scan three_gap_table).a0
        (gap_scan three_gap_table).a2 (cluster3_init three_gap_table)).a0 ∧
    (cluster3_round (signal_distance_data three_gap_table) (gap_scan three_gap_table).a0
        (gap_scan three_gap_table).a2 (cluster3_init three_gap_table)).a2 ≤ 100 :=
  have h := C19_gap_centers_clamped three_gap_table 10 100 three_gap_table_gaps.1
    three_gap_table_gaps.2 (by decide)
  ⟨three_gap_table_gaps.1, three_gap_table_gaps.2, h.1, h.2.1,
    h.2.2.1 (cluster3_init three_gap_table)⟩

/-- C20 (ring-buffer snapshot split). For a buffer of `N` bytes (`N` standing for
`SIGNAL_GRABBER_BUFFER`, small enough that `start_pos + size` fits a C `int`), a start position
`0 ≤ start_pos < N` and a snapshot size `0 ≤ size ≤ N`, the Signal Grabber keeps `start_pos`,
writes `wlen` bytes from `start_pos` and then `wrest` bytes from index 0, where
`wlen + wrest = size`, `start_pos + wlen ≤ N`, and `wrest` is non-zero exactly when
`start_pos + size > N`; the bytes written are the circular range
`sg_buf[(start_pos + k) mod N]`, `k = 0..size-1`. -/
theorem C20_grabber_split (sg_buf : List Nat) (N start_pos size : Int)
    (hlen : (sg_buf.length : Int) = N) (hN : N ≤ 1073741824)
    (h0 : 0 ≤ start_pos) (h1 : start_pos < N) (hs0 : 0 ≤ size) (hs : size ≤ N) :
    (grabber_split N start_pos size).start_pos = start_pos ∧
    0 ≤ (grabber_split N start_pos size).wlen ∧
    0 ≤ (grabber_split N start_pos size).wrest ∧
    (grabber_split N start_pos size).wlen + (grabber_split N start_pos size).wrest = size ∧
    start_pos + (grabber_split N start_pos size).wlen ≤ N ∧
    ((grabber_split N start_pos size).wrest ≠ 0 ↔ start_pos + size > N) ∧
    grabber_write sg_buf (grabber_split N start_pos size) =
      (sg_buf.drop start_pos.toNat).take (grabber_split N start_pos size).wlen.toNat ++
        sg_buf.take (grabber_split N start_pos size).wrest.toNat ∧
    grabber_write sg_buf (grabber_split N start_pos size) =
      (List.range size.toNat).map
        (fun k => sg_buf.getD ((start_pos.toNat + k) % N.toNat) 0) := by
  lift start_pos to ℕ using h0 with sp
  lift size to ℕ using hs0 with sz
  subst hlen
  have hsp : sp < sg_buf.length := by omega
  have hsz : sz ≤ sg_buf.length := by omega
  have hn : sg_buf.length ≤ 1073741824 := by omega
  rw [grabber_split_nat _ _ _ hn hsp hsz]
  have hr := ring_read sg_buf sp sz hsp hsz
  by_cases h : sp + sz > sg_buf.length
  · rw [if_pos h]
    have hne : ((sz - (sg_buf.length - sp) : Nat) : Int) ≠ 0 := by omega
    have hmin : min sz (sg_buf.length - sp) = sg_buf.length - sp := by omega
    rw [hmin] at hr
    refine ⟨rfl, by simp only []; omega, by simp only []; omega, by simp only []; omega,
      by simp only []; omega,
      ⟨fun _ => by omega, fun _ => hne⟩, ?_, ?_⟩
    · unfold grabber_write
      simp only [if_pos hne]
    · unfold grabber_write
      simp only [if_pos hne, Int.toNat_natCast]
      exact hr
  · rw [if_neg h]
    have hmin : min sz (sg_buf.length - sp) = sz := by omega
    have hz : sz - (sg_buf.length - sp) = 0 := by omega
    rw [hmin, hz, List.take_zero, List.append_nil] at hr
    refine ⟨rfl, by simp only []; omega, by simp only []; omega, by simp only []; omega,
      by simp only []; omega, ⟨fun hc => absurd rfl hc, fun hc => by omega⟩, ?_, ?_⟩
    · unfold grabber_write
      simp
    · unfold grabber_write
      simp only [Int.toNat_natCast, ne_eq, not_true_eq_false, if_false, List.append_nil]
      exact hr

/-- C20, instance: a buffer of 8 bytes read from position 6 for 5 bytes is written as the
segments of 2 and 3 bytes. -/
theorem C20_grabber_split_witness :
    grabber_split 8 6 5 = { start_pos := 6, wlen := 2, wrest := 3 } ∧
    grabber_write [10, 11, 12, 13, 14, 15, 16, 17] (grabber_split 8 6 5) = [16, 17, 10, 11, 12] ∧
    grabber_write [10, 11, 12, 13, 14, 15, 16, 17] (grabber_split 8 6 5) =
      (List.range (5 : Int).toNat).map
        (fun k => [10, 11, 12, 13, 14, 15, 16, 17].getD (((6 : Int).toNat + k) % (8 : Int).toNat) 0) :=
  ⟨by decide, by decide,
    (C20_grabber_split [10, 11, 12, 13, 14, 15, 16, 17] 8 6 5 (by decide) (by decide) (by decide)
      (by decide) (by decide) (by decide)).2.2.2.2.2.2.2⟩

/-- C21 (scheduler alignment for sub-hour periods). For a frequency `0 < f < 60` that divides
60, with `m` the current local minute (`tm_min` of what `localtime` returned, 0 to 59) and `d` the
whole minutes elapsed since the action was last done, `getMinutesToWait(f, now, last)` returns a
value `r` with `(m + r) mod f = 0`, and `r = 0` exactly when `m mod f = 0` and `d ≠ 0`; with
`f = 15` the result is zero only at the minutes 0, 15, 30 and 45. -/
theorem C21_sub_hour_alignment (localtime : Int → Option Tm) (frequency : Nat)
    (currentTime timeLastDone : Int) (t : Tm) (m : Nat) (hf0 : 0 < frequency)
    (hf : frequency < 60) (hdiv : 60 % frequency = 0) (ht : localtime currentTime = some t)
    (hm : t.tm_min = m) (hm60 : m < 60) :
    ∃ r, getMinutesToWait localtime frequency currentTime timeLastDone = some r ∧
      (m + r) % frequency = 0 ∧
      (r = 0 ↔ (m % frequency = 0 ∧ minsSinceLastDone currentTime timeLastDone ≠ 0)) ∧
      (frequency = 15 → r = 0 → m = 0 ∨ m = 15 ∨ m = 30 ∨ m = 45) := by
  refine ⟨_, getMinutesToWait_some localtime frequency currentTime timeLastDone t ht, ?_⟩
  have hv := getMinutesToWait_sub_hour frequency (minsSinceLastDone currentTime timeLastDone) t m
    hf0 hf hdiv hm hm60
  have hlt : m % frequency < frequency := Nat.mod_lt m hf0
  generalize getMinutesToWait_minutes frequency (minsSinceLastDone currentTime timeLastDone) t = r
    at hv
  have hiff : r = 0 ↔
      (m % frequency = 0 ∧ minsSinceLastDone currentTime timeLastDone ≠ 0) := by
    rw [hv]
    by_cases h1 : m % frequency ≠ 0
    · rw [if_pos h1]
      constructor
      · intro h
        omega
      · intro h
        exact absurd h.1 h1
    · rw [if_neg h1]
      by_cases h2 : minsSinceLastDone currentTime timeLastDone ≠ 0
      · rw [if_pos h2]
        exact ⟨fun _ => ⟨by omega, h2⟩, fun _ => rfl⟩
      · rw [if_neg h2]
        constructor
        · intro h
          omega
        · intro h
          exact absurd h.2 h2
  refine ⟨?_, hiff, ?_⟩
  · rw [hv]
    by_cases h1 : m % frequency ≠ 0
    · rw [if_pos h1]
      exact add_complement_mod m frequency hf0
    · rw [if_neg h1]
      by_cases h2 : minsSinceLastDone currentTime timeLastDone ≠ 0
      · rw [if_pos h2, Nat.add_zero]
        omega
      · rw [if_neg h2, Nat.add_mod_right]
        omega
  · intro h15 hr
    have h0 := (hiff.mp hr).1
    subst h15
    omega

/-- C21, instance: at 05:07 with the action last done at 05:00, period 15 leaves 8 minutes to
wait, which leads to minute 15. -/
theorem C21_sub_hour_alignment_witness :
    getMinutesToWait localtime_utc 15 18420 18000 = some 8 ∧
    ∃ r, getMinutesToWait localtime_utc 15 18420 18000 = some r ∧ (7 + r) % 15 = 0 :=
  ⟨by decide,
    (C21_sub_hour_alignment localtime_utc 15 18420 18000 { tm_hour := 5, tm_min := 7 } 7
      (by decide) (by decide) (by decide) (by decide) (by decide) (by decide)).imp
      fun _ h => ⟨h.1, h.2.1⟩⟩

/-- C22 (as stated, refuted): the frequency 2147483700 is a multiple of 60, yet at 00:05, five
minutes after the action was last done, `minsSinceLastDone` equals the current minute, the
function takes the branch `minutesLeft = frequency - minsSinceLastDone`, the difference
2147483695 is negative as an `int`, and the result is 0 although the minute is not 0. -/
theorem C22_huge_frequency_fires_off_the_hour :
    60 ≤ 2147483700 ∧ 2147483700 % 60 = 0 ∧
    localtime_utc 300 = some { tm_hour := 0, tm_min := 5 } ∧
    minsSinceLastDone 300 0 = 5 ∧
    getMinutesToWait localtime_utc 2147483700 300 0 = some 0 := by
  decide

/-- C22 (amended): for a frequency `f ≥ 60` that is a multiple of 60 and below `2^31`,
`getMinutesToWait` returns 0 exactly when the current local minute is 0, the current local hour
is a multiple of `f / 60` and the whole minutes elapsed since the action was last done are not
zero, which for a last-done time not after the current time means that at least 60 seconds have
elapsed; so the result is zero only at the top of an hour. The minute and the hour are those of
what `localtime` returned. -/
theorem C22_whole_hour_alignment (localtime : Int → Option Tm) (frequency : Nat)
    (currentTime timeLastDone : Int) (t : Tm) (h m : Nat) (hf : 60 ≤ frequency)
    (hdiv : frequency % 60 = 0) (hbig : frequency < 2147483648)
    (ht : localtime currentTime = some t) (hh : t.tm_hour = h) (hm : t.tm_min = m)
    (hm60 : m < 60) :
    ∃ r, getMinutesToWait localtime frequency currentTime timeLastDone = some r ∧
      (r = 0 ↔
        (m = 0 ∧ h % (frequency / 60) = 0 ∧ minsSinceLastDone currentTime timeLastDone ≠ 0)) ∧
      (timeLastDone ≤ currentTime →
        (minsSinceLastDone currentTime timeLastDone ≠ 0 ↔ 60 ≤ currentTime - timeLastDone)) ∧
      (r = 0 → m = 0) := by
  refine ⟨_, getMinutesToWait_some localtime frequency currentTime timeLastDone t ht, ?_⟩
  have hiff := getMinutesToWait_hours_zero_iff frequency
    (minsSinceLastDone currentTime timeLastDone) t h m hf hdiv hbig hh hm hm60
  refine ⟨hiff, ?_, fun hr => (hiff.mp hr).1⟩
  intro hle
  unfold minsSinceLastDone SECS_PER_MIN
  rw [Int.tdiv_eq_ediv (by omega) (by omega)]
  omega

/-- C22 (amended), instance: period 120 at 06:00, one hour after the action was last done. -/
theorem C22_whole_hour_alignment_witness :
    getMinutesToWait localtime_utc 120 21600 18000 = some 0 ∧
    ∃ r, getMinutesToWait localtime_utc 120 21600 18000 = some r ∧
      (r = 0 ↔ ((0 : Nat) = 0 ∧ 6 % (120 / 60) = 0 ∧ minsSinceLastDone 21600 18000 ≠ 0)) :=
  ⟨by decide,
    (C22_whole_hour_alignment localtime_utc 120 21600 18000 { tm_hour := 6, tm_min := 0 } 6 0
      (by decide) (by decide) (by decide) (by decide) (by decide) (by decide)
      (by decide)).imp fun _ h => ⟨h.1, h.2.1⟩⟩

/-- C23 (as stated, refuted): for the current time `2^62` seconds `localtime` returns the null
pointer (the year does not fit `tm_year`); `getMinutesToWait` reads `localTime->tm_min` before
it tests `frequency == 0`, so with frequency 0 the call does not return 9999: it does not
return. -/
theorem C23_unconvertible_time_does_not_return :
    localtime_utc 4611686018427387904 = none ∧
    getMinutesToWait localtime_utc 0 4611686018427387904 0 = none ∧
    getMinutesToWait localtime_utc 0 4611686018427387904 0 ≠ some 9999 := by
  decide

/-- C23 (amended): for every current time that `localtime` converts (it returns a `struct tm`,
not the null pointer) and every last-done time, `getMinutesToWait(0, now, last)` returns 9999
and therefore never 0, so the test that guards each action of `WX_DoScheduledActions` fails for
an action whose frequency is 0. -/
theorem C23_frequency_zero_never_due (localtime : Int → Option Tm)
    (currentTime timeLastDone : Int) (t : Tm) (ht : localtime currentTime = some t) :
    getMinutesToWait localtime 0 currentTime timeLastDone = some 9999 ∧
    getMinutesToWait localtime 0 currentTime timeLastDone ≠ some 0 ∧
    scheduled_action_due localtime 0 currentTime timeLastDone = some false := by
  have hv : getMinutesToWait_minutes 0 (minsSinceLastDone currentTime timeLastDone) t = 9999 := by
    unfold getMinutesToWait_minutes
    simp only [if_true]
    decide
  have h : getMinutesToWait localtime 0 currentTime timeLastDone = some 9999 := by
    rw [getMinutesToWait_some localtime 0 currentTime timeLastDone t ht, hv]
  refine ⟨h, by rw [h]; decide, ?_⟩
  unfold scheduled_action_due
  rw [h]
  decide

/-- C23 (amended), instance: frequency 0 at 05:07, seven minutes after the action was last
done. -/
theorem C23_frequency_zero_never_due_witness :
    localtime_utc 18420 = some { tm_hour := 5, tm_min := 7 } ∧
    getMinutesToWait localtime_utc 0 18420 18000 = some 9999 ∧
    scheduled_action_due localtime_utc 0 18420 18000 = some false :=
  ⟨by decide,
    (C23_frequency_zero_never_due localtime_utc 18420 18000 { tm_hour := 5, tm_min := 7 }
      (by decide)).1,
    (C23_frequency_zero_never_due localtime_utc 18420 18000 { tm_hour := 5, tm_min := 7 }
      (by decide)).2.2⟩

/-- C24 (a gap at a midpoint gets no symbol). Three pulses of length 10 with the gaps 10 and 100
are classified distance-coded with the final centers `(a0, a1, a2) = (10, 10, 100)`; the gap 10
at position 0 equals `(a0 + a1) / 2`, none of the three strict comparisons of the distance
re-walk holds for it, and the only symbol handed to the printer is the packet boundary of the
gap 100. Likewise a gap of 55, equal to `(a1 + a2) / 2`, gets no packet boundary in the distance
re-walk, while the pulse re-walk, which compares with `>=`, emits one. -/
theorem C24_gap_at_midpoint_gets_no_symbol :
    classify_signal 0 0 two_gap_table = ClassifyOutcome.done two_gap_classification ∧
    two_gap_classification.signal_type = 1 ∧
    signal_distance_data two_gap_table 0 = 10 ∧
    signal_distance_data two_gap_table 1 = 100 ∧
    rewalk_distance (signal_distance_data two_gap_table) 10 10 100 0 = [] ∧
    rewalk_distance (signal_distance_data two_gap_table) 10 10 100 1 = [Symbol.packet] ∧
    rewalk_distance (fun _ => 55) 10 10 100 0 = [] ∧
    rewalk_pulse two_gap_table (fun _ => 55) 10 10 100 0 = [Symbol.bit1, Symbol.packet] :=
  ⟨two_gap_table_classified, by decide, by decide, by decide, by decide, by decide, by decide,
    by decide⟩

/-- C25 (the pairs decode the other way round). In `waveman_callback` every accepted byte holds
only the pairs `0 1` and `1 1`, and the decoded bit of a pair is the complement of its first bit:
the pair `1 1` decodes to 0 and the pair `0 1` decodes to 1, the reverse of the mapping written
in the comment of the function. The byte `D5`, pairs `1 1`, `0 1`, `0 1`, `0 1`, decodes to the
nibble `E`, bits 0, 1, 1, 1. -/
theorem C25_waveman_pairs_decode_inverted :
    (∀ b, b < 256 → b &&& 0x55 = 0x55 → ∀ k, k < 4 →
      (bit_pair b k).2 = true ∧ (waveman_nibble b).testBit k = !(bit_pair b k).1) ∧
    waveman_callback waveman_sample = 1 ∧
    (waveman_event waveman_sample).map WavemanEvent.nb = some [0x0E, 0x0F, 0x0F] ∧
    (List.range 4).map (bit_pair 0xD5) =
      [(true, true), (false, true), (false, true), (false, true)] ∧
    (List.range 4).map (waveman_nibble 0xD5).testBit = [false, true, true, true] :=
  ⟨waveman_nibble_bits, by decide, by decide, by decide, by decide⟩

/-- C26 (as stated, refuted): a buffer whose rows 1 to 4 start with the nibble 5 passes the
second alternative of the check of `prologue_callback`, and the id reported is 5. -/
theorem C26_prologue_id_five :
    prologue_callback prologue_sample_5 = 1 ∧
    (prologue_event prologue_sample_5).map PrologueEvent.id = some 5 := by
  decide

/-- C26 (amended): whenever `prologue_callback` accepts a buffer, the reported id (the high
nibble of `bb[1][0]`) is 9 or 5: it is 9 exactly when the rows 1 to 6 all start with the nibble
9, and 5 exactly when the rows 1 to 4 all start with the nibble 5. -/
theorem C26_prologue_id_nine_or_five (bb : BitBuf) (e : PrologueEvent)
    (h : prologue_event bb = some e) :
    (e.id = 9 ∨ e.id = 5) ∧
    (e.id = 9 ↔
      (bb.byte 1 0 &&& 0xF0 = 0x90 ∧ bb.byte 2 0 &&& 0xF0 = 0x90 ∧ bb.byte 3 0 &&& 0xF0 = 0x90 ∧
        bb.byte 4 0 &&& 0xF0 = 0x90 ∧ bb.byte 5 0 &&& 0xF0 = 0x90 ∧
        bb.byte 6 0 &&& 0xF0 = 0x90)) ∧
    (e.id = 5 ↔
      (bb.byte 1 0 &&& 0xF0 = 0x50 ∧ bb.byte 2 0 &&& 0xF0 = 0x50 ∧ bb.byte 3 0 &&& 0xF0 = 0x50 ∧
        bb.byte 4 0 &&& 0xF0 = 0x50)) := by
  obtain ⟨hc, hid⟩ := prologue_event_id bb e h
  unfold prologue_check at hc
  rcases hc with h9 | h5
  · have e9 : e.id = 9 := by rw [hid, h9.1]; rfl
    refine ⟨Or.inl e9, ⟨fun _ => h9, fun _ => e9⟩, ?_⟩
    constructor
    · intro h5
      rw [e9] at h5
      exact absurd h5 (by decide)
    · intro h5
      rw [h9.1] at h5
      exact absurd h5.1 (by decide)
  · have e5 : e.id = 5 := by rw [hid, h5.1]; rfl
    refine ⟨Or.inr e5, ?_, ⟨fun _ => h5, fun _ => e5⟩⟩
    constructor
    · intro h9
      rw [e5] at h9
      exact absurd h9 (by decide)
    · intro h9
      rw [h5.1] at h9
      exact absurd h9.1 (by decide)

/-- C26 (amended), instance: a buffer whose rows 1 to 6 start with the nibble 9. -/
theorem C26_prologue_id_nine_or_five_witness :
    prologue_event prologue_sample_9 =
      some { button := 0, battery := false, temp2 := 215, humidity := 204, channel := 2,
             id := 9, rid := 168 } ∧
    ((9 : Nat) = 9 ∨ (9 : Nat) = 5) :=
  ⟨by decide,
    (C26_prologue_id_nine_or_five prologue_sample_9
      { button := 0, battery := false, temp2 := 215, humidity := 204, channel := 2,
        id := 9, rid := 168 } (by decide)).1⟩

/-- C27 (the refinement divides by zero). At level limit 100 the samples `0, 101, 0, 101, 101, 0`
leave two pulses of the lengths 2 and 3 in the table, and every row that holds a pulse has a
positive length. The scan gives `min = 2`, `max = 3`, `t = (3 + 2) / 2 = 2` and `delta = 1`, so
the first round runs; no length is below `t`, `count_min` stays 0 and `min_new / count_min`
divides by zero. -/
theorem C27_adjacent_lengths_divide_by_zero :
    ∃ s, pwm_analyze pwm_config_100 pwm_init [0, 101, 0, 101, 101, 0] = PwmOutcome.ok s ∧
      (s.signal_pulse_data 0 0 = 1 ∧ s.signal_pulse_data 0 1 = 3 ∧
        s.signal_pulse_data 0 2 = 2) ∧
      (s.signal_pulse_data 1 0 = 3 ∧ s.signal_pulse_data 1 1 = 6 ∧
        s.signal_pulse_data 1 2 = 3) ∧
      (∀ i, s.signal_pulse_data i 0 > 0 → s.signal_pulse_data i 2 > 0) ∧
      cluster2_init s.signal_pulse_data = { min := 2, max := 3, t := 2, delta := 1, k := 1 } ∧
      (cluster2_sums s.signal_pulse_data 2).count_min = 0 ∧
      cluster2_round s.signal_pulse_data (cluster2_init s.signal_pulse_data) = none ∧
      classify_signal 0 0 s.signal_pulse_data = ClassifyOutcome.crashed := by
  obtain ⟨s, h, r0, r1, hi, hs, hc⟩ := adjacent_lengths_state
  have hcm : (cluster2_sums s.signal_pulse_data 2).count_min = 0 := by rw [hs]
  refine ⟨s, h, r0, r1, pwm_analyze_lengths_positive _ _ s h (by decide), hi, hcm, ?_, hc⟩
  apply cluster2_round_empty_short
  rw [hi]
  exact hcm

/-- C28 (reads of `em1000_callback` are in bounds). The combined row has 14 bytes. After `n ≤ 9`
rounds of the second loop the bit cursor is `18 + 9 n`, so it never wraps; the 8-bit read at the
cursor (a data byte, or the checksum when `n = 9`) and the stop-bit read that follows a data
byte visit stream positions between 18 and 106 and byte indices between 2 and 13. The value of
`AD_POP` depends on the bytes at the indices it visits only, and the result of
`em1000_callback` on the columns 0..13 of the rows 0, 1 and 2 only. -/
theorem C28_em1000_reads_in_bounds (bb : BitBuf) :
    (∀ bb_p, em1000_combine bb = some bb_p → bb_p.length = 14) ∧
    (∀ bb_p n s, n ≤ 9 → em1000_read bb_p n = some s →
      s.bit = 18 + 9 * n ∧ s.bit + 9 < 256 ∧
      (∀ p ∈ AD_POP_positions 8 s.bit, 18 ≤ p ∧ p ≤ 106) ∧
      (∀ b ∈ AD_POP_bytes 8 s.bit, 2 ≤ b ∧ b ≤ 13) ∧
      (n < 9 → (s.bit + 8) % 256 = 26 + 9 * n ∧
        (∀ p ∈ AD_POP_positions 1 ((s.bit + 8) % 256), 18 ≤ p ∧ p ≤ 106) ∧
        (∀ b ∈ AD_POP_bytes 1 ((s.bit + 8) % 256), 2 ≤ b ∧ b ≤ 13))) ∧
    (∀ row row2 bits bit, (∀ b ∈ AD_POP_bytes bits bit, row.byte b = row2.byte b) →
      AD_POP row bits bit = AD_POP row2 bits bit) ∧
    (∀ bb2, (∀ r c, r < 3 → c < 14 → bb.byte r c = bb2.byte r c) →
      em1000_callback bb = em1000_callback bb2) := by
  refine ⟨?_, ?_, fun row row2 bits bit h => AD_POP_congr row row2 bit bits h,
    fun bb2 h => em1000_callback_congr bb bb2 h⟩
  · intro bb_p h
    exact (em1000_combine_upto_some bb 14 bb_p h).1
  · intro bb_p n s hn h
    have hbit := em1000_read_bit bb_p n s hn h
    refine ⟨hbit, by omega, ?_, ?_, ?_⟩
    · intro p hp
      have := AD_POP_positions_mem 8 s.bit p hp
      omega
    · intro b hb
      have := AD_POP_bytes_mem 8 s.bit b (by omega) hb
      omega
    · intro hn9
      have hc : (s.bit + 8) % 256 = 26 + 9 * n := by omega
      refine ⟨hc, ?_, ?_⟩
      · intro p hp
        have := AD_POP_positions_mem 1 _ p hp
        omega
      · intro b hb
        have := AD_POP_bytes_mem 1 _ b (by omega) hb
        omega

/-- C29 (chunk-boundary independence). From any statics and for any level limit, when the table
does not overflow while the samples `s1` are processed, `pwm_analyze` on `s1` and then on `s2`
leaves the statics that one call on `s1 ++ s2` leaves (an overflow or a crash of the classifier
during `s2` ends both runs alike). -/
theorem C29_chunk_boundary_independence (cfg : PwmConfig) (s : PwmState) (s1 s2 : List Int)
    (h : ∀ t, pwm_analyze cfg s s1 ≠ PwmOutcome.err t) :
    pwm_chunks cfg s [s1, s2] = pwm_chunks cfg s [s1 ++ s2] ∧
    (∀ t, pwm_analyze cfg s s1 = PwmOutcome.ok t →
      pwm_analyze cfg s (s1 ++ s2) = pwm_analyze cfg t s2) := by
  constructor
  · rw [pwm_chunks_cons, pwm_chunks_cons, pwm_analyze_append]
    cases h1 : pwm_analyze cfg s s1 with
    | ok t =>
      simp only []
      rw [pwm_chunks_cons]
    | err t => exact absurd h1 (h t)
    | crashed => rfl
  · intro t ht
    rw [pwm_analyze_append, ht]

/-- C29, instance: the samples `0, 101` and then `0`, against `0, 101, 0` in one chunk. -/
theorem C29_chunk_boundary_independence_witness :
    pwm_chunks pwm_config_100 pwm_init [[0, 101], [0]] =
      pwm_chunks pwm_config_100 pwm_init [[0, 101] ++ [0]] :=
  (C29_chunk_boundary_independence pwm_config_100 pwm_init [0, 101] [0]
    (fun _ ht => PwmOutcome.noConfusion ht)).1

/-- C30 (timing limits of the descriptors). Every descriptor defined in the source (rubicson,
prologue, silvercrest, tech_line_fws_500, generic_hx2262, technoline_ws9118, elv_em1000,
elv_ws2000, waveman, steffen) has, with its initialisers evaluated in C integer arithmetic,
`0 < short_limit < long_limit < reset_limit`. -/
theorem C30_timing_limits_ordered (r : r_device) (h : r ∈ r_devices) :
    0 < r.short_limit ∧ r.short_limit < r.long_limit ∧ r.long_limit < r.reset_limit := by
  revert r
  decide

/-- C30, instance: the limits of all ten descriptors, and the order for `elv_ws2000`. -/
theorem C30_timing_limits_ordered_witness :
    r_devices.map (fun r => (r.short_limit, r.long_limit, r.reset_limit)) =
      [(436, 875, 1250), (875, 1750, 3750), (150, 1250, 3750), (875, 1750, 3750),
        (325, 2500, 10000), (450, 875, 3750), (187, 1812, 7500), (219, 12514, 50059),
        (250, 2000, 7500), (140, 270, 1500)] ∧
    (0 < elv_ws2000.short_limit ∧ elv_ws2000.short_limit < elv_ws2000.long_limit ∧
      elv_ws2000.long_limit < elv_ws2000.reset_limit) :=
  ⟨by decide, C30_timing_limits_ordered elv_ws2000 (by decide)⟩

end RtlWx
